import Mathlib

/-!
# rocFFT Bluestein kernels and the kernel-argument table

A shallow embedding of `library/src/device/kernels/bluestein.h` (the chirp
generator `chirp_device` and the four layout variants of `mul_device`) and of
`library/src/kargs.cpp` (`kargs_create`).

Conventions of the embedding.

* A complex value `T` (`float2` / `double2`) is a `Cplx R`; the scalar type `R`
  is any type carrying the arithmetic operations the kernels use.  Definitions
  need the operations only; theorems that rely on algebraic laws say so by
  asking for a field.
* A device buffer is a function from element index to value.  A kernel
  work-item is a state transformer on the output buffer(s); every access to the
  output buffer and every callback invocation is appended to a trace, in
  program order.
* `size_t` values are natural numbers below `2 ^ 64`, and `size_t` arithmetic
  is arithmetic modulo `2 ^ 64` (`szAdd`, `szSub`, `szMul`).  An element offset
  added to a buffer pointer (`output += oOffset`) is added in the same way,
  which is the effective address in the flat 64-bit address space.  In
  `chirp_device` the sums `tx + M` and, while `M - tx` has not wrapped,
  `M - tx + M` index the chirp buffer of `2 * M` elements and are written
  without reduction.
* `threadIdx.x + blockIdx.x * blockDim.x` is the work-item argument `tx`.
* The input buffers of a `mul_device` kernel are read-only and do not overlap
  its output buffer.  The one aliasing the source itself sets up, the chirp
  pointer of scheme 1 that points at the output buffer, is kept: chirp values
  are loaded from the current contents of the output buffer.
* A division by zero (`tx / numof`, `counter_mod / currentLength`), undefined in
  the source, yields `0` here; the theorems state the positivity they need.
-/

namespace RocFFT

/-! ## Data model -/

/-- Complex value with components `x` (real) and `y` (imaginary). -/
structure Cplx (R : Type) where
  x : R
  y : R
deriving DecidableEq

/-- One access of a work-item: a load from or a store to the output buffer at
an element index, or an invocation of the load / store callback. -/
inductive Access where
  | read (idx : Nat)
  | write (idx : Nat)
  | loadCb (idx : Nat)
  | storeCb (idx : Nat)
deriving DecidableEq

/-- Interleaved output buffer `T* output` together with the access trace. -/
structure IMem (R : Type) where
  output : Nat → Cplx R
  trace : List Access

/-- Planar output buffers `outputRe`, `outputIm` together with the access trace. -/
structure PMem (R : Type) where
  outputRe : Nat → R
  outputIm : Nat → R
  trace : List Access

/-- Number of values of a `size_t`. -/
def sizeMod : Nat := 2 ^ 64

/-- Unsigned `size_t` difference `a - b` (for `a, b < 2 ^ 64`). -/
def szSub (a b : Nat) : Nat := if b ≤ a then a - b else a + sizeMod - b

/-- Unsigned `size_t` product `a * b`. -/
def szMul (a b : Nat) : Nat := (a * b) % sizeMod

/-- Unsigned `size_t` sum `a + b`. -/
def szAdd (a b : Nat) : Nat := (a + b) % sizeMod

/-- Index `M - tx + M` of the store to the second copy of the mirrored chirp
value (bluestein.h line 67).  While `M - tx` has not wrapped the sum indexes the
chirp buffer; once it has wrapped (`tx > M`) the sum wraps back. -/
def mirrorSecond (M tx : Nat) : Nat :=
  if tx ≤ M then szSub M tx + M else szAdd (szSub M tx) M

/-- Buffer with the element at `idx` replaced by `v`. -/
def setAt {α : Type} (buf : Nat → α) (idx : Nat) (v : α) : Nat → α :=
  fun k => if k = idx then v else buf k

/-- Indices stored to in a trace, directly or through the store callback. -/
def writtenIdx : List Access → List Nat
  | [] => []
  | Access.write i :: t => i :: writtenIdx t
  | Access.storeCb i :: t => i :: writtenIdx t
  | _ :: t => writtenIdx t

/-- Indices of the output buffer loaded from in a trace. -/
def readIdx : List Access → List Nat
  | [] => []
  | Access.read i :: t => i :: readIdx t
  | _ :: t => readIdx t

/-- Number of load-callback invocations in a trace. -/
def loadCbCount : List Access → Nat
  | [] => 0
  | Access.loadCb _ :: t => loadCbCount t + 1
  | _ :: t => loadCbCount t

/-- Number of store-callback invocations in a trace. -/
def storeCbCount : List Access → Nat
  | [] => 0
  | Access.storeCb _ :: t => storeCbCount t + 1
  | _ :: t => storeCbCount t

section Primitives

variable {R : Type}

/-- Load `output[idx]` (interleaved). -/
def IMem.ld (idx : Nat) : StateM (IMem R) (Cplx R) := fun s =>
  (s.output idx, { s with trace := s.trace ++ [Access.read idx] })

/-- Store `output[idx] = v` (interleaved, whole element). -/
def IMem.st (idx : Nat) (v : Cplx R) : StateM (IMem R) Unit := fun s =>
  ((), { output := setAt s.output idx v, trace := s.trace ++ [Access.write idx] })

/-- Store `output[idx].x = v`. -/
def IMem.stX (idx : Nat) (v : R) : StateM (IMem R) Unit := fun s =>
  ((), { output := setAt s.output idx ⟨v, (s.output idx).y⟩,
         trace := s.trace ++ [Access.write idx] })

/-- Store `output[idx].y = v`. -/
def IMem.stY (idx : Nat) (v : R) : StateM (IMem R) Unit := fun s =>
  ((), { output := setAt s.output idx ⟨(s.output idx).x, v⟩,
         trace := s.trace ++ [Access.write idx] })

/-- Load `outputRe[idx]`. -/
def PMem.ldRe (idx : Nat) : StateM (PMem R) R := fun s =>
  (s.outputRe idx, { s with trace := s.trace ++ [Access.read idx] })

/-- Load `outputIm[idx]`. -/
def PMem.ldIm (idx : Nat) : StateM (PMem R) R := fun s =>
  (s.outputIm idx, { s with trace := s.trace ++ [Access.read idx] })

/-- Store `outputRe[idx] = v`. -/
def PMem.stRe (idx : Nat) (v : R) : StateM (PMem R) Unit := fun s =>
  ((), { s with outputRe := setAt s.outputRe idx v,
                trace := s.trace ++ [Access.write idx] })

/-- Store `outputIm[idx] = v`. -/
def PMem.stIm (idx : Nat) (v : R) : StateM (PMem R) Unit := fun s =>
  ((), { s with outputIm := setAt s.outputIm idx v,
                trace := s.trace ++ [Access.write idx] })

/-- State after a work-item, started from `s`. -/
def after {σ : Type} (k : StateM σ Unit) (s : σ) : σ := (k s).2

/-- State after the work-items of `order` have run one after the other. -/
def launch {σ : Type} (kernel : Nat → StateM σ Unit) (order : List Nat) (s : σ) : σ :=
  order.foldl (fun st tx => after (kernel tx) st) s

end Primitives

/-! ## `chirp_device` -/

/-- The large-twiddle lookups `TWLstep1` .. `TWLstep4` of `common.h`, which the
chirp generator consumes: each maps the twiddle table and an index to a complex
value. -/
structure TWLsteps (Tw R : Type) where
  TWLstep1 : Tw → Nat → Cplx R
  TWLstep2 : Tw → Nat → Cplx R
  TWLstep3 : Tw → Nat → Cplx R
  TWLstep4 : Tw → Nat → Cplx R

section Chirp

variable {Tw R : Type} [Zero R] [Mul R] [IntCast R]

/-- Value `val` of work-item `tx` in `chirp_device` (bluestein.h lines 43-54). -/
def chirp_val (steps : TWLsteps Tw R) (N : Nat) (twiddles_large : Tw) (twl dir : Int)
    (tx : Nat) : Cplx R :=
  let val : Cplx R := ⟨0, 0⟩
  let val : Cplx R :=
    if twl = 1 then steps.TWLstep1 twiddles_large (szMul tx tx % szMul 2 N)
    else if twl = 2 then steps.TWLstep2 twiddles_large (szMul tx tx % szMul 2 N)
    else if twl = 3 then steps.TWLstep3 twiddles_large (szMul tx tx % szMul 2 N)
    else if twl = 4 then steps.TWLstep4 twiddles_large (szMul tx tx % szMul 2 N)
    else val
  ⟨val.x, val.y * ((dir : Int) : R)⟩

/-- Work-item `tx` of `chirp_device` (bluestein.h lines 32-74). -/
def chirp_device (steps : TWLsteps Tw R) (N M : Nat) (twiddles_large : Tw) (twl dir : Int)
    (tx : Nat) : StateM (IMem R) Unit := do
  let val := chirp_val steps N twiddles_large twl dir tx
  if tx = 0 then
    IMem.st tx val
    IMem.st (tx + M) val
  else if tx < N then
    IMem.st tx val
    IMem.st (tx + M) val
    IMem.st (szSub M tx) val
    IMem.st (mirrorSecond M tx) val
  else if tx ≤ szSub M N then
    IMem.st tx ⟨0, 0⟩
    IMem.st (tx + M) ⟨0, 0⟩

end Chirp

/-! ## Index decomposition shared by the four `mul_device` kernels -/

/-- Inner loop of the index decomposition (bluestein.h lines 112-116):
`currentLength = 1; for(j = 1; j < i; j++) currentLength *= lengths[j];`. -/
def currentLength (lengths : Nat → Nat) (i : Nat) : Nat :=
  (List.range' 1 (i - 1)).foldl (fun cl j => szMul cl (lengths j)) 1

/-- Loop-carried variables of the index decomposition. -/
structure Offs where
  iOffset : Nat
  oOffset : Nat
  counter_mod : Nat
deriving DecidableEq

/-- Outer loop `for(i = dim; i > 1; i--)` of the index decomposition
(bluestein.h lines 110-121), entered with loop variable `i`.  A division by a
zero `currentLength` is undefined in the source; here it yields `0`. -/
def offsetLoop (lengths stride_in stride_out : Nat → Nat) : Nat → Offs → Offs
  | 0, s => s
  | 1, s => s
  | i + 2, s =>
    let cl := currentLength lengths (i + 2)
    offsetLoop lengths stride_in stride_out (i + 1)
      { iOffset := szAdd s.iOffset (szMul (s.counter_mod / cl) (stride_in (i + 2)))
        oOffset := szAdd s.oOffset (szMul (s.counter_mod / cl) (stride_out (i + 2)))
        counter_mod := s.counter_mod % cl }

/-- Addressing variables of a `mul_device` work-item after the common
addressing step. -/
structure Addr where
  iOffset : Nat
  oOffset : Nat
  tx : Nat
  iIdx : Nat
  oIdx : Nat
deriving DecidableEq

/-- Common addressing step of the four `mul_device` kernels for flat index `tx`
(bluestein.h lines 105-127, identical in lines 210-232, 302-324, 397-419). -/
def addressing (numof dim : Nat) (lengths stride_in stride_out : Nat → Nat) (tx : Nat) : Addr :=
  let s := offsetLoop lengths stride_in stride_out dim
    { iOffset := 0, oOffset := 0, counter_mod := tx / numof }
  let iOffset := szAdd s.iOffset (szMul s.counter_mod (stride_in 1))
  let oOffset := szAdd s.oOffset (szMul s.counter_mod (stride_out 1))
  let tx := tx % numof
  { iOffset := iOffset, oOffset := oOffset, tx := tx,
    iIdx := szMul tx (stride_in 0), oIdx := szMul tx (stride_out 0) }

/-- Radix weight `P_i` of the mixed-radix reference: the product of
`lengths[1..i-1]` as a natural number, with `P_1 = 1`. -/
def radixProd (lengths : Nat → Nat) (i : Nat) : Nat :=
  ∏ j in Finset.Icc 1 (i - 1), lengths j

/-- Quotients the loop multiplies by `stride[i]`, as pairs `(i, quotient)` in
the order the kernel produces them: `i = dim, dim - 1, .., 2` inside the loop
and `i = 1` after it (the final `counter_mod`). -/
def quotients (lengths : Nat → Nat) : Nat → Nat → List (Nat × Nat)
  | 0, cm => [(1, cm)]
  | 1, cm => [(1, cm)]
  | i + 2, cm =>
    let cl := currentLength lengths (i + 2)
    (i + 2, cm / cl) :: quotients lengths (i + 1) (cm % cl)

/-- Quotient the kernel multiplies by `stride[i]` when it decomposes the batch
index `cm` at rank `dim` (`0` when it produces none for `i`). -/
def digit (lengths : Nat → Nat) (dim cm i : Nat) : Nat :=
  ((quotients lengths dim cm).lookup i).getD 0

/-- Coordinate `i` of flat index `tx`: the element index `tx % numof` for
`i = 0`, and for `i ≥ 1` the quotient the kernel multiplies by `stride[i]`. -/
def coord (numof dim : Nat) (lengths : Nat → Nat) (tx : Nat) (i : Nat) : Nat :=
  if i = 0 then tx % numof else digit lengths dim (tx / numof) i

/-! ## `mul_device` kernels -/

section Callbacks

variable {R : Type}

/-- Invoke the load callback on `input` at `idx`. -/
def IMem.ldCb (load_cb : (Nat → Cplx R) → Nat → Cplx R) (input : Nat → Cplx R) (idx : Nat) :
    StateM (IMem R) (Cplx R) := fun s =>
  (load_cb input idx, { s with trace := s.trace ++ [Access.loadCb idx] })

/-- Invoke the store callback on `output` at `idx` with value `v`. -/
def IMem.stCb (store_cb : (Nat → Cplx R) → Nat → Cplx R → (Nat → Cplx R)) (idx : Nat)
    (v : Cplx R) : StateM (IMem R) Unit := fun s =>
  ((), { output := store_cb s.output idx v, trace := s.trace ++ [Access.storeCb idx] })

/-- Modelled from the spec: the load callback obtained from `get_load_cb`
(callback.h) when no callback is configured; the value is read from the buffer
at the flat index. -/
def load_cb_default (buffer : Nat → Cplx R) (idx : Nat) : Cplx R := buffer idx

/-- Modelled from the spec: the store callback obtained from `get_store_cb`
(callback.h) when no callback is configured; the value is written to the buffer
at the flat index. -/
def store_cb_default (buffer : Nat → Cplx R) (idx : Nat) (v : Cplx R) : Nat → Cplx R :=
  setAt buffer idx v

end Callbacks

section Mul

variable {R : Type} [Zero R] [One R] [Add R] [Sub R] [Mul R] [Neg R] [Div R] [NatCast R]

/-- Work-item `tx` of `mul_device_I_I` (bluestein.h lines 80-187): interleaved
input, interleaved output.  `load_cb` and `store_cb` are the callbacks obtained from
`get_load_cb` / `get_store_cb`; the unused parameter `dir` and the callback
user data are left out. -/
def mul_device_I_I (load_cb : (Nat → Cplx R) → Nat → Cplx R)
    (store_cb : (Nat → Cplx R) → Nat → Cplx R → (Nat → Cplx R))
    (numof totalWI N M : Nat) (input : Nat → Cplx R) (dim : Nat)
    (lengths stride_in stride_out : Nat → Nat) (scheme : Int) (tx : Nat) :
    StateM (IMem R) Unit := do
  if tx ≥ totalWI then pure () else
  let a := addressing numof dim lengths stride_in stride_out tx
  let iOffset := a.iOffset
  let oOffset := a.oOffset
  let tx := a.tx
  let iIdx := a.iIdx
  let oIdx := a.oIdx
  if scheme = 0 then
    -- output += oOffset
    let out ← IMem.ld (szAdd oOffset oIdx)
    IMem.stX (szAdd oOffset oIdx) ((input iIdx).x * out.x - (input iIdx).y * out.y)
    IMem.stY (szAdd oOffset oIdx) ((input iIdx).x * out.y + (input iIdx).y * out.x)
  else if scheme = 1 then
    -- chirp = output
    let iIdx := szAdd iIdx iOffset
    let oIdx := szAdd oIdx M
    let oIdx := szAdd oIdx oOffset
    if tx < N then
      let in_elem ← IMem.ldCb load_cb input iIdx
      IMem.stX oIdx (in_elem.x * (← IMem.ld tx).x + in_elem.y * (← IMem.ld tx).y)
      IMem.stY oIdx (-in_elem.x * (← IMem.ld tx).y + in_elem.y * (← IMem.ld tx).x)
    else
      IMem.st oIdx ⟨0, 0⟩
  else if scheme = 2 then
    -- chirp = input
    let iIdx := szAdd iIdx (szMul 2 M)
    let iIdx := szAdd iIdx iOffset
    let oIdx := szAdd oIdx oOffset
    let MI : R := 1 / (M : R)
    let out_elem : Cplx R :=
      ⟨MI * ((input iIdx).x * (input tx).x + (input iIdx).y * (input tx).y),
       MI * (-(input iIdx).x * (input tx).y + (input iIdx).y * (input tx).x)⟩
    IMem.stCb store_cb oIdx out_elem
  else pure ()

/-- Work-item `tx` of `mul_device_P_I` (bluestein.h lines 189-279): planar
input, interleaved output (the unused parameter `dir` is left out). -/
def mul_device_P_I (numof totalWI N M : Nat) (inputRe inputIm : Nat → R) (dim : Nat)
    (lengths stride_in stride_out : Nat → Nat) (scheme : Int) (tx : Nat) :
    StateM (IMem R) Unit := do
  if tx ≥ totalWI then pure () else
  let a := addressing numof dim lengths stride_in stride_out tx
  let iOffset := a.iOffset
  let oOffset := a.oOffset
  let tx := a.tx
  let iIdx := a.iIdx
  let oIdx := a.oIdx
  if scheme = 0 then
    -- output += oOffset
    let out ← IMem.ld (szAdd oOffset oIdx)
    IMem.stX (szAdd oOffset oIdx) (inputRe iIdx * out.x - inputIm iIdx * out.y)
    IMem.stY (szAdd oOffset oIdx) (inputRe iIdx * out.y + inputIm iIdx * out.x)
  else if scheme = 1 then
    -- chirp = output; inputRe += iOffset; inputIm += iOffset; output += M; output += oOffset
    let inOff := iOffset
    let outOff := szAdd M oOffset
    if tx < N then
      IMem.stX (szAdd outOff oIdx)
        (inputRe (szAdd inOff iIdx) * (← IMem.ld tx).x + inputIm (szAdd inOff iIdx) * (← IMem.ld tx).y)
      IMem.stY (szAdd outOff oIdx)
        (-inputRe (szAdd inOff iIdx) * (← IMem.ld tx).y + inputIm (szAdd inOff iIdx) * (← IMem.ld tx).x)
    else
      IMem.st (szAdd outOff oIdx) ⟨0, 0⟩
  else if scheme = 2 then
    -- chirpRe = inputRe; chirpIm = inputIm; inputRe += 2 * M; inputRe += iOffset (same for
    -- inputIm); output += oOffset
    let inOff := szAdd (szMul 2 M) iOffset
    let MI : R := 1 / (M : R)
    IMem.stX (szAdd oOffset oIdx)
      (MI * (inputRe (szAdd inOff iIdx) * inputRe tx + inputIm (szAdd inOff iIdx) * inputIm tx))
    IMem.stY (szAdd oOffset oIdx)
      (MI * (-inputRe (szAdd inOff iIdx) * inputIm tx + inputIm (szAdd inOff iIdx) * inputRe tx))
  else pure ()

/-- Work-item `tx` of `mul_device_I_P` (bluestein.h lines 281-373): interleaved
input, planar output (the unused parameter `dir` is left out). -/
def mul_device_I_P (numof totalWI N M : Nat) (input : Nat → Cplx R) (dim : Nat)
    (lengths stride_in stride_out : Nat → Nat) (scheme : Int) (tx : Nat) :
    StateM (PMem R) Unit := do
  if tx ≥ totalWI then pure () else
  let a := addressing numof dim lengths stride_in stride_out tx
  let iOffset := a.iOffset
  let oOffset := a.oOffset
  let tx := a.tx
  let iIdx := a.iIdx
  let oIdx := a.oIdx
  if scheme = 0 then
    -- outputRe += oOffset; outputIm += oOffset
    let out : Cplx R := ⟨← PMem.ldRe (szAdd oOffset oIdx), ← PMem.ldIm (szAdd oOffset oIdx)⟩
    PMem.stRe (szAdd oOffset oIdx) ((input iIdx).x * out.x - (input iIdx).y * out.y)
    PMem.stIm (szAdd oOffset oIdx) ((input iIdx).x * out.y + (input iIdx).y * out.x)
  else if scheme = 1 then
    -- chirpRe = outputRe; chirpIm = outputIm; input += iOffset;
    -- outputRe += M; outputRe += oOffset (same for outputIm)
    let inOff := iOffset
    let outOff := szAdd M oOffset
    if tx < N then
      PMem.stRe (szAdd outOff oIdx)
        ((input (szAdd inOff iIdx)).x * (← PMem.ldRe tx) + (input (szAdd inOff iIdx)).y * (← PMem.ldIm tx))
      PMem.stIm (szAdd outOff oIdx)
        (-(input (szAdd inOff iIdx)).x * (← PMem.ldIm tx) + (input (szAdd inOff iIdx)).y * (← PMem.ldRe tx))
    else
      PMem.stRe (szAdd outOff oIdx) 0
      PMem.stIm (szAdd outOff oIdx) 0
  else if scheme = 2 then
    -- chirp = input; input += 2 * M; input += iOffset; outputRe += oOffset; outputIm += oOffset
    let inOff := szAdd (szMul 2 M) iOffset
    let MI : R := 1 / (M : R)
    PMem.stRe (szAdd oOffset oIdx)
      (MI * ((input (szAdd inOff iIdx)).x * (input tx).x + (input (szAdd inOff iIdx)).y * (input tx).y))
    PMem.stIm (szAdd oOffset oIdx)
      (MI * (-(input (szAdd inOff iIdx)).x * (input tx).y + (input (szAdd inOff iIdx)).y * (input tx).x))
  else pure ()

/-- Work-item `tx` of `mul_device_P_P` (bluestein.h lines 375-473): planar
input, planar output (the unused parameter `dir` is left out). -/
def mul_device_P_P (numof totalWI N M : Nat) (inputRe inputIm : Nat → R) (dim : Nat)
    (lengths stride_in stride_out : Nat → Nat) (scheme : Int) (tx : Nat) :
    StateM (PMem R) Unit := do
  if tx ≥ totalWI then pure () else
  let a := addressing numof dim lengths stride_in stride_out tx
  let iOffset := a.iOffset
  let oOffset := a.oOffset
  let tx := a.tx
  let iIdx := a.iIdx
  let oIdx := a.oIdx
  if scheme = 0 then
    -- outputRe += oOffset; outputIm += oOffset
    let out : Cplx R := ⟨← PMem.ldRe (szAdd oOffset oIdx), ← PMem.ldIm (szAdd oOffset oIdx)⟩
    PMem.stRe (szAdd oOffset oIdx) (inputRe iIdx * out.x - inputIm iIdx * out.y)
    PMem.stIm (szAdd oOffset oIdx) (inputRe iIdx * out.y + inputIm iIdx * out.x)
  else if scheme = 1 then
    -- chirpRe = outputRe; chirpIm = outputIm; inputRe += iOffset; inputIm += iOffset;
    -- outputRe += M; outputRe += oOffset (same for outputIm)
    let inOff := iOffset
    let outOff := szAdd M oOffset
    if tx < N then
      PMem.stRe (szAdd outOff oIdx)
        (inputRe (szAdd inOff iIdx) * (← PMem.ldRe tx) + inputIm (szAdd inOff iIdx) * (← PMem.ldIm tx))
      PMem.stIm (szAdd outOff oIdx)
        (-inputRe (szAdd inOff iIdx) * (← PMem.ldIm tx) + inputIm (szAdd inOff iIdx) * (← PMem.ldRe tx))
    else
      PMem.stRe (szAdd outOff tx) 0
      PMem.stIm (szAdd outOff tx) 0
  else if scheme = 2 then
    -- chirpRe = inputRe; chirpIm = inputIm; inputRe += 2 * M; inputRe += iOffset (same for
    -- inputIm); outputRe += oOffset; outputIm += oOffset
    let inOff := szAdd (szMul 2 M) iOffset
    let MI : R := 1 / (M : R)
    PMem.stRe (szAdd oOffset oIdx)
      (MI * (inputRe (szAdd inOff iIdx) * inputRe tx + inputIm (szAdd inOff iIdx) * inputIm tx))
    PMem.stIm (szAdd oOffset oIdx)
      (MI * (-inputRe (szAdd inOff iIdx) * inputIm tx + inputIm (szAdd inOff iIdx) * inputRe tx))
  else pure ()

end Mul

/-! ## Lossless reinterpretation between the interleaved and the planar layout -/

section Layout

variable {R : Type}

/-- Real plane of an interleaved buffer. -/
def planeRe (buf : Nat → Cplx R) : Nat → R := fun k => (buf k).x

/-- Imaginary plane of an interleaved buffer. -/
def planeIm (buf : Nat → Cplx R) : Nat → R := fun k => (buf k).y

/-- Interleaved buffer made of a real and an imaginary plane. -/
def interleave (re im : Nat → R) : Nat → Cplx R := fun k => ⟨re k, im k⟩

end Layout

/-! ## `kargs_create` -/

/-- Device buffer of `size_t` values (`gpubuf_t<size_t>`): either empty (never
allocated, or freed) or allocated and holding data. -/
inductive gpubuf_t where
  | empty
  | holds (data : List Nat)
deriving DecidableEq

/-- Host array `devkHost` of `kargs_create`, as the memory at and after its
first element, together with the indices stored to, in program order. -/
structure HostTab where
  devkHost : Nat → Nat
  stores : List Nat

/-- Store `devkHost[idx] = v`. -/
def HostTab.put (t : HostTab) (idx v : Nat) : HostTab :=
  { devkHost := setAt t.devkHost idx v, stores := t.stores ++ [idx] }

/-- Body of the copy loop of `kargs_create` for loop variable `i` (kargs.cpp
lines 49-51).  A vector element past a vector's size, which the assertions
exclude, reads as `0`. -/
def kargs_copy_step (W : Nat) (length inStride outStride : List Nat) (t : HostTab) (i : Nat) :
    HostTab :=
  let t := t.put (i + 0 * W) (length.getD i 0)
  let t := t.put (i + 1 * W) (inStride.getD i 0)
  t.put (i + 2 * W) (outStride.getD i 0)

/-- Host table of `kargs_create` right before the copy to the device
(kargs.cpp lines 37-58).  `W` is `KERN_ARGS_ARRAY_WIDTH` (kargs.h) and `stack`
the prior contents of the memory of the uninitialised array. -/
def kargs_host (W : Nat) (stack : Nat → Nat) (length inStride outStride : List Nat)
    (iDist oDist : Nat) : HostTab :=
  -- i = 0; while(i < 3 * KERN_ARGS_ARRAY_WIDTH) devkHost[i++] = 0;
  let t : HostTab := (List.range (3 * W)).foldl (fun t i => t.put i 0)
    { devkHost := stack, stores := [] }
  -- i = 0; while(i < length.size()) { ...; i++; }
  let t : HostTab := (List.range length.length).foldl
    (kargs_copy_step W length inStride outStride) t
  let i := length.length
  let t := t.put (i + 1 * W) iDist
  t.put (i + 2 * W) oDist

/-- Outcome of `kargs_create` (kargs.cpp lines 27-65).  `allocOk` and `copyOk`
are the outcomes of `devk.alloc` and of `hipMemcpy`; the result is `none` when
an assertion fails, and otherwise the returned device buffer. -/
def kargs_create (W : Nat) (allocOk copyOk : Bool) (stack : Nat → Nat)
    (length inStride outStride : List Nat) (iDist oDist : Nat) : Option gpubuf_t :=
  if allocOk = false then some gpubuf_t.empty
  else if length.length ≠ inStride.length then none
  else if length.length ≠ outStride.length then none
  else
    let t := kargs_host W stack length inStride outStride iDist oDist
    if copyOk = false then some gpubuf_t.empty
    else some (gpubuf_t.holds ((List.range (3 * W)).map t.devkHost))

/-! ## Expected chirp buffer and concrete inputs -/

section ChirpSpec

variable {Tw R : Type} [Zero R] [Mul R] [IntCast R]

/-- Length-`M` chirp sequence the generator is meant to produce: the computed
values on `[0, N)`, zero on `[N, M - N]`, the mirrored values above. -/
def chirp_seq (steps : TWLsteps Tw R) (N M : Nat) (tw : Tw) (twl dir : Int) (k : Nat) : Cplx R :=
  if k < N then chirp_val steps N tw twl dir k
  else if k ≤ M - N then ⟨0, 0⟩
  else chirp_val steps N tw twl dir (M - k)

/-- Two back-to-back copies of `chirp_seq`. -/
def chirp_buf (steps : TWLsteps Tw R) (N M : Nat) (tw : Tw) (twl dir : Int) (k : Nat) : Cplx R :=
  if k < M then chirp_seq steps N M tw twl dir k else chirp_seq steps N M tw twl dir (k - M)

end ChirpSpec

/-- Twiddle lookups used to evaluate the chirp generator on a concrete input. -/
def demoSteps : TWLsteps Unit Int :=
  { TWLstep1 := fun _ i => ⟨i + 1, i + 10⟩
    TWLstep2 := fun _ i => ⟨i + 2, i + 20⟩
    TWLstep3 := fun _ i => ⟨i + 3, i + 30⟩
    TWLstep4 := fun _ i => ⟨i + 4, i + 40⟩ }

/-- Interleaved output buffer used to evaluate kernels on a concrete input. -/
def demoOut : IMem Int := { output := fun k => ⟨3 * k + 1, 5 * k + 2⟩, trace := [] }

/-- The buffer `demoOut` in planar layout. -/
def demoOutP : PMem Int :=
  { outputRe := planeRe demoOut.output, outputIm := planeIm demoOut.output, trace := [] }

/-- Interleaved input buffer used to evaluate kernels on a concrete input. -/
def demoIn : Nat → Cplx Int := fun k => ⟨k + 1, 2 * k + 1⟩

/-- Extents used to evaluate the index decomposition: `lengths[i] = i + 1`. -/
def demoLengths : Nat → Nat := fun i => i + 1

/-- Strides used to evaluate the index decomposition: `stride[i] = 10 ^ i`. -/
def demoStride : Nat → Nat := fun i => 10 ^ i

/-- Mixed-radix digits `c 1 = 1`, `c 2 = 2`, `c 3 = 4` of batch index `29`
over `demoLengths`. -/
def demoDigits : Nat → Nat := fun i => if i = 1 then 1 else if i = 2 then 2 else if i = 3 then 4 else 0

/-- Extents whose product `lengths[1] * lengths[2] = 2 ^ 64 + 2` does not fit
a `size_t`: `lengths[1] = 3`, every other extent `6148914691236517206`. -/
def wrapLengths : Nat → Nat := fun i => if i = 1 then 3 else 6148914691236517206

/-- Mixed-radix digits `c 1 = 2`, `c 2 = 1`, `c 3 = 0` of batch index `5` over
`wrapLengths`. -/
def wrapDigits : Nat → Nat := fun i => if i = 1 then 2 else if i = 2 then 1 else 0

/-- Output strides whose innermost stride is the largest `size_t`,
`2 ^ 64 - 1`, with batch distance `8`. -/
def wrapStride : Nat → Nat := fun i => if i = 0 then 18446744073709551615 else 8

/-- Output strides with innermost stride `2 ^ 64 - 3` and batch distance `8`. -/
def aliasStride : Nat → Nat := fun i => if i = 0 then 18446744073709551613 else 8

/-- Interleaved input buffer over the rationals, for the scaled scheme. -/
def demoInQ : Nat → Cplx ℚ := fun k => ⟨k + 1, 2 * k + 1⟩

/-- Interleaved output buffer over the rationals. -/
def demoOutQ : IMem ℚ := { output := fun k => ⟨3 * k + 1, 5 * k + 2⟩, trace := [] }

/-- All strides equal to one. -/
def unitStride : Nat → Nat := fun _ => 1

/-- Output strides with innermost stride `2` and batch distance `8`. -/
def wideStride : Nat → Nat := fun i => if i = 0 then 2 else 8

/-! ## Accesses of one work-item, conjugation, planar view of a state -/

section Views

variable {R : Type}

/-- Accesses a work-item makes when started from `s`: the part of the trace it
appends. -/
def IMem.accesses (k : StateM (IMem R) Unit) (s : IMem R) : List Access :=
  (after k s).trace.drop s.trace.length

/-- Accesses a work-item with planar output makes when started from `s`. -/
def PMem.accesses (k : StateM (PMem R) Unit) (s : PMem R) : List Access :=
  (after k s).trace.drop s.trace.length

/-- The interleaved state `s` in planar layout. -/
def IMem.toPlanar (s : IMem R) : PMem R :=
  { outputRe := planeRe s.output, outputIm := planeIm s.output, trace := s.trace }

/-- Complex conjugate: real part kept, imaginary part negated. -/
def Cplx.conj [Neg R] (z : Cplx R) : Cplx R := ⟨z.x, -z.y⟩

end Views

/-- Input of the result-multiply stage over the rationals: the opposite-direction
chirp `(4, -7)` at index `1`, the pre-multiplied value `(47, -1)` at index `10`. -/
def demoIn2Q : Nat → Cplx ℚ :=
  fun k => if k = 1 then ⟨4, -7⟩ else if k = 10 then ⟨47, -1⟩ else ⟨0, 0⟩

/-- Output indices work-item `tx` of `chirp_device` stores to, in program
order (bluestein.h lines 56-73). -/
def chirp_writes (N M tx : Nat) : List Nat :=
  if tx = 0 then [tx, tx + M]
  else if tx < N then [tx, tx + M, szSub M tx, mirrorSecond M tx]
  else if tx ≤ szSub M N then [tx, tx + M]
  else []

section ChirpStore

variable {Tw R : Type} [Zero R] [Mul R] [IntCast R]

/-- Value work-item `tx` of `chirp_device` stores at each index it stores to:
`val` in the first two branches, zero in the padding branch. -/
def chirp_store_val (steps : TWLsteps Tw R) (N : Nat) (tw : Tw) (twl dir : Int) (tx : Nat) :
    Cplx R :=
  if tx = 0 then chirp_val steps N tw twl dir tx
  else if tx < N then chirp_val steps N tw twl dir tx
  else ⟨0, 0⟩

end ChirpStore

/-- Twiddle lookups over the rationals, for the direction flag. -/
def demoStepsQ : TWLsteps Unit ℚ :=
  { TWLstep1 := fun _ i => ⟨i + 1, i + 10⟩
    TWLstep2 := fun _ i => ⟨i + 2, i + 20⟩
    TWLstep3 := fun _ i => ⟨i + 3, i + 30⟩
    TWLstep4 := fun _ i => ⟨i + 4, i + 40⟩ }

/-! ## Keeping the chirp region of the output buffer -/

section PadSafe

variable {R : Type}

/-- A kernel with interleaved output keeps the chirp region for lengths `N`,
`M`: each work-item stores only at indices `≥ M`, loads from the output buffer
only at indices `< N`, and leaves `output[0..M)` as it was. -/
def IMem.padSafe (N M : Nat) (k : Nat → StateM (IMem R) Unit) : Prop :=
  ∀ (tx : Nat) (s : IMem R),
    (∀ i ∈ writtenIdx (IMem.accesses (k tx) s), M ≤ i) ∧
    (∀ j ∈ readIdx (IMem.accesses (k tx) s), j < N) ∧
    (∀ loc, loc < M → (after (k tx) s).output loc = s.output loc)

/-- A kernel with planar output keeps the chirp region for lengths `N`, `M`. -/
def PMem.padSafe (N M : Nat) (k : Nat → StateM (PMem R) Unit) : Prop :=
  ∀ (tx : Nat) (s : PMem R),
    (∀ i ∈ writtenIdx (PMem.accesses (k tx) s), M ≤ i) ∧
    (∀ j ∈ readIdx (PMem.accesses (k tx) s), j < N) ∧
    (∀ loc, loc < M → (after (k tx) s).outputRe loc = s.outputRe loc ∧
      (after (k tx) s).outputIm loc = s.outputIm loc)

/-- No store of any work-item of the kernel hits an output index that any
work-item of the kernel loads from: every loaded index is below every stored
index. -/
def IMem.loadsBelowStores (k : Nat → StateM (IMem R) Unit) : Prop :=
  ∀ (tx tx' : Nat) (s s' : IMem R),
    ∀ i ∈ writtenIdx (IMem.accesses (k tx) s), ∀ j ∈ readIdx (IMem.accesses (k tx') s'), j < i

/-- No store of any work-item of the planar-output kernel hits an output index
that any work-item of the kernel loads from. -/
def PMem.loadsBelowStores (k : Nat → StateM (PMem R) Unit) : Prop :=
  ∀ (tx tx' : Nat) (s s' : PMem R),
    ∀ i ∈ writtenIdx (PMem.accesses (k tx) s), ∀ j ∈ readIdx (PMem.accesses (k tx') s'), j < i

end PadSafe

/-! # Theorems -/

/-! ## Chirp generation -/

section ChirpLemmas

variable {Tw R : Type} [Zero R] [Mul R] [IntCast R]

theorem chirp_device_output (steps : TWLsteps Tw R) (N M : Nat) (tw : Tw) (twl dir : Int)
    (tx : Nat) (s : IMem R) :
    (after (chirp_device steps N M tw twl dir tx) s).output =
      if tx = 0 then
        setAt (setAt s.output tx (chirp_val steps N tw twl dir tx)) (tx + M)
          (chirp_val steps N tw twl dir tx)
      else if tx < N then
        setAt (setAt (setAt (setAt s.output tx (chirp_val steps N tw twl dir tx)) (tx + M)
          (chirp_val steps N tw twl dir tx)) (szSub M tx) (chirp_val steps N tw twl dir tx))
          (mirrorSecond M tx) (chirp_val steps N tw twl dir tx)
      else if tx ≤ szSub M N then setAt (setAt s.output tx ⟨0, 0⟩) (tx + M) ⟨0, 0⟩
      else s.output := by
  unfold chirp_device after
  split_ifs <;> rfl

theorem launch_keeps {R : Type} (kernel : Nat → StateM (IMem R) Unit) (loc : Nat) (v : Cplx R)
    (order : List Nat)
    (h : ∀ tx ∈ order, ∀ s : IMem R, (after (kernel tx) s).output loc = v ∨
      (after (kernel tx) s).output loc = s.output loc)
    (s : IMem R) (hs : s.output loc = v) : (launch kernel order s).output loc = v := by
  induction order generalizing s with
  | nil => simpa [launch] using hs
  | cons a l ih =>
    have hstep : (after (kernel a) s).output loc = v := by
      rcases h a (List.mem_cons_self a l) s with h1 | h1
      · exact h1
      · rw [h1]; exact hs
    have := ih (fun tx htx => h tx (List.mem_cons_of_mem a htx)) (after (kernel a) s) hstep
    simpa [launch] using this

theorem launch_writer {R : Type} (kernel : Nat → StateM (IMem R) Unit) (loc : Nat) (v : Cplx R)
    (order : List Nat)
    (h : ∀ tx ∈ order, ∀ s : IMem R, (after (kernel tx) s).output loc = v ∨
      (after (kernel tx) s).output loc = s.output loc)
    (w : Nat) (hw : w ∈ order) (hwv : ∀ s : IMem R, (after (kernel w) s).output loc = v)
    (s : IMem R) : (launch kernel order s).output loc = v := by
  induction order generalizing s with
  | nil => simp at hw
  | cons a l ih =>
    have hl : ∀ tx ∈ l, ∀ s : IMem R, (after (kernel tx) s).output loc = v ∨
        (after (kernel tx) s).output loc = s.output loc :=
      fun tx htx => h tx (List.mem_cons_of_mem a htx)
    rcases List.mem_cons.mp hw with hwa | hwl
    · subst hwa
      have := launch_keeps kernel loc v l hl (after (kernel w) s) (hwv s)
      simpa [launch] using this
    · have := ih hl hwl (after (kernel a) s)
      simpa [launch] using this

theorem chirp_step_spec (steps : TWLsteps Tw R) (N M : Nat) (tw : Tw) (twl dir : Int)
    (hN : 1 ≤ N) (hM : 2 * N - 1 ≤ M) (loc tx : Nat) (s : IMem R) :
    (after (chirp_device steps N M tw twl dir tx) s).output loc = chirp_buf steps N M tw twl dir loc ∨
    (after (chirp_device steps N M tw twl dir tx) s).output loc = s.output loc := by
  rw [chirp_device_output]
  have hsub : ∀ a, a ≤ M → szSub M a = M - a := fun a ha => by simp [szSub, ha]
  have hup : ∀ a, a ≤ M → mirrorSecond M a = M - a + M := fun a ha => by
    simp [mirrorSecond, szSub, ha]
  have hMN : szSub M N = M - N := hsub N (by omega)
  by_cases h0 : tx = 0
  · subst h0
    have hN0 : 0 < N := hN
    simp only [if_true, setAt, chirp_buf, chirp_seq, Nat.zero_add]
    by_cases h1 : loc = M
    · left; subst h1; simp [hN0]
    · by_cases h2 : loc = 0
      · left; subst h2
        have a0 : 0 < M := by omega
        simp [h1, a0, hN0]
      · right; simp [h1, h2]
  · by_cases h1 : tx < N
    · have hs := hsub tx (by omega)
      have hu := hup tx (by omega)
      simp only [h0, h1, if_true, if_false, setAt, chirp_buf, chirp_seq, hs, hu]
      by_cases e1 : loc = M - tx + M
      · left; subst e1
        have : ¬ (M - tx + M < M) := by omega
        have a1 : M - tx + M - M = M - tx := by omega
        have a2 : ¬ (M - tx < N) := by omega
        have a3 : ¬ (M - tx ≤ M - N) := by omega
        have a4 : M - (M - tx) = tx := by omega
        simp [this, a1, a2, a3, a4]
      · by_cases e2 : loc = M - tx
        · left; subst e2
          have a0 : M - tx < M := by omega
          have a2 : ¬ (M - tx < N) := by omega
          have a3 : ¬ (M - tx ≤ M - N) := by omega
          have a4 : M - (M - tx) = tx := by omega
          simp [e1, a0, a2, a3, a4]
        · by_cases e3 : loc = tx + M
          · left; subst e3
            have a0 : ¬ (tx + M < M) := by omega
            simp [e1, e2, a0, h1]
          · by_cases e4 : loc = tx
            · left; subst e4
              have a0 : loc < M := by omega
              simp [e1, e2, e3, a0, h1]
            · right; simp [e1, e2, e3, e4]
    · by_cases h2 : tx ≤ M - N
      · simp only [h0, h1, hMN, h2, if_true, if_false, setAt, chirp_buf, chirp_seq]
        by_cases e3 : loc = tx + M
        · left; subst e3
          have a0 : ¬ (tx + M < M) := by omega
          simp [a0, h1, h2]
        · by_cases e4 : loc = tx
          · left; subst e4
            have a0 : loc < M := by omega
            simp [e3, a0, h1, h2]
          · right; simp [e3, e4]
      · right; simp [h0, h1, hMN, h2]

theorem chirp_writer (steps : TWLsteps Tw R) (N M : Nat) (tw : Tw) (twl dir : Int)
    (hN : 1 ≤ N) (hM : 2 * N - 1 ≤ M) (loc : Nat) (hloc : loc < 2 * M) :
    ∃ w, w < M ∧ ∀ s : IMem R,
      (after (chirp_device steps N M tw twl dir w) s).output loc =
        chirp_buf steps N M tw twl dir loc := by
  have hsub : ∀ a, a ≤ M → szSub M a = M - a := fun a ha => by simp [szSub, ha]
  have hup : ∀ a, a ≤ M → mirrorSecond M a = M - a + M := fun a ha => by
    simp [mirrorSecond, szSub, ha]
  have hMN : szSub M N = M - N := hsub N (by omega)
  have hN0 : 0 < N := hN
  -- position inside the length-M sequence
  obtain ⟨k, hk, hkloc⟩ : ∃ k, k < M ∧ (loc = k ∨ loc = k + M) := by
    by_cases h : loc < M
    · exact ⟨loc, h, Or.inl rfl⟩
    · exact ⟨loc - M, by omega, Or.inr (by omega)⟩
  have hbuf : chirp_buf steps N M tw twl dir loc = chirp_seq steps N M tw twl dir k := by
    rcases hkloc with h | h
    · subst h; simp [chirp_buf, hk]
    · subst h
      have : ¬ (k + M < M) := by omega
      simp [chirp_buf, this]
  rw [hbuf]
  by_cases c1 : k < N
  · refine ⟨k, hk, fun s => ?_⟩
    rw [chirp_device_output]
    have hs := hsub k (by omega)
    have hu := hup k (by omega)
    by_cases k0 : k = 0
    · subst k0
      rcases hkloc with h | h <;> subst h <;> simp [setAt, chirp_seq, hN0]
    · simp only [k0, c1, if_true, if_false, hs, hu, chirp_seq, setAt]
      split_ifs <;> first | rfl | omega
  · by_cases c2 : k ≤ M - N
    · refine ⟨k, hk, fun s => ?_⟩
      rw [chirp_device_output]
      have k0 : k ≠ 0 := by omega
      simp only [k0, c1, c2, hMN, if_true, if_false, chirp_seq, setAt]
      split_ifs <;> first | rfl | omega
    · refine ⟨M - k, by omega, fun s => ?_⟩
      rw [chirp_device_output]
      have k0 : M - k ≠ 0 := by omega
      have k1 : M - k < N := by omega
      have hs := hsub (M - k) (by omega)
      have hu := hup (M - k) (by omega)
      have hb : M - (M - k) = k := by omega
      simp only [k0, k1, c1, c2, if_true, if_false, hs, hu, hb, chirp_seq, setAt]
      split_ifs <;> first | rfl | omega

theorem chirp_launch_output (steps : TWLsteps Tw R) (N M : Nat) (tw : Tw) (twl dir : Int)
    (hN : 1 ≤ N) (hM : 2 * N - 1 ≤ M) (order : List Nat) (horder : ∀ w, w < M → w ∈ order)
    (s : IMem R) (loc : Nat) (hloc : loc < 2 * M) :
    (launch (chirp_device steps N M tw twl dir) order s).output loc =
      chirp_buf steps N M tw twl dir loc := by
  obtain ⟨w, hw, hwv⟩ := chirp_writer steps N M tw twl dir hN hM loc hloc
  exact launch_writer _ loc _ order
    (fun tx _ s => chirp_step_spec steps N M tw twl dir hN hM loc tx s) w (horder w hw) hwv s

/-- C1: for `N ≥ 1` and `M ≥ 2N - 1`, after `chirp_device` has run for every
work-item `tx` in `[0, M)`, in any order and from any initial buffer contents,
`buf[k]` is the value computed by work-item `k` for `k < N`,
`buf[M - k] = buf[k]` for `1 ≤ k < N`, `buf[k] = 0` for `N ≤ k ≤ M - N`, and
`buf[k + M] = buf[k]` for `k < M`. -/
theorem chirp_device_generates_chirp (steps : TWLsteps Tw R) (N M : Nat) (tw : Tw)
    (twl dir : Int) (order : List Nat) (s : IMem R)
    (hN : 1 ≤ N) (hM : 2 * N - 1 ≤ M) (horder : order.Perm (List.range M)) :
    (∀ k, k < N →
      (launch (chirp_device steps N M tw twl dir) order s).output k =
        chirp_val steps N tw twl dir k) ∧
    (∀ k, 1 ≤ k → k < N →
      (launch (chirp_device steps N M tw twl dir) order s).output (M - k) =
        (launch (chirp_device steps N M tw twl dir) order s).output k) ∧
    (∀ k, N ≤ k → k ≤ M - N →
      (launch (chirp_device steps N M tw twl dir) order s).output k = ⟨0, 0⟩) ∧
    (∀ k, k < M →
      (launch (chirp_device steps N M tw twl dir) order s).output (k + M) =
        (launch (chirp_device steps N M tw twl dir) order s).output k) := by
  have hmem : ∀ w, w < M → w ∈ order := fun w hw =>
    (horder.mem_iff).mpr (List.mem_range.mpr hw)
  have key := chirp_launch_output steps N M tw twl dir hN hM order hmem s
  refine ⟨?_, ?_, ?_, ?_⟩
  · intro k hk
    have hkM : k < M := by omega
    rw [key k (by omega)]
    simp [chirp_buf, chirp_seq, hk, hkM]
  · intro k hk1 hk
    rw [key k (by omega), key (M - k) (by omega)]
    have a0 : M - k < M := by omega
    have a1 : k < M := by omega
    have a2 : ¬ (M - k < N) := by omega
    have a3 : ¬ (M - k ≤ M - N) := by omega
    have a4 : M - (M - k) = k := by omega
    simp [chirp_buf, chirp_seq, a0, a1, a2, a3, a4, hk]
  · intro k hk1 hk2
    have a0 : k < M := by omega
    have a1 : ¬ (k < N) := by omega
    rw [key k (by omega)]
    simp [chirp_buf, chirp_seq, a0, a1, hk2]
  · intro k hk
    rw [key k (by omega), key (k + M) (by omega)]
    have a0 : ¬ (k + M < M) := by omega
    simp [chirp_buf, a0, hk]

end ChirpLemmas

theorem chirp_device_generates_chirp_witness :
    (1 ≤ 3 ∧ 2 * 3 - 1 ≤ 8 ∧ [7, 3, 0, 5, 1, 6, 2, 4].Perm (List.range 8)) ∧
    ((∀ k, k < 3 →
      (launch (chirp_device demoSteps 3 8 () 1 (-1)) [7, 3, 0, 5, 1, 6, 2, 4] demoOut).output k =
        chirp_val demoSteps 3 () 1 (-1) k) ∧
    (∀ k, 1 ≤ k → k < 3 →
      (launch (chirp_device demoSteps 3 8 () 1 (-1)) [7, 3, 0, 5, 1, 6, 2, 4] demoOut).output (8 - k) =
        (launch (chirp_device demoSteps 3 8 () 1 (-1)) [7, 3, 0, 5, 1, 6, 2, 4] demoOut).output k) ∧
    (∀ k, 3 ≤ k → k ≤ 8 - 3 →
      (launch (chirp_device demoSteps 3 8 () 1 (-1)) [7, 3, 0, 5, 1, 6, 2, 4] demoOut).output k =
        ⟨0, 0⟩) ∧
    (∀ k, k < 8 →
      (launch (chirp_device demoSteps 3 8 () 1 (-1)) [7, 3, 0, 5, 1, 6, 2, 4] demoOut).output (k + 8) =
        (launch (chirp_device demoSteps 3 8 () 1 (-1)) [7, 3, 0, 5, 1, 6, 2, 4] demoOut).output k)) :=
  ⟨⟨by decide, by decide, by decide⟩,
    chirp_device_generates_chirp demoSteps 3 8 () 1 (-1) [7, 3, 0, 5, 1, 6, 2, 4] demoOut
      (by decide) (by decide) (by decide)⟩
/-! ## Index decomposition -/

theorem currentLength_one (lengths : Nat → Nat) : currentLength lengths 1 = 1 := rfl

theorem currentLength_succ (lengths : Nat → Nat) (i : Nat) :
    currentLength lengths (i + 2) = szMul (currentLength lengths (i + 1)) (lengths (i + 1)) := by
  unfold currentLength
  have h : i + 2 - 1 = i + 1 := by omega
  have h' : i + 1 - 1 = i := by omega
  rw [h, h', List.range'_1_concat, List.foldl_append]
  simp [Nat.add_comm]

theorem radixProd_one (lengths : Nat → Nat) : radixProd lengths 1 = 1 := by
  simp [radixProd]

theorem radixProd_succ (lengths : Nat → Nat) (i : Nat) :
    radixProd lengths (i + 2) = radixProd lengths (i + 1) * lengths (i + 1) := by
  unfold radixProd
  have h : i + 2 - 1 = i + 1 := by omega
  have h' : i + 1 - 1 = i := by omega
  rw [h, h', Finset.prod_Icc_succ_top (by omega)]

/-- The wrapped product the kernel forms is the product of the extents
modulo `2 ^ 64`. -/
theorem currentLength_eq_mod (lengths : Nat → Nat) (i : Nat) :
    currentLength lengths (i + 1) = radixProd lengths (i + 1) % sizeMod := by
  induction i with
  | zero => rw [currentLength_one, radixProd_one]; rfl
  | succ n ih =>
    rw [currentLength_succ, ih, radixProd_succ]
    unfold szMul
    exact Nat.mod_mul_mod

theorem radixProd_le (lengths : Nat → Nat) (n : Nat)
    (hlen : ∀ i, 1 ≤ i → i ≤ n → 0 < lengths i) (i : Nat) (hi : i ≤ n) :
    radixProd lengths (i + 1) ≤ radixProd lengths (n + 1) := by
  induction n with
  | zero =>
    have : i = 0 := by omega
    subst this; exact Nat.le_refl _
  | succ n ih =>
    by_cases h : i = n + 1
    · subst h; exact Nat.le_refl _
    · rw [radixProd_succ]
      exact Nat.le_trans (ih (fun k h1 h2 => hlen k h1 (by omega)) (by omega))
        (Nat.le_mul_of_pos_right _ (hlen (n + 1) (by omega) (by omega)))

/-- While the product of the extents fits a `size_t`, no product the kernel
forms wraps. -/
theorem currentLength_exact (lengths : Nat → Nat) (n : Nat)
    (hlen : ∀ i, 1 ≤ i → i ≤ n → 0 < lengths i) (hP : radixProd lengths (n + 1) < sizeMod)
    (i : Nat) (h1 : 1 ≤ i) (h2 : i ≤ n + 1) :
    currentLength lengths i = radixProd lengths i := by
  obtain ⟨m, rfl⟩ : ∃ m, i = m + 1 := ⟨i - 1, by omega⟩
  rw [currentLength_eq_mod]
  exact Nat.mod_eq_of_lt (Nat.lt_of_le_of_lt (radixProd_le lengths n hlen m (by omega)) hP)

/-- Digits `c 1 .. c n` below their radices have a mixed-radix value below the
product of the radices. -/
theorem mixed_radix_lt (lengths c : Nat → Nat) (n : Nat)
    (hc : ∀ i, 1 ≤ i → i ≤ n → c i < lengths i) :
    ∑ i in Finset.Icc 1 n, c i * radixProd lengths i < radixProd lengths (n + 1) := by
  induction n with
  | zero => simp [radixProd_one]
  | succ n ih =>
    rw [Finset.sum_Icc_succ_top (by omega), radixProd_succ]
    have h1 := ih (fun i h1 h2 => hc i h1 (by omega))
    have h2 : c (n + 1) + 1 ≤ lengths (n + 1) := hc (n + 1) (by omega) (by omega)
    calc ∑ i in Finset.Icc 1 n, c i * radixProd lengths i
          + c (n + 1) * radixProd lengths (n + 1)
        < radixProd lengths (n + 1) + c (n + 1) * radixProd lengths (n + 1) := by omega
      _ = (c (n + 1) + 1) * radixProd lengths (n + 1) := by ring
      _ ≤ lengths (n + 1) * radixProd lengths (n + 1) := Nat.mul_le_mul_right _ h2
      _ = radixProd lengths (n + 1) * lengths (n + 1) := Nat.mul_comm _ _

theorem offsetLoop_digits (lengths stride_in stride_out c : Nat → Nat) (n : Nat)
    (hc : ∀ i, 1 ≤ i → i ≤ n → c i < lengths i)
    (hcl : ∀ i, 1 ≤ i → i ≤ n + 1 → currentLength lengths i = radixProd lengths i)
    (a b : Nat) (ha : a < sizeMod) (hb : b < sizeMod) :
    offsetLoop lengths stride_in stride_out (n + 1)
        { iOffset := a, oOffset := b,
          counter_mod := ∑ i in Finset.Icc 1 (n + 1), c i * radixProd lengths i } =
      { iOffset := (a + ∑ i in Finset.Icc 2 (n + 1), c i * stride_in i) % sizeMod,
        oOffset := (b + ∑ i in Finset.Icc 2 (n + 1), c i * stride_out i) % sizeMod,
        counter_mod := c 1 } := by
  induction n generalizing a b with
  | zero => simp [offsetLoop, radixProd_one, Nat.mod_eq_of_lt ha, Nat.mod_eq_of_lt hb]
  | succ n ih =>
    have hlt : ∑ i in Finset.Icc 1 (n + 1), c i * radixProd lengths i
        < radixProd lengths (n + 2) := mixed_radix_lt lengths c (n + 1) hc
    have hpos : 0 < radixProd lengths (n + 2) := Nat.lt_of_le_of_lt (Nat.zero_le _) hlt
    have hsum : ∑ i in Finset.Icc 1 (n + 1 + 1), c i * radixProd lengths i =
        ∑ i in Finset.Icc 1 (n + 1), c i * radixProd lengths i
          + radixProd lengths (n + 2) * c (n + 2) := by
      rw [Finset.sum_Icc_succ_top (by omega), Nat.mul_comm (c (n + 1 + 1))]
    have hq : (∑ i in Finset.Icc 1 (n + 1 + 1), c i * radixProd lengths i)
        / currentLength lengths (n + 2) = c (n + 2) := by
      rw [hcl (n + 2) (by omega) (by omega), hsum, Nat.add_mul_div_left _ _ hpos,
        Nat.div_eq_of_lt hlt, Nat.zero_add]
    have hr : (∑ i in Finset.Icc 1 (n + 1 + 1), c i * radixProd lengths i)
        % currentLength lengths (n + 2) =
        ∑ i in Finset.Icc 1 (n + 1), c i * radixProd lengths i := by
      rw [hcl (n + 2) (by omega) (by omega), hsum, Nat.add_mul_mod_self_left,
        Nat.mod_eq_of_lt hlt]
    have hin : ∑ i in Finset.Icc 2 (n + 1 + 1), c i * stride_in i =
        ∑ i in Finset.Icc 2 (n + 1), c i * stride_in i + c (n + 2) * stride_in (n + 2) :=
      Finset.sum_Icc_succ_top (by omega) _
    have hout : ∑ i in Finset.Icc 2 (n + 1 + 1), c i * stride_out i =
        ∑ i in Finset.Icc 2 (n + 1), c i * stride_out i + c (n + 2) * stride_out (n + 2) :=
      Finset.sum_Icc_succ_top (by omega) _
    show offsetLoop lengths stride_in stride_out (n + 1) _ = _
    simp only [hq, hr]
    rw [ih (fun i h1 h2 => hc i h1 (by omega)) (fun i h1 h2 => hcl i h1 (by omega))
      (szAdd a (szMul (c (n + 2)) (stride_in (n + 2))))
      (szAdd b (szMul (c (n + 2)) (stride_out (n + 2))))
      (Nat.mod_lt _ (by decide)) (Nat.mod_lt _ (by decide)), hin, hout]
    simp only [Offs.mk.injEq, and_true, szAdd, szMul, sizeMod]
    constructor <;> omega

/-- C3 (amended): for rank `D ≥ 1`, `numof > 0` and digits `c i < lengths[i]`
(`1 ≤ i < D`, which makes these extents positive) whose product
`lengths[1] * .. * lengths[D-1]` is below `2 ^ 64`, a flat index `tx` whose
batch index `tx / numof` is the mixed-radix value `∑ i = 1..D, c i * P i`, with
`P i` the product of `lengths[1..i-1]`, is addressed with
`elementIndex = tx mod numof`, `iOffset = (∑ c i * stride_in[i]) mod 2 ^ 64`,
`oOffset = (∑ c i * stride_out[i]) mod 2 ^ 64` and innermost indices
`(elementIndex * stride_in[0]) mod 2 ^ 64`,
`(elementIndex * stride_out[0]) mod 2 ^ 64`; nothing depends on
`lengths[0]`. -/
theorem addressing_mixed_radix (numof D : Nat) (lengths stride_in stride_out c : Nat → Nat)
    (tx : Nat) (hD : 1 ≤ D) (_hnumof : 0 < numof)
    (hc : ∀ i, 1 ≤ i → i < D → c i < lengths i)
    (hfit : ∏ j in Finset.Icc 1 (D - 1), lengths j < 2 ^ 64)
    (htx : tx / numof = ∑ i in Finset.Icc 1 D, c i * ∏ j in Finset.Icc 1 (i - 1), lengths j) :
    addressing numof D lengths stride_in stride_out tx =
      { iOffset := (∑ i in Finset.Icc 1 D, c i * stride_in i) % 2 ^ 64,
        oOffset := (∑ i in Finset.Icc 1 D, c i * stride_out i) % 2 ^ 64,
        tx := tx % numof,
        iIdx := ((tx % numof) * stride_in 0) % 2 ^ 64,
        oIdx := ((tx % numof) * stride_out 0) % 2 ^ 64 } := by
  obtain ⟨n, rfl⟩ : ∃ n, D = n + 1 := ⟨D - 1, by omega⟩
  have hc' : ∀ i, 1 ≤ i → i ≤ n → c i < lengths i := fun i h1 h2 => hc i h1 (by omega)
  have hcl := currentLength_exact lengths n
    (fun i h1 h2 => Nat.lt_of_le_of_lt (Nat.zero_le _) (hc' i h1 h2)) hfit
  have htx' : tx / numof = ∑ i in Finset.Icc 1 (n + 1), c i * radixProd lengths i := htx
  unfold addressing
  rw [htx', offsetLoop_digits lengths stride_in stride_out c n hc' hcl 0 0 (by decide)
    (by decide)]
  have e1 : ∀ f : Nat → Nat, ∑ i in Finset.Icc 1 (n + 1), f i =
      f 1 + ∑ i in Finset.Icc 2 (n + 1), f i := by
    intro f
    rw [← Nat.Icc_insert_succ_left (by omega : 1 ≤ n + 1), Finset.sum_insert (by simp)]
  simp only [e1 (fun i => c i * stride_in i), e1 (fun i => c i * stride_out i), Addr.mk.injEq,
    and_true, Nat.zero_add, szAdd, szMul, sizeMod]
  constructor <;> omega

theorem addressing_mixed_radix_witness :
    (1 ≤ 3 ∧ 0 < 2 ∧ (∀ i, 1 ≤ i → i < 3 → demoDigits i < demoLengths i) ∧
      ∏ j in Finset.Icc 1 (3 - 1), demoLengths j < 2 ^ 64 ∧
      59 / 2 = ∑ i in Finset.Icc 1 3, demoDigits i * ∏ j in Finset.Icc 1 (i - 1), demoLengths j) ∧
    addressing 2 3 demoLengths demoStride demoStride 59 =
      { iOffset := (∑ i in Finset.Icc 1 3, demoDigits i * demoStride i) % 2 ^ 64,
        oOffset := (∑ i in Finset.Icc 1 3, demoDigits i * demoStride i) % 2 ^ 64,
        tx := 59 % 2,
        iIdx := ((59 % 2) * demoStride 0) % 2 ^ 64,
        oIdx := ((59 % 2) * demoStride 0) % 2 ^ 64 } :=
  ⟨⟨by decide, by decide, by intro i h1 h2; interval_cases i <;> decide, by decide, by decide⟩,
    addressing_mixed_radix 2 3 demoLengths demoStride demoStride demoDigits 59 (by decide)
      (by decide) (by intro i h1 h2; interval_cases i <;> decide) (by decide) (by decide)⟩

/-- C3 (as stated) fails when the product of the extents does not fit a
`size_t`: with rank `3`, `numof = 1`, `lengths[1] = 3`,
`lengths[2] = 6148914691236517206` (product `2 ^ 64 + 2`) and `stride[i] = 10 ^ i`,
flat index `5` has the digits `c = (2, 1, 0)`, so the claimed offset is
`2 * 10 + 1 * 100 = 120`, while the kernel divides by the wrapped product `2`
and computes `2 * 1000 + 1 * 10 = 2010`. -/
theorem addressing_product_wraps :
    (1 ≤ 3 ∧ 0 < 1 ∧ (∀ i, 1 ≤ i → i < 3 → 0 < wrapLengths i) ∧
      (∀ i, 1 ≤ i → i < 3 → wrapDigits i < wrapLengths i) ∧
      5 / 1 = ∑ i in Finset.Icc 1 3, wrapDigits i * ∏ j in Finset.Icc 1 (i - 1), wrapLengths j) ∧
    ∑ i in Finset.Icc 1 3, wrapDigits i * demoStride i = 120 ∧
    (addressing 1 3 wrapLengths demoStride demoStride 5).iOffset = 2010 ∧
    (addressing 1 3 wrapLengths demoStride demoStride 5).oOffset = 2010 ∧
    (addressing 1 3 wrapLengths demoStride demoStride 5).oOffset ≠
      ∑ i in Finset.Icc 1 3, wrapDigits i * demoStride i := by
  refine ⟨⟨by decide, by decide, ?_, ?_, by decide⟩, by decide, by decide, by decide, by decide⟩
  · intro i h1 h2; interval_cases i <;> decide
  · intro i h1 h2; interval_cases i <;> decide

theorem digit_one (lengths : Nat → Nat) (cm : Nat) : digit lengths 1 cm 1 = cm := by
  simp [digit, quotients]

theorem digit_top (lengths : Nat → Nat) (n cm : Nat) :
    digit lengths (n + 2) cm (n + 2) = cm / currentLength lengths (n + 2) := by
  simp [digit, quotients, List.lookup]

theorem digit_lower (lengths : Nat → Nat) (n cm i : Nat) (hi : i ≠ n + 2) :
    digit lengths (n + 2) cm i = digit lengths (n + 1) (cm % currentLength lengths (n + 2)) i := by
  have : (i == n + 2) = false := by simpa using hi
  simp [digit, quotients, List.lookup, this]

theorem offsetLoop_eq_digits (lengths stride_in stride_out : Nat → Nat) (n a b cm : Nat) :
    szAdd (offsetLoop lengths stride_in stride_out (n + 1)
        { iOffset := a, oOffset := b, counter_mod := cm }).iOffset
      (szMul (offsetLoop lengths stride_in stride_out (n + 1)
        { iOffset := a, oOffset := b, counter_mod := cm }).counter_mod (stride_in 1))
      = (a + ∑ i in Finset.Icc 1 (n + 1), digit lengths (n + 1) cm i * stride_in i) % sizeMod ∧
    szAdd (offsetLoop lengths stride_in stride_out (n + 1)
        { iOffset := a, oOffset := b, counter_mod := cm }).oOffset
      (szMul (offsetLoop lengths stride_in stride_out (n + 1)
        { iOffset := a, oOffset := b, counter_mod := cm }).counter_mod (stride_out 1))
      = (b + ∑ i in Finset.Icc 1 (n + 1), digit lengths (n + 1) cm i * stride_out i) % sizeMod := by
  induction n generalizing a b cm with
  | zero =>
    simp only [Nat.zero_add, offsetLoop, digit_one, Finset.Icc_self, Finset.sum_singleton, szAdd,
      szMul, sizeMod]
    constructor <;> omega
  | succ n ih =>
    have hlow : ∀ f : Nat → Nat, ∑ i in Finset.Icc 1 (n + 1), digit lengths (n + 2) cm i * f i =
        ∑ i in Finset.Icc 1 (n + 1),
          digit lengths (n + 1) (cm % currentLength lengths (n + 2)) i * f i := by
      intro f
      refine Finset.sum_congr rfl (fun i hi => ?_)
      rw [digit_lower lengths n cm i (by have := (Finset.mem_Icc.mp hi).2; omega)]
    have hsplit : ∀ f : Nat → Nat,
        ∑ i in Finset.Icc 1 (n + 1 + 1), digit lengths (n + 1 + 1) cm i * f i =
        ∑ i in Finset.Icc 1 (n + 1),
          digit lengths (n + 1) (cm % currentLength lengths (n + 2)) i * f i
          + cm / currentLength lengths (n + 2) * f (n + 2) := by
      intro f
      rw [Finset.sum_Icc_succ_top (by omega), hlow f, digit_top]
    obtain ⟨h1, h2⟩ := ih
      (szAdd a (szMul (cm / currentLength lengths (n + 2)) (stride_in (n + 2))))
      (szAdd b (szMul (cm / currentLength lengths (n + 2)) (stride_out (n + 2))))
      (cm % currentLength lengths (n + 2))
    rw [hsplit stride_in, hsplit stride_out]
    constructor
    · show szAdd (offsetLoop lengths stride_in stride_out (n + 1) _).iOffset
        (szMul (offsetLoop lengths stride_in stride_out (n + 1) _).counter_mod (stride_in 1)) = _
      rw [h1]; simp only [szAdd, szMul, sizeMod]; omega
    · show szAdd (offsetLoop lengths stride_in stride_out (n + 1) _).oOffset
        (szMul (offsetLoop lengths stride_in stride_out (n + 1) _).counter_mod (stride_out 1)) = _
      rw [h2]; simp only [szAdd, szMul, sizeMod]; omega

/-- The batch offsets of the addressing step are the kernel's quotients
weighted by the strides, reduced modulo `2 ^ 64`. -/
theorem addressing_eq_coord (numof D : Nat) (lengths stride_in stride_out : Nat → Nat)
    (tx : Nat) (hD : 1 ≤ D) :
    addressing numof D lengths stride_in stride_out tx =
      { iOffset := (∑ i in Finset.Icc 1 D, coord numof D lengths tx i * stride_in i) % sizeMod,
        oOffset := (∑ i in Finset.Icc 1 D, coord numof D lengths tx i * stride_out i) % sizeMod,
        tx := coord numof D lengths tx 0,
        iIdx := szMul (coord numof D lengths tx 0) (stride_in 0),
        oIdx := szMul (coord numof D lengths tx 0) (stride_out 0) } := by
  obtain ⟨n, rfl⟩ : ∃ n, D = n + 1 := ⟨D - 1, by omega⟩
  obtain ⟨h1, h2⟩ := offsetLoop_eq_digits lengths stride_in stride_out n 0 0 (tx / numof)
  have hc : ∀ f : Nat → Nat, ∑ i in Finset.Icc 1 (n + 1), coord numof (n + 1) lengths tx i * f i =
      ∑ i in Finset.Icc 1 (n + 1), digit lengths (n + 1) (tx / numof) i * f i := by
    intro f
    refine Finset.sum_congr rfl (fun i hi => ?_)
    have : i ≠ 0 := by have := (Finset.mem_Icc.mp hi).1; omega
    simp [coord, this]
  unfold addressing
  simp only [hc, Addr.mk.injEq]
  refine ⟨by rw [h1, Nat.zero_add], by rw [h2, Nat.zero_add], ?_, ?_, ?_⟩ <;> simp [coord]

theorem digits_reconstruct (lengths : Nat → Nat) (n cm : Nat) :
    ∑ i in Finset.Icc 1 (n + 1), digit lengths (n + 1) cm i * currentLength lengths i = cm := by
  induction n generalizing cm with
  | zero => simp [digit_one, currentLength_one]
  | succ n ih =>
    rw [Finset.sum_Icc_succ_top (by omega), digit_top]
    have hlow : ∑ i in Finset.Icc 1 (n + 1), digit lengths (n + 1 + 1) cm i * currentLength lengths i
        = ∑ i in Finset.Icc 1 (n + 1),
          digit lengths (n + 1) (cm % currentLength lengths (n + 2)) i * currentLength lengths i := by
      refine Finset.sum_congr rfl (fun i hi => ?_)
      rw [digit_lower lengths n cm i (by have := (Finset.mem_Icc.mp hi).2; omega)]
    rw [hlow, ih]
    exact Nat.mod_add_div' cm (currentLength lengths (n + 2))

theorem radixProd_pos (lengths : Nat → Nat) (n : Nat)
    (hlen : ∀ i, 1 ≤ i → i ≤ n → 0 < lengths i) : 0 < radixProd lengths (n + 1) := by
  induction n with
  | zero => simp [radixProd_one]
  | succ n ih =>
    rw [radixProd_succ]
    exact Nat.mul_pos (ih (fun i h1 h2 => hlen i h1 (by omega))) (hlen (n + 1) (by omega) (by omega))

theorem digits_bounded (lengths : Nat → Nat) (n : Nat)
    (hlen : ∀ i, 1 ≤ i → i ≤ n → 0 < lengths i)
    (hcl : ∀ i, 1 ≤ i → i ≤ n + 1 → currentLength lengths i = radixProd lengths i) (cm B : Nat)
    (hcm : cm < radixProd lengths (n + 1) * B) :
    digit lengths (n + 1) cm (n + 1) < B ∧
    ∀ i, 1 ≤ i → i ≤ n → digit lengths (n + 1) cm i < lengths i := by
  induction n generalizing cm B with
  | zero =>
    refine ⟨?_, fun i h1 h2 => by omega⟩
    simpa [digit_one, radixProd_one] using hcm
  | succ n ih =>
    have hpos : 0 < radixProd lengths (n + 2) := radixProd_pos lengths (n + 1) hlen
    have he : currentLength lengths (n + 2) = radixProd lengths (n + 2) :=
      hcl (n + 2) (by omega) (by omega)
    refine ⟨?_, ?_⟩
    · rw [digit_top, he]
      exact (Nat.div_lt_iff_lt_mul hpos).mpr (by rw [Nat.mul_comm]; exact hcm)
    · have hmod : cm % currentLength lengths (n + 2)
          < radixProd lengths (n + 1) * lengths (n + 1) := by
        rw [← radixProd_succ, he]; exact Nat.mod_lt _ hpos
      obtain ⟨htop, hrest⟩ := ih (fun i h1 h2 => hlen i h1 (by omega))
        (fun i h1 h2 => hcl i h1 (by omega)) _ _ hmod
      intro i h1 h2
      rw [digit_lower lengths n cm i (by omega)]
      by_cases hi : i = n + 1
      · subst hi; exact htop
      · exact hrest i h1 (by omega)

theorem digits_of_mixed_radix (lengths c : Nat → Nat) (n : Nat)
    (hc : ∀ i, 1 ≤ i → i ≤ n → c i < lengths i)
    (hcl : ∀ i, 1 ≤ i → i ≤ n + 1 → currentLength lengths i = radixProd lengths i)
    (i : Nat) (h1 : 1 ≤ i) (h2 : i ≤ n + 1) :
    digit lengths (n + 1) (∑ k in Finset.Icc 1 (n + 1), c k * radixProd lengths k) i = c i := by
  induction n generalizing i with
  | zero =>
    have : i = 1 := by omega
    subst this
    simp [digit_one, radixProd_one]
  | succ n ih =>
    have hlt : ∑ k in Finset.Icc 1 (n + 1), c k * radixProd lengths k
        < radixProd lengths (n + 2) := mixed_radix_lt lengths c (n + 1) hc
    have hpos : 0 < radixProd lengths (n + 2) := Nat.lt_of_le_of_lt (Nat.zero_le _) hlt
    have he : currentLength lengths (n + 2) = radixProd lengths (n + 2) :=
      hcl (n + 2) (by omega) (by omega)
    have hsum : ∑ k in Finset.Icc 1 (n + 1 + 1), c k * radixProd lengths k =
        ∑ k in Finset.Icc 1 (n + 1), c k * radixProd lengths k
          + radixProd lengths (n + 2) * c (n + 2) := by
      rw [Finset.sum_Icc_succ_top (by omega), Nat.mul_comm (c (n + 1 + 1))]
    by_cases hi : i = n + 2
    · subst hi
      rw [digit_top, he, hsum, Nat.add_mul_div_left _ _ hpos, Nat.div_eq_of_lt hlt, Nat.zero_add]
    · rw [digit_lower lengths n _ i hi, he, hsum, Nat.add_mul_mod_self_left,
        Nat.mod_eq_of_lt hlt]
      exact ih (fun k h1 h2 => hc k h1 (by omega)) (fun k h1 h2 => hcl k h1 (by omega)) i h1
        (by omega)

/-- C9: for `numof > 0`, rank `D ≥ 1`, positive extents `lengths[1..D-1]`, batch
count `B` and `totalWI = numof * lengths[1] * .. * lengths[D-1] * B` (a `size_t`,
hence below `2 ^ 64`), the map sending a flat index `tx < totalWI` to its
coordinates `(tx mod numof, c_1, .., c_D)`, the `c_i` being the quotients the
kernel multiplies by `stride[i]` (its offsets are their stride-weighted sums
modulo `2 ^ 64`), takes its values in the box
`[0, numof) x [0, lengths[1]) x .. x [0, lengths[D-1]) x [0, B)`, is injective,
and reaches every point of the box. -/
theorem index_decomposition_bijective (numof D B totalWI : Nat) (lengths : Nat → Nat)
    (hD : 1 ≤ D) (hnumof : 0 < numof) (hlen : ∀ i, 1 ≤ i → i < D → 0 < lengths i)
    (htot : totalWI = numof * (∏ j in Finset.Icc 1 (D - 1), lengths j) * B)
    (hsize : totalWI < 2 ^ 64) :
    (∀ stride_in stride_out tx,
      (addressing numof D lengths stride_in stride_out tx).iOffset =
        (∑ i in Finset.Icc 1 D, coord numof D lengths tx i * stride_in i) % 2 ^ 64 ∧
      (addressing numof D lengths stride_in stride_out tx).oOffset =
        (∑ i in Finset.Icc 1 D, coord numof D lengths tx i * stride_out i) % 2 ^ 64 ∧
      (addressing numof D lengths stride_in stride_out tx).tx = coord numof D lengths tx 0) ∧
    (∀ tx, tx < totalWI →
      coord numof D lengths tx 0 < numof ∧
      (∀ i, 1 ≤ i → i < D → coord numof D lengths tx i < lengths i) ∧
      coord numof D lengths tx D < B) ∧
    (∀ tx tx', tx < totalWI → tx' < totalWI →
      (∀ i, i ≤ D → coord numof D lengths tx i = coord numof D lengths tx' i) → tx = tx') ∧
    (∀ p : Nat → Nat, p 0 < numof → (∀ i, 1 ≤ i → i < D → p i < lengths i) → p D < B →
      ∃ tx, tx < totalWI ∧ ∀ i, i ≤ D → coord numof D lengths tx i = p i) := by
  obtain ⟨n, rfl⟩ : ∃ n, D = n + 1 := ⟨D - 1, by omega⟩
  have hP : ∏ j in Finset.Icc 1 (n + 1 - 1), lengths j = radixProd lengths (n + 1) := rfl
  rw [hP, Nat.mul_assoc] at htot
  have hlen' : ∀ i, 1 ≤ i → i ≤ n → 0 < lengths i := fun i h1 h2 => hlen i h1 (by omega)
  have hcl : 0 < B → ∀ i, 1 ≤ i → i ≤ n + 1 → currentLength lengths i = radixProd lengths i := by
    intro hB
    refine currentLength_exact lengths n hlen' ?_
    have h1 : radixProd lengths (n + 1) ≤ radixProd lengths (n + 1) * B :=
      Nat.le_mul_of_pos_right _ hB
    have h2 : radixProd lengths (n + 1) * B ≤ numof * (radixProd lengths (n + 1) * B) :=
      Nat.le_mul_of_pos_left _ hnumof
    exact Nat.lt_of_le_of_lt (Nat.le_trans h1 h2) (htot ▸ hsize)
  have hcoord : ∀ tx i, 1 ≤ i → coord numof (n + 1) lengths tx i
      = digit lengths (n + 1) (tx / numof) i := by
    intro tx i hi
    have : i ≠ 0 := by omega
    simp [coord, this]
  refine ⟨?_, ?_, ?_, ?_⟩
  · intro stride_in stride_out tx
    rw [addressing_eq_coord numof (n + 1) lengths stride_in stride_out tx hD]
    exact ⟨rfl, rfl, rfl⟩
  · intro tx htx
    have hb : tx / numof < radixProd lengths (n + 1) * B :=
      Nat.div_lt_of_lt_mul (by rw [← htot]; exact htx)
    have hB : 0 < B := by
      rcases Nat.eq_zero_or_pos B with h | h
      · subst h; simp at hb
      · exact h
    obtain ⟨htop, hrest⟩ := digits_bounded lengths n hlen' (hcl hB) (tx / numof) B hb
    refine ⟨?_, ?_, ?_⟩
    · simpa [coord] using Nat.mod_lt tx hnumof
    · intro i h1 h2
      rw [hcoord tx i h1]; exact hrest i h1 (by omega)
    · rw [hcoord tx (n + 1) (by omega)]; exact htop
  · intro tx tx' _ _ h
    have h0 : tx % numof = tx' % numof := by simpa [coord] using h 0 (by omega)
    have hb : tx / numof = tx' / numof := by
      rw [← digits_reconstruct lengths n (tx / numof), ← digits_reconstruct lengths n (tx' / numof)]
      refine Finset.sum_congr rfl (fun i hi => ?_)
      have hi' := Finset.mem_Icc.mp hi
      rw [← hcoord tx i hi'.1, ← hcoord tx' i hi'.1, h i hi'.2]
    rw [← Nat.div_add_mod tx numof, ← Nat.div_add_mod tx' numof, h0, hb]
  · intro p hp0 hp hpB
    have hB : 0 < B := Nat.lt_of_le_of_lt (Nat.zero_le _) hpB
    have hlt := mixed_radix_lt lengths p n (fun i h1 h2 => hp i h1 (by omega))
    refine ⟨numof * (∑ k in Finset.Icc 1 (n + 1), p k * radixProd lengths k) + p 0, ?_, ?_⟩
    · rw [htot, Finset.sum_Icc_succ_top (by omega)]
      have h1 : ∑ k in Finset.Icc 1 n, p k * radixProd lengths k
          + p (n + 1) * radixProd lengths (n + 1) + 1 ≤ radixProd lengths (n + 1) * B := by
        calc ∑ k in Finset.Icc 1 n, p k * radixProd lengths k
              + p (n + 1) * radixProd lengths (n + 1) + 1
            ≤ radixProd lengths (n + 1) + p (n + 1) * radixProd lengths (n + 1) := by omega
          _ = radixProd lengths (n + 1) * (p (n + 1) + 1) := by ring
          _ ≤ radixProd lengths (n + 1) * B := Nat.mul_le_mul_left _ hpB
      calc numof * (∑ k in Finset.Icc 1 n, p k * radixProd lengths k
              + p (n + 1) * radixProd lengths (n + 1)) + p 0
          < numof * (∑ k in Finset.Icc 1 n, p k * radixProd lengths k
              + p (n + 1) * radixProd lengths (n + 1)) + numof := by omega
        _ = numof * (∑ k in Finset.Icc 1 n, p k * radixProd lengths k
              + p (n + 1) * radixProd lengths (n + 1) + 1) := by ring
        _ ≤ numof * (radixProd lengths (n + 1) * B) := Nat.mul_le_mul_left _ h1
    · intro i hi
      have hdiv : (numof * (∑ k in Finset.Icc 1 (n + 1), p k * radixProd lengths k) + p 0)
          / numof = ∑ k in Finset.Icc 1 (n + 1), p k * radixProd lengths k := by
        rw [Nat.mul_add_div hnumof, Nat.div_eq_of_lt hp0, Nat.add_zero]
      by_cases h0 : i = 0
      · subst h0
        simp [coord, Nat.mul_add_mod, Nat.mod_eq_of_lt hp0]
      · rw [hcoord _ i (by omega), hdiv]
        exact digits_of_mixed_radix lengths p n (fun i h1 h2 => hp i h1 (by omega)) (hcl hB) i
          (by omega) hi

theorem index_decomposition_bijective_witness :
    (1 ≤ 3 ∧ 0 < 2 ∧ (∀ i, 1 ≤ i → i < 3 → 0 < demoLengths i) ∧
      24 = 2 * (∏ j in Finset.Icc 1 (3 - 1), demoLengths j) * 2 ∧ 24 < 2 ^ 64) ∧
    ((∀ stride_in stride_out tx,
      (addressing 2 3 demoLengths stride_in stride_out tx).iOffset =
        (∑ i in Finset.Icc 1 3, coord 2 3 demoLengths tx i * stride_in i) % 2 ^ 64 ∧
      (addressing 2 3 demoLengths stride_in stride_out tx).oOffset =
        (∑ i in Finset.Icc 1 3, coord 2 3 demoLengths tx i * stride_out i) % 2 ^ 64 ∧
      (addressing 2 3 demoLengths stride_in stride_out tx).tx = coord 2 3 demoLengths tx 0) ∧
    (∀ tx, tx < 24 →
      coord 2 3 demoLengths tx 0 < 2 ∧
      (∀ i, 1 ≤ i → i < 3 → coord 2 3 demoLengths tx i < demoLengths i) ∧
      coord 2 3 demoLengths tx 3 < 2) ∧
    (∀ tx tx', tx < 24 → tx' < 24 →
      (∀ i, i ≤ 3 → coord 2 3 demoLengths tx i = coord 2 3 demoLengths tx' i) → tx = tx') ∧
    (∀ p : Nat → Nat, p 0 < 2 → (∀ i, 1 ≤ i → i < 3 → p i < demoLengths i) → p 3 < 2 →
      ∃ tx, tx < 24 ∧ ∀ i, i ≤ 3 → coord 2 3 demoLengths tx i = p i)) :=
  ⟨⟨by decide, by decide, fun i _ _ => Nat.succ_pos i, by decide, by decide⟩,
    index_decomposition_bijective 2 3 2 24 demoLengths (by decide) (by decide)
      (fun i _ _ => Nat.succ_pos i) (by decide) (by decide)⟩
/-! ## Buffers and the addressing step -/

theorem setAt_same {α : Type} (buf : Nat → α) (idx : Nat) (v : α) : setAt buf idx v idx = v := by
  simp [setAt]

theorem setAt_ne {α : Type} (buf : Nat → α) (idx k : Nat) (v : α) (h : k ≠ idx) :
    setAt buf idx v k = buf k := by
  simp [setAt, h]

theorem setAt_setAt {α : Type} (buf : Nat → α) (idx : Nat) (v w : α) :
    setAt (setAt buf idx v) idx w = setAt buf idx w := by
  funext k; by_cases h : k = idx <;> simp [setAt, h]

theorem addressing_tx (numof dim : Nat) (lengths stride_in stride_out : Nat → Nat) (tx : Nat) :
    (addressing numof dim lengths stride_in stride_out tx).tx = tx % numof := rfl

theorem addressing_iIdx (numof dim : Nat) (lengths stride_in stride_out : Nat → Nat) (tx : Nat) :
    (addressing numof dim lengths stride_in stride_out tx).iIdx
      = szMul (tx % numof) (stride_in 0) := rfl

theorem addressing_oIdx (numof dim : Nat) (lengths stride_in stride_out : Nat → Nat) (tx : Nat) :
    (addressing numof dim lengths stride_in stride_out tx).oIdx
      = szMul (tx % numof) (stride_out 0) := rfl


theorem szMul_eq (a b : Nat) : szMul a b = a * b % 2 ^ 64 := rfl

theorem szAdd_eq (a b : Nat) : szAdd a b = (a + b) % 2 ^ 64 := rfl
/-! ## The interleaved kernel `mul_device_I_I`, scheme by scheme -/

section KernelII

variable {R : Type} [Zero R] [One R] [Add R] [Sub R] [Mul R] [Neg R] [Div R] [NatCast R]

theorem I_I_out_of_range (load_cb : (Nat → Cplx R) → Nat → Cplx R)
    (store_cb : (Nat → Cplx R) → Nat → Cplx R → (Nat → Cplx R))
    (numof totalWI N M : Nat) (input : Nat → Cplx R) (dim : Nat)
    (lengths stride_in stride_out : Nat → Nat) (scheme : Int) (tx : Nat) (s : IMem R)
    (htx : totalWI ≤ tx) :
    after (mul_device_I_I load_cb store_cb numof totalWI N M input dim lengths stride_in
      stride_out scheme tx) s = s := by
  unfold mul_device_I_I after
  simp only [ge_iff_le, htx, if_true]
  rfl

theorem I_I_scheme0 (load_cb : (Nat → Cplx R) → Nat → Cplx R)
    (store_cb : (Nat → Cplx R) → Nat → Cplx R → (Nat → Cplx R))
    (numof totalWI N M : Nat) (input : Nat → Cplx R) (dim : Nat)
    (lengths stride_in stride_out : Nat → Nat) (tx : Nat) (s : IMem R) (htx : tx < totalWI)
    (a : Addr) (ha : addressing numof dim lengths stride_in stride_out tx = a) :
    after (mul_device_I_I load_cb store_cb numof totalWI N M input dim lengths stride_in
        stride_out 0 tx) s =
      { output := setAt s.output (szAdd a.oOffset a.oIdx)
          ⟨(input a.iIdx).x * (s.output (szAdd a.oOffset a.oIdx)).x
              - (input a.iIdx).y * (s.output (szAdd a.oOffset a.oIdx)).y,
           (input a.iIdx).x * (s.output (szAdd a.oOffset a.oIdx)).y
              + (input a.iIdx).y * (s.output (szAdd a.oOffset a.oIdx)).x⟩,
        trace := s.trace ++ [Access.read (szAdd a.oOffset a.oIdx), Access.write (szAdd a.oOffset a.oIdx),
          Access.write (szAdd a.oOffset a.oIdx)] } := by
  have h : ¬ tx ≥ totalWI := by omega
  unfold mul_device_I_I after
  simp only [h, if_false, if_true, ha]
  simp [bind, StateT.bind, IMem.ld, IMem.stX, IMem.stY, setAt_same, setAt_setAt]

theorem I_I_scheme1_lt (load_cb : (Nat → Cplx R) → Nat → Cplx R)
    (store_cb : (Nat → Cplx R) → Nat → Cplx R → (Nat → Cplx R))
    (numof totalWI N M : Nat) (input : Nat → Cplx R) (dim : Nat)
    (lengths stride_in stride_out : Nat → Nat) (tx : Nat) (s : IMem R) (htx : tx < totalWI)
    (a : Addr) (ha : addressing numof dim lengths stride_in stride_out tx = a) (hN : a.tx < N) :
    after (mul_device_I_I load_cb store_cb numof totalWI N M input dim lengths stride_in
        stride_out 1 tx) s =
      { output := setAt s.output (szAdd (szAdd a.oIdx M) a.oOffset)
          ⟨(load_cb input (szAdd a.iIdx a.iOffset)).x * (s.output a.tx).x
              + (load_cb input (szAdd a.iIdx a.iOffset)).y * (s.output a.tx).y,
           -(load_cb input (szAdd a.iIdx a.iOffset)).x *
              (setAt s.output (szAdd (szAdd a.oIdx M) a.oOffset)
                ⟨(load_cb input (szAdd a.iIdx a.iOffset)).x * (s.output a.tx).x
                  + (load_cb input (szAdd a.iIdx a.iOffset)).y * (s.output a.tx).y,
                 (s.output (szAdd (szAdd a.oIdx M) a.oOffset)).y⟩ a.tx).y
            + (load_cb input (szAdd a.iIdx a.iOffset)).y *
              (setAt s.output (szAdd (szAdd a.oIdx M) a.oOffset)
                ⟨(load_cb input (szAdd a.iIdx a.iOffset)).x * (s.output a.tx).x
                  + (load_cb input (szAdd a.iIdx a.iOffset)).y * (s.output a.tx).y,
                 (s.output (szAdd (szAdd a.oIdx M) a.oOffset)).y⟩ a.tx).x⟩,
        trace := s.trace ++ [Access.loadCb (szAdd a.iIdx a.iOffset), Access.read a.tx,
          Access.read a.tx, Access.write (szAdd (szAdd a.oIdx M) a.oOffset), Access.read a.tx,
          Access.read a.tx, Access.write (szAdd (szAdd a.oIdx M) a.oOffset)] } := by
  have h : ¬ tx ≥ totalWI := by omega
  unfold mul_device_I_I after
  simp only [h, if_false, if_true, ha, hN]
  simp [bind, StateT.bind, IMem.ld, IMem.ldCb, IMem.stX, IMem.stY, setAt_same, setAt_setAt]

theorem I_I_scheme1_ge (load_cb : (Nat → Cplx R) → Nat → Cplx R)
    (store_cb : (Nat → Cplx R) → Nat → Cplx R → (Nat → Cplx R))
    (numof totalWI N M : Nat) (input : Nat → Cplx R) (dim : Nat)
    (lengths stride_in stride_out : Nat → Nat) (tx : Nat) (s : IMem R) (htx : tx < totalWI)
    (a : Addr) (ha : addressing numof dim lengths stride_in stride_out tx = a) (hN : ¬ a.tx < N) :
    after (mul_device_I_I load_cb store_cb numof totalWI N M input dim lengths stride_in
        stride_out 1 tx) s =
      { output := setAt s.output (szAdd (szAdd a.oIdx M) a.oOffset) ⟨0, 0⟩,
        trace := s.trace ++ [Access.write (szAdd (szAdd a.oIdx M) a.oOffset)] } := by
  have h : ¬ tx ≥ totalWI := by omega
  unfold mul_device_I_I after
  simp only [h, if_false, if_true, ha, hN]
  simp [IMem.st]

theorem I_I_scheme2 (load_cb : (Nat → Cplx R) → Nat → Cplx R)
    (store_cb : (Nat → Cplx R) → Nat → Cplx R → (Nat → Cplx R))
    (numof totalWI N M : Nat) (input : Nat → Cplx R) (dim : Nat)
    (lengths stride_in stride_out : Nat → Nat) (tx : Nat) (s : IMem R) (htx : tx < totalWI)
    (a : Addr) (ha : addressing numof dim lengths stride_in stride_out tx = a) :
    after (mul_device_I_I load_cb store_cb numof totalWI N M input dim lengths stride_in
        stride_out 2 tx) s =
      { output := store_cb s.output (szAdd a.oIdx a.oOffset)
          ⟨1 / (M : R) * ((input (szAdd (szAdd a.iIdx (szMul 2 M)) a.iOffset)).x * (input a.tx).x
              + (input (szAdd (szAdd a.iIdx (szMul 2 M)) a.iOffset)).y * (input a.tx).y),
           1 / (M : R) * (-(input (szAdd (szAdd a.iIdx (szMul 2 M)) a.iOffset)).x * (input a.tx).y
              + (input (szAdd (szAdd a.iIdx (szMul 2 M)) a.iOffset)).y * (input a.tx).x)⟩,
        trace := s.trace ++ [Access.storeCb (szAdd a.oIdx a.oOffset)] } := by
  have h : ¬ tx ≥ totalWI := by omega
  unfold mul_device_I_I after
  simp only [h, if_false, if_true, ha]
  simp [IMem.stCb]

end KernelII

section ClaimsII

variable {R : Type} [Zero R] [One R] [Add R] [Sub R] [Mul R] [Neg R] [Div R] [NatCast R]

/-- C6: spectral multiply (scheme 0) of `mul_device_I_I`.  An in-range
work-item with element index `e` and output batch offset `oOffset` replaces
`output[oOffset + e * stride_out[0]] = (x, y)` by the complex product with
`input[e * stride_in[0]] = (a, b)`, that is `(a*x - b*y, a*y + b*x)` with the
old `(x, y)` in both components; the input index carries no batch offset, and
the only accesses are one load and two stores at that one output index.  The
index expressions are `size_t` arithmetic, hence taken modulo `2 ^ 64`. -/
theorem mul_device_I_I_spectral_multiply (load_cb : (Nat → Cplx R) → Nat → Cplx R)
    (store_cb : (Nat → Cplx R) → Nat → Cplx R → (Nat → Cplx R))
    (numof totalWI N M : Nat) (input : Nat → Cplx R) (dim : Nat)
    (lengths stride_in stride_out : Nat → Nat) (tx : Nat) (s : IMem R)
    (e oOffset : Nat) (a b x y : R)
    (htx : tx < totalWI) (he : e = tx % numof)
    (ho : oOffset = (addressing numof dim lengths stride_in stride_out tx).oOffset)
    (hin : input (e * stride_in 0 % 2 ^ 64) = ⟨a, b⟩)
    (hout : s.output ((oOffset + e * stride_out 0) % 2 ^ 64) = ⟨x, y⟩) :
    after (mul_device_I_I load_cb store_cb numof totalWI N M input dim lengths stride_in
        stride_out 0 tx) s =
      { output := setAt s.output ((oOffset + e * stride_out 0) % 2 ^ 64) ⟨a * x - b * y, a * y + b * x⟩,
        trace := s.trace ++ [Access.read ((oOffset + e * stride_out 0) % 2 ^ 64),
          Access.write ((oOffset + e * stride_out 0) % 2 ^ 64),
          Access.write ((oOffset + e * stride_out 0) % 2 ^ 64)] } := by
  rw [I_I_scheme0 load_cb store_cb numof totalWI N M input dim lengths stride_in stride_out tx s
    htx _ rfl]
  simp only [addressing_iIdx, addressing_oIdx, ← he, ← ho, szMul_eq, szAdd_eq, Nat.add_mod_mod,
    Nat.mod_add_mod, hin, hout]

theorem mul_device_I_I_spectral_multiply_witness :
    (5 < 8 ∧ 1 = 5 % 4 ∧ 8 = (addressing 4 1 demoLengths unitStride wideStride 5).oOffset ∧
      demoIn (1 * unitStride 0 % 2 ^ 64) = ⟨2, 3⟩ ∧ demoOut.output ((8 + 1 * wideStride 0) % 2 ^ 64) = ⟨31, 52⟩) ∧
    after (mul_device_I_I load_cb_default store_cb_default 4 8 2 4 demoIn 1 demoLengths unitStride
        wideStride 0 5) demoOut =
      { output := setAt demoOut.output ((8 + 1 * wideStride 0) % 2 ^ 64)
          ⟨2 * 31 - 3 * 52, 2 * 52 + 3 * 31⟩,
        trace := demoOut.trace ++ [Access.read ((8 + 1 * wideStride 0) % 2 ^ 64),
          Access.write ((8 + 1 * wideStride 0) % 2 ^ 64), Access.write ((8 + 1 * wideStride 0) % 2 ^ 64)] } :=
  ⟨⟨by decide, by decide, by decide, by decide, by decide⟩,
    mul_device_I_I_spectral_multiply load_cb_default store_cb_default 4 8 2 4 demoIn 1 demoLengths
      unitStride wideStride 5 demoOut 1 8 2 3 31 52 (by decide) (by decide) (by decide)
      (by decide) (by decide)⟩

/-- C4, as amended: pre-multiply+pad (scheme 1) of `mul_device_I_I`, the index
expressions being `size_t` arithmetic, that is, taken modulo `2 ^ 64`.  For an
in-range work-item with element index `e` and batch offsets `iOffset`,
`oOffset`: if `e < N` and the destination index
`(e * stride_out[0] + M + oOffset) mod 2 ^ 64` differs from `e`, the kernel
loads `(a, b)` through the load callback at input index
`(e * stride_in[0] + iOffset) mod 2 ^ 64`, reads the chirp `(p, q)` from
`output[e]` and writes `(a*p + b*q, -a*q + b*p)` to the destination; if
`e ≥ N` it writes `(0, 0)` there; no other location is written. -/
theorem mul_device_I_I_pad_multiply (load_cb : (Nat → Cplx R) → Nat → Cplx R)
    (store_cb : (Nat → Cplx R) → Nat → Cplx R → (Nat → Cplx R))
    (numof totalWI N M : Nat) (input : Nat → Cplx R) (dim : Nat)
    (lengths stride_in stride_out : Nat → Nat) (tx : Nat) (s : IMem R)
    (e iOffset oOffset : Nat) (a b p q : R)
    (htx : tx < totalWI) (he : e = tx % numof)
    (hi : iOffset = (addressing numof dim lengths stride_in stride_out tx).iOffset)
    (ho : oOffset = (addressing numof dim lengths stride_in stride_out tx).oOffset)
    (hv : load_cb input ((e * stride_in 0 + iOffset) % 2 ^ 64) = ⟨a, b⟩)
    (hc : s.output e = ⟨p, q⟩)
    (hd : e < N → (e * stride_out 0 + M + oOffset) % 2 ^ 64 ≠ e) :
    after (mul_device_I_I load_cb store_cb numof totalWI N M input dim lengths stride_in
        stride_out 1 tx) s =
      if e < N then
        { output := setAt s.output ((e * stride_out 0 + M + oOffset) % 2 ^ 64)
            ⟨a * p + b * q, -a * q + b * p⟩,
          trace := s.trace ++ [Access.loadCb ((e * stride_in 0 + iOffset) % 2 ^ 64), Access.read e,
            Access.read e, Access.write ((e * stride_out 0 + M + oOffset) % 2 ^ 64), Access.read e,
            Access.read e, Access.write ((e * stride_out 0 + M + oOffset) % 2 ^ 64)] }
      else
        { output := setAt s.output ((e * stride_out 0 + M + oOffset) % 2 ^ 64) ⟨0, 0⟩,
          trace := s.trace ++ [Access.write ((e * stride_out 0 + M + oOffset) % 2 ^ 64)] } := by
  by_cases hN : e < N
  · have hN' : (addressing numof dim lengths stride_in stride_out tx).tx < N := by
      rw [addressing_tx, ← he]; exact hN
    have hne : e ≠ (e * stride_out 0 + M + oOffset) % 2 ^ 64 := fun h => hd hN h.symm
    rw [I_I_scheme1_lt load_cb store_cb numof totalWI N M input dim lengths stride_in stride_out
      tx s htx _ rfl hN']
    simp only [addressing_iIdx, addressing_oIdx, addressing_tx, ← he, ← ho, ← hi,
      szMul_eq, szAdd_eq, Nat.add_mod_mod, Nat.mod_add_mod, hv, hc, hN, if_true, setAt_ne _ _ _ _ hne]
  · have hN' : ¬ (addressing numof dim lengths stride_in stride_out tx).tx < N := by
      rw [addressing_tx, ← he]; exact hN
    rw [I_I_scheme1_ge load_cb store_cb numof totalWI N M input dim lengths stride_in stride_out
      tx s htx _ rfl hN']
    simp only [addressing_oIdx, ← he, ← ho, szMul_eq, szAdd_eq, Nat.add_mod_mod, Nat.mod_add_mod,
      hN, if_false]

end ClaimsII

theorem mul_device_I_I_pad_multiply_witness :
    (5 < 8 ∧ 1 = 5 % 4 ∧ 1 = (addressing 4 1 demoLengths unitStride wideStride 5).iOffset ∧
      8 = (addressing 4 1 demoLengths unitStride wideStride 5).oOffset ∧
      load_cb_default demoIn ((1 * unitStride 0 + 1) % 2 ^ 64) = ⟨3, 5⟩ ∧ demoOut.output 1 = ⟨4, 7⟩ ∧
      (1 < 2 → (1 * wideStride 0 + 4 + 8) % 2 ^ 64 ≠ 1)) ∧
    after (mul_device_I_I load_cb_default store_cb_default 4 8 2 4 demoIn 1 demoLengths unitStride
        wideStride 1 5) demoOut =
      if 1 < 2 then
        { output := setAt demoOut.output ((1 * wideStride 0 + 4 + 8) % 2 ^ 64)
            ⟨3 * 4 + 5 * 7, -3 * 7 + 5 * 4⟩,
          trace := demoOut.trace ++ [Access.loadCb ((1 * unitStride 0 + 1) % 2 ^ 64), Access.read 1,
            Access.read 1, Access.write ((1 * wideStride 0 + 4 + 8) % 2 ^ 64), Access.read 1,
            Access.read 1, Access.write ((1 * wideStride 0 + 4 + 8) % 2 ^ 64)] }
      else
        { output := setAt demoOut.output ((1 * wideStride 0 + 4 + 8) % 2 ^ 64) ⟨0, 0⟩,
          trace := demoOut.trace ++ [Access.write ((1 * wideStride 0 + 4 + 8) % 2 ^ 64)] } :=
  ⟨⟨by decide, by decide, by decide, by decide, by decide, by decide, by decide⟩,
    mul_device_I_I_pad_multiply load_cb_default store_cb_default 4 8 2 4 demoIn 1 demoLengths
      unitStride wideStride 5 demoOut 1 1 8 3 5 4 7 (by decide) (by decide) (by decide)
      (by decide) (by decide) (by decide) (by decide)⟩

/-- C4 fails as stated: with `N = 1`, `M = 0` and unit strides, work-item `0`
(element index `e = 0 < N`, offsets `0`) loads `(a, b) = (1, 1)`, finds the
chirp `(p, q) = (1, 2)` in `output[0]`, and its destination index
`e * stride_out[0] + M + oOffset` is `0 = e`; the imaginary part it writes is
computed from the real part it has just stored, so the element written is
`(3, 1)` and not `(a*p + b*q, -a*q + b*p) = (3, -1)`. -/
theorem mul_device_I_I_pad_multiply_alias :
    0 < 1 ∧ 0 = 0 % 1 ∧ 0 < 1 ∧
    (addressing 1 1 demoLengths unitStride unitStride 0).iOffset = 0 ∧
    (addressing 1 1 demoLengths unitStride unitStride 0).oOffset = 0 ∧
    load_cb_default demoIn (0 * unitStride 0 + 0) = ⟨1, 1⟩ ∧
    demoOut.output 0 = ⟨1, 2⟩ ∧
    (after (mul_device_I_I load_cb_default store_cb_default 1 1 1 0 demoIn 1 demoLengths
        unitStride unitStride 1 0) demoOut).output (0 * unitStride 0 + 0 + 0) = ⟨3, 1⟩ ∧
    (after (mul_device_I_I load_cb_default store_cb_default 1 1 1 0 demoIn 1 demoLengths
        unitStride unitStride 1 0) demoOut).output (0 * unitStride 0 + 0 + 0)
      ≠ ⟨1 * 1 + 1 * 2, -1 * 2 + 1 * 1⟩ := by
  decide

/-- The destination of a scheme-1 work-item can coincide with its chirp index
even when `N ≤ M`, through wraparound: with `N = 2`, `M = 4` and
`stride_out[0] = 2 ^ 64 - 3`, work-item `1` (element index `e = 1 < N`,
`oOffset = 0`) has the destination `(2 ^ 64 - 3 + 4 + 0) mod 2 ^ 64 = 1 = e`; it
loads `(a, b) = (2, 3)`, finds the chirp `(p, q) = (4, 7)` in `output[1]` and
writes `(29, 73)`, not `(a*p + b*q, -a*q + b*p) = (29, -2)`. -/
theorem mul_device_I_I_pad_multiply_wrap_alias :
    2 ≤ 4 ∧ 1 < 8 ∧ 1 = 1 % 4 ∧ 1 < 2 ∧
    (addressing 4 1 demoLengths unitStride aliasStride 1).iOffset = 0 ∧
    (addressing 4 1 demoLengths unitStride aliasStride 1).oOffset = 0 ∧
    (1 * aliasStride 0 + 4 + 0) % 2 ^ 64 = 1 ∧
    load_cb_default demoIn ((1 * unitStride 0 + 0) % 2 ^ 64) = ⟨2, 3⟩ ∧
    demoOut.output 1 = ⟨4, 7⟩ ∧
    (after (mul_device_I_I load_cb_default store_cb_default 4 8 2 4 demoIn 1 demoLengths
        unitStride aliasStride 1 1) demoOut).output 1 = ⟨29, 73⟩ ∧
    (after (mul_device_I_I load_cb_default store_cb_default 4 8 2 4 demoIn 1 demoLengths
        unitStride aliasStride 1 1) demoOut).output 1 ≠ ⟨2 * 4 + 3 * 7, -2 * 7 + 3 * 4⟩ := by
  decide

section ClaimsIIField

variable {R : Type} [Field R]

/-- C5: result-multiply+scale (scheme 2) of `mul_device_I_I`, in exact
arithmetic with `M ≠ 0`.  An in-range work-item with element index `e` and
batch offsets `iOffset`, `oOffset` reads `(a, b)` from input index
`e * stride_in[0] + 2M + iOffset` and the chirp `(p, q)` from `input[e]`, and
its one effect on the output is the store callback invoked once, at index
`e * stride_out[0] + oOffset`, with the value
`((a*p + b*q) / M, (-a*q + b*p) / M)`.  The index expressions are `size_t`
arithmetic, hence taken modulo `2 ^ 64`. -/
theorem mul_device_I_I_result_multiply (load_cb : (Nat → Cplx R) → Nat → Cplx R)
    (store_cb : (Nat → Cplx R) → Nat → Cplx R → (Nat → Cplx R))
    (numof totalWI N M : Nat) (input : Nat → Cplx R) (dim : Nat)
    (lengths stride_in stride_out : Nat → Nat) (tx : Nat) (s : IMem R)
    (e iOffset oOffset : Nat) (a b p q : R)
    (htx : tx < totalWI) (_hM : M ≠ 0) (he : e = tx % numof)
    (hi : iOffset = (addressing numof dim lengths stride_in stride_out tx).iOffset)
    (ho : oOffset = (addressing numof dim lengths stride_in stride_out tx).oOffset)
    (hv : input ((e * stride_in 0 + 2 * M + iOffset) % 2 ^ 64) = ⟨a, b⟩)
    (hc : input e = ⟨p, q⟩) :
    after (mul_device_I_I load_cb store_cb numof totalWI N M input dim lengths stride_in
        stride_out 2 tx) s =
      { output := store_cb s.output ((e * stride_out 0 + oOffset) % 2 ^ 64)
          ⟨(a * p + b * q) / (M : R), (-a * q + b * p) / (M : R)⟩,
        trace := s.trace ++ [Access.storeCb ((e * stride_out 0 + oOffset) % 2 ^ 64)] } := by
  rw [I_I_scheme2 load_cb store_cb numof totalWI N M input dim lengths stride_in stride_out tx s
    htx _ rfl]
  simp only [addressing_iIdx, addressing_oIdx, addressing_tx, ← he, ← ho, ← hi,
    szMul_eq, szAdd_eq, Nat.add_mod_mod, Nat.mod_add_mod, hv, hc, one_div_mul_eq_div]

end ClaimsIIField

theorem mul_device_I_I_result_multiply_witness :
    (5 < 8 ∧ 4 ≠ 0 ∧ 1 = 5 % 4 ∧
      1 = (addressing 4 1 demoLengths unitStride wideStride 5).iOffset ∧
      8 = (addressing 4 1 demoLengths unitStride wideStride 5).oOffset ∧
      demoInQ ((1 * unitStride 0 + 2 * 4 + 1) % 2 ^ 64) = ⟨11, 21⟩ ∧ demoInQ 1 = ⟨2, 3⟩) ∧
    after (mul_device_I_I load_cb_default store_cb_default 4 8 2 4 demoInQ 1 demoLengths
        unitStride wideStride 2 5) demoOutQ =
      { output := store_cb_default demoOutQ.output ((1 * wideStride 0 + 8) % 2 ^ 64)
          ⟨(11 * 2 + 21 * 3) / ((4 : Nat) : ℚ), (-11 * 3 + 21 * 2) / ((4 : Nat) : ℚ)⟩,
        trace := demoOutQ.trace ++ [Access.storeCb ((1 * wideStride 0 + 8) % 2 ^ 64)] } :=
  ⟨⟨by decide, by decide, by decide, by decide, by decide,
      by norm_num [demoInQ, unitStride], by norm_num [demoInQ]⟩,
    mul_device_I_I_result_multiply load_cb_default store_cb_default 4 8 2 4 demoInQ 1 demoLengths
      unitStride wideStride 5 demoOutQ 1 1 8 11 21 2 3 (by decide) (by decide) (by decide)
      (by decide) (by decide) (by norm_num [demoInQ, unitStride]) (by norm_num [demoInQ])⟩

/-! ## `kargs_create` -/

theorem put_devkHost (t : HostTab) (idx v : Nat) :
    (t.put idx v).devkHost = setAt t.devkHost idx v := rfl

theorem kargs_zero_fill (stack : Nat → Nat) (n k : Nat) :
    ((List.range n).foldl (fun (t : HostTab) i => t.put i 0)
      { devkHost := stack, stores := [] }).devkHost k = if k < n then 0 else stack k := by
  induction n with
  | zero => simp
  | succ n ih =>
    rw [List.range_succ, List.foldl_append, List.foldl_cons, List.foldl_nil, put_devkHost]
    unfold setAt
    rw [ih]
    by_cases h : k = n
    · subst h; simp
    · have : (k < n + 1) = (k < n) := by apply propext; omega
      simp [h, this]

theorem kargs_copy_step_devkHost (W : Nat) (length inStride outStride : List Nat) (t : HostTab)
    (i : Nat) :
    (kargs_copy_step W length inStride outStride t i).devkHost =
      setAt (setAt (setAt t.devkHost i (length.getD i 0)) (i + W) (inStride.getD i 0))
        (i + 2 * W) (outStride.getD i 0) := by
  simp [kargs_copy_step, put_devkHost]

theorem kargs_copy_loop (W : Nat) (length inStride outStride : List Nat) (t0 : HostTab)
    (n k : Nat) (hn : n ≤ W) :
    ((List.range n).foldl (kargs_copy_step W length inStride outStride) t0).devkHost k =
      if k < n then length.getD k 0
      else if W ≤ k ∧ k < W + n then inStride.getD (k - W) 0
      else if 2 * W ≤ k ∧ k < 2 * W + n then outStride.getD (k - 2 * W) 0
      else t0.devkHost k := by
  induction n with
  | zero =>
    have a1 : ¬ (W ≤ k ∧ k < W) := by omega
    have a2 : ¬ (2 * W ≤ k ∧ k < 2 * W) := by omega
    simp [a1, a2]
  | succ n ih =>
    rw [List.range_succ, List.foldl_append, List.foldl_cons, List.foldl_nil,
      kargs_copy_step_devkHost]
    unfold setAt
    rw [ih (by omega)]
    by_cases h2 : k = n + 2 * W
    · subst h2
      have a1 : ¬ (n + 2 * W < n + 1) := by omega
      have a2 : ¬ (W ≤ n + 2 * W ∧ n + 2 * W < W + (n + 1)) := by omega
      have a3 : 2 * W ≤ n + 2 * W ∧ n + 2 * W < 2 * W + (n + 1) := by omega
      have a4 : n + 2 * W - 2 * W = n := by omega
      simp [a1, a2, a3, a4]
    · by_cases h1 : k = n + W
      · subst h1
        have a1 : ¬ (n + W < n + 1) := by omega
        have a3 : W ≤ n + W ∧ n + W < W + (n + 1) := by omega
        have a4 : n + W - W = n := by omega
        simp [h2, a1, a3, a4]
      · by_cases h0 : k = n
        · subst h0
          simp [h2, h1]
        · have b1 : (k < n + 1) = (k < n) := by apply propext; omega
          have b2 : (W ≤ k ∧ k < W + (n + 1)) = (W ≤ k ∧ k < W + n) := by apply propext; omega
          have b3 : (2 * W ≤ k ∧ k < 2 * W + (n + 1)) = (2 * W ≤ k ∧ k < 2 * W + n) := by
            apply propext; omega
          simp only [h2, h1, h0, if_false, b1, b2, b3]

/-- Entry `k` of the host table right before the copy, for a rank not above
the table width. -/
theorem kargs_host_entry (W : Nat) (stack : Nat → Nat) (length inStride outStride : List Nat)
    (iDist oDist k : Nat) (hD : length.length ≤ W) :
    (kargs_host W stack length inStride outStride iDist oDist).devkHost k =
      if k = length.length + 2 * W then oDist
      else if k = length.length + W then iDist
      else if k < length.length then length.getD k 0
      else if W ≤ k ∧ k < W + length.length then inStride.getD (k - W) 0
      else if 2 * W ≤ k ∧ k < 2 * W + length.length then outStride.getD (k - 2 * W) 0
      else if k < 3 * W then 0
      else stack k := by
  unfold kargs_host
  simp only [put_devkHost, Nat.one_mul]
  unfold setAt
  rw [kargs_copy_loop W length inStride outStride _ length.length k hD, kargs_zero_fill]

/-- C7: for every rank `D < W` (including `D = 0`) and vectors `length`,
`inStride`, `outStride` of size `D`, a successful `kargs_create` returns a
table `t` of `3 * W` entries with `t[i] = length[i]`, `t[W + i] = inStride[i]`,
`t[2W + i] = outStride[i]` for `i < D`, `t[W + D] = iDist`, `t[2W + D] = oDist`,
and every other entry `0`. -/
theorem kargs_create_table (W D : Nat) (stack : Nat → Nat) (length inStride outStride : List Nat)
    (iDist oDist : Nat) (hD : D < W) (hl : length.length = D) (hi : inStride.length = D)
    (ho : outStride.length = D) :
    ∃ t, kargs_create W true true stack length inStride outStride iDist oDist
        = some (gpubuf_t.holds t) ∧
      t.length = 3 * W ∧
      (∀ i, i < D → t[i]? = length[i]? ∧ t[W + i]? = inStride[i]? ∧ t[2 * W + i]? = outStride[i]?) ∧
      t[W + D]? = some iDist ∧ t[2 * W + D]? = some oDist ∧
      (∀ k, k < 3 * W → ¬ k < D → ¬ (W ≤ k ∧ k ≤ W + D) → ¬ (2 * W ≤ k ∧ k ≤ 2 * W + D) →
        t[k]? = some 0) := by
  subst hl
  have hentry := fun k => kargs_host_entry W stack length inStride outStride iDist oDist k
    (Nat.le_of_lt hD)
  have hget : ∀ k, k < 3 * W →
      ((List.range (3 * W)).map
        (kargs_host W stack length inStride outStride iDist oDist).devkHost)[k]?
      = some ((kargs_host W stack length inStride outStride iDist oDist).devkHost k) := by
    intro k hk
    simp [List.getElem?_map, List.getElem?_range hk]
  refine ⟨(List.range (3 * W)).map
    (kargs_host W stack length inStride outStride iDist oDist).devkHost, ?_, ?_, ?_, ?_, ?_, ?_⟩
  · simp [kargs_create, hi, ho]
  · simp
  · intro i hiD
    refine ⟨?_, ?_, ?_⟩
    · rw [hget i (by omega), hentry]
      have a1 : i ≠ length.length + 2 * W := by omega
      have a2 : i ≠ length.length + W := by omega
      simp [a1, a2, hiD, List.getD_eq_getElem?_getD, List.getElem?_eq_getElem hiD]
    · rw [hget (W + i) (by omega), hentry]
      have a1 : W + i ≠ length.length + 2 * W := by omega
      have a2 : W + i ≠ length.length + W := by omega
      have a3 : ¬ (W + i < length.length) := by omega
      have a4 : i < inStride.length := by omega
      simp [a1, a2, a3, hiD, List.getD_eq_getElem?_getD, List.getElem?_eq_getElem a4]
    · rw [hget (2 * W + i) (by omega), hentry]
      have a1 : 2 * W + i ≠ length.length + 2 * W := by omega
      have a2 : 2 * W + i ≠ length.length + W := by omega
      have a3 : ¬ (2 * W + i < length.length) := by omega
      have a4 : i < outStride.length := by omega
      have a5 : ¬ (W ≤ 2 * W + i ∧ 2 * W + i < W + length.length) := by omega
      simp [a1, a2, a3, a5, hiD, List.getD_eq_getElem?_getD, List.getElem?_eq_getElem a4]
  · rw [hget (W + length.length) (by omega), hentry]
    have a1 : W + length.length ≠ length.length + 2 * W := by omega
    have a2 : W + length.length = length.length + W := by omega
    rw [if_neg a1, if_pos a2]
  · rw [hget (2 * W + length.length) (by omega), hentry]
    have a1 : 2 * W + length.length = length.length + 2 * W := by omega
    rw [if_pos a1]
  · intro k hk h1 h2 h3
    rw [hget k hk, hentry]
    have a1 : k ≠ length.length + 2 * W := by omega
    have a2 : k ≠ length.length + W := by omega
    have a3 : ¬ (W ≤ k ∧ k < W + length.length) := by omega
    have a4 : ¬ (2 * W ≤ k ∧ k < 2 * W + length.length) := by omega
    simp [a1, a2, a3, a4, h1, hk]

theorem kargs_create_table_witness :
    (2 < 4 ∧ [5, 6].length = 2 ∧ [1, 5].length = 2 ∧ [1, 5].length = 2) ∧
    ∃ t, kargs_create 4 true true (fun _ => 9) [5, 6] [1, 5] [1, 5] 30 31
        = some (gpubuf_t.holds t) ∧
      t.length = 3 * 4 ∧
      (∀ i, i < 2 → t[i]? = [5, 6][i]? ∧ t[4 + i]? = [1, 5][i]? ∧ t[2 * 4 + i]? = [1, 5][i]?) ∧
      t[4 + 2]? = some 30 ∧ t[2 * 4 + 2]? = some 31 ∧
      (∀ k, k < 3 * 4 → ¬ k < 2 → ¬ (4 ≤ k ∧ k ≤ 4 + 2) → ¬ (2 * 4 ≤ k ∧ k ≤ 2 * 4 + 2) →
        t[k]? = some 0) :=
  ⟨⟨by decide, by decide, by decide, by decide⟩,
    kargs_create_table 4 2 (fun _ => 9) [5, 6] [1, 5] [1, 5] 30 31 (by decide) (by decide)
      (by decide) (by decide)⟩

/-- C8, as amended: with the outcomes of the device allocation and of the
host-to-device copy as inputs, and vectors of one size, `kargs_create` always
returns, and the table it returns is empty if and only if the allocation fails
or the copy fails. -/
theorem kargs_create_empty_iff (W : Nat) (allocOk copyOk : Bool) (stack : Nat → Nat)
    (length inStride outStride : List Nat) (iDist oDist : Nat)
    (hi : length.length = inStride.length) (ho : length.length = outStride.length) :
    (∃ g, kargs_create W allocOk copyOk stack length inStride outStride iDist oDist = some g) ∧
    (kargs_create W allocOk copyOk stack length inStride outStride iDist oDist
        = some gpubuf_t.empty ↔ (allocOk = false ∨ copyOk = false)) := by
  cases allocOk <;> cases copyOk <;> simp [kargs_create, ← hi, ← ho]

theorem kargs_create_empty_iff_witness :
    ([5, 6].length = [1, 5].length ∧ [5, 6].length = [1, 5].length) ∧
    (∃ g, kargs_create 4 true true (fun _ => 9) [5, 6] [1, 5] [1, 5] 30 31 = some g) ∧
    (kargs_create 4 true true (fun _ => 9) [5, 6] [1, 5] [1, 5] 30 31
        = some gpubuf_t.empty ↔ (true = false ∨ true = false)) :=
  ⟨⟨by decide, by decide⟩,
    kargs_create_empty_iff 4 true true (fun _ => 9) [5, 6] [1, 5] [1, 5] 30 31 (by decide)
      (by decide)⟩

/-- C8 fails as stated: the allocation succeeds, the copy to the device fails,
and `kargs_create` returns the empty table. -/
theorem kargs_create_copy_failure :
    kargs_create 4 true false (fun _ => 9) [5, 6] [1, 5] [1, 5] 30 31 = some gpubuf_t.empty ∧
    ¬ (kargs_create 4 true false (fun _ => 9) [5, 6] [1, 5] [1, 5] 30 31 = some gpubuf_t.empty
        ↔ true = false) := by
  decide

/-! ## The zero-padding store of `mul_device_P_P` -/

/-- C2, evaluated at a failing input: scheme 1, `numof = 4`, `totalWI = 8`,
`N = 2`, `M = 4`, rank 1, unit input strides, `stride_out[0] = 2`, batch output
distance `8`, work-item `tx = 2` (element index `2 ≥ N`).  On the same data
`mul_device_I_I`, `mul_device_P_I` and `mul_device_I_P` store the padding zero
at output index `2 * 2 + 4 = 8` and leave index `6` alone, whereas
`mul_device_P_P` stores it at index `4 + 2 = 6` and leaves index `8` alone. -/
theorem mul_device_P_P_pad_differs :
    ((after (mul_device_I_I load_cb_default store_cb_default 4 8 2 4 demoIn 1 demoLengths
        unitStride wideStride 1 2) demoOut).output 8 = ⟨0, 0⟩ ∧
      (after (mul_device_I_I load_cb_default store_cb_default 4 8 2 4 demoIn 1 demoLengths
        unitStride wideStride 1 2) demoOut).output 6 = ⟨19, 32⟩) ∧
    ((after (mul_device_P_I 4 8 2 4 (planeRe demoIn) (planeIm demoIn) 1 demoLengths
        unitStride wideStride 1 2) demoOut).output 8 = ⟨0, 0⟩ ∧
      (after (mul_device_P_I 4 8 2 4 (planeRe demoIn) (planeIm demoIn) 1 demoLengths
        unitStride wideStride 1 2) demoOut).output 6 = ⟨19, 32⟩) ∧
    ((after (mul_device_I_P 4 8 2 4 demoIn 1 demoLengths unitStride wideStride 1 2)
        demoOutP).outputRe 8 = 0 ∧
      (after (mul_device_I_P 4 8 2 4 demoIn 1 demoLengths unitStride wideStride 1 2)
        demoOutP).outputIm 8 = 0 ∧
      (after (mul_device_I_P 4 8 2 4 demoIn 1 demoLengths unitStride wideStride 1 2)
        demoOutP).outputRe 6 = 19 ∧
      (after (mul_device_I_P 4 8 2 4 demoIn 1 demoLengths unitStride wideStride 1 2)
        demoOutP).outputIm 6 = 32) ∧
    ((after (mul_device_P_P 4 8 2 4 (planeRe demoIn) (planeIm demoIn) 1 demoLengths
        unitStride wideStride 1 2) demoOutP).outputRe 8 = 25 ∧
      (after (mul_device_P_P 4 8 2 4 (planeRe demoIn) (planeIm demoIn) 1 demoLengths
        unitStride wideStride 1 2) demoOutP).outputIm 8 = 42 ∧
      (after (mul_device_P_P 4 8 2 4 (planeRe demoIn) (planeIm demoIn) 1 demoLengths
        unitStride wideStride 1 2) demoOutP).outputRe 6 = 0 ∧
      (after (mul_device_P_P 4 8 2 4 (planeRe demoIn) (planeIm demoIn) 1 demoLengths
        unitStride wideStride 1 2) demoOutP).outputIm 6 = 0) := by
  decide

/-- C10, evaluated at a failing input: scheme 1 of `mul_device_P_P` with
`numof = 4`, `totalWI = 8`, `N = 2`, `M = 4`, rank 1, `stride_out[0] = 2` and
batch output distance `8`, a layout in which distinct coordinates have distinct
values of `element * 2 + batch * 8`.  Work-item `1` (element `1 < N`) stores to
index `1 * 2 + 4 = 6`, and so does work-item `2` (element `2 ≥ N`, index
`4 + 2`); in `mul_device_I_I` the latter stores to index `8`. -/
theorem mul_device_P_P_pad_collides :
    (∀ tx, tx < 8 → ∀ tx', tx' < 8 →
      coord 4 1 demoLengths tx 0 * wideStride 0 + coord 4 1 demoLengths tx 1 * wideStride 1 =
        coord 4 1 demoLengths tx' 0 * wideStride 0 + coord 4 1 demoLengths tx' 1 * wideStride 1 →
      tx = tx') ∧
    writtenIdx (after (mul_device_P_P 4 8 2 4 (planeRe demoIn) (planeIm demoIn) 1 demoLengths
        unitStride wideStride 1 1) demoOutP).trace = [6, 6] ∧
    writtenIdx (after (mul_device_P_P 4 8 2 4 (planeRe demoIn) (planeIm demoIn) 1 demoLengths
        unitStride wideStride 1 2) demoOutP).trace = [6, 6] ∧
    writtenIdx (after (mul_device_I_I load_cb_default store_cb_default 4 8 2 4 demoIn 1
        demoLengths unitStride wideStride 1 1) demoOut).trace = [6, 6] ∧
    writtenIdx (after (mul_device_I_I load_cb_default store_cb_default 4 8 2 4 demoIn 1
        demoLengths unitStride wideStride 1 2) demoOut).trace = [8] := by
  decide

/-! ## Range guard -/

section RangeGuard

variable {R : Type} [Zero R] [One R] [Add R] [Sub R] [Mul R] [Neg R] [Div R] [NatCast R]

theorem P_I_out_of_range (numof totalWI N M : Nat) (inputRe inputIm : Nat → R) (dim : Nat)
    (lengths stride_in stride_out : Nat → Nat) (scheme : Int) (tx : Nat) (s : IMem R)
    (htx : totalWI ≤ tx) :
    after (mul_device_P_I numof totalWI N M inputRe inputIm dim lengths stride_in stride_out
      scheme tx) s = s := by
  unfold mul_device_P_I after
  simp only [ge_iff_le, htx, if_true]
  rfl

theorem I_P_out_of_range (numof totalWI N M : Nat) (input : Nat → Cplx R) (dim : Nat)
    (lengths stride_in stride_out : Nat → Nat) (scheme : Int) (tx : Nat) (s : PMem R)
    (htx : totalWI ≤ tx) :
    after (mul_device_I_P numof totalWI N M input dim lengths stride_in stride_out
      scheme tx) s = s := by
  unfold mul_device_I_P after
  simp only [ge_iff_le, htx, if_true]
  rfl

theorem P_P_out_of_range (numof totalWI N M : Nat) (inputRe inputIm : Nat → R) (dim : Nat)
    (lengths stride_in stride_out : Nat → Nat) (scheme : Int) (tx : Nat) (s : PMem R)
    (htx : totalWI ≤ tx) :
    after (mul_device_P_P numof totalWI N M inputRe inputIm dim lengths stride_in stride_out
      scheme tx) s = s := by
  unfold mul_device_P_P after
  simp only [ge_iff_le, htx, if_true]
  rfl

/-- C13: in each of the four layout variants and for every value of `scheme`,
a work-item with `tx ≥ totalWI` returns at the range guard: the state after it
is the state before it, so the output buffers are unchanged and the trace
gains no access (no load, no store, no callback invocation). -/
theorem mul_device_range_guard (load_cb : (Nat → Cplx R) → Nat → Cplx R)
    (store_cb : (Nat → Cplx R) → Nat → Cplx R → (Nat → Cplx R))
    (numof totalWI N M : Nat) (input : Nat → Cplx R) (inputRe inputIm : Nat → R) (dim : Nat)
    (lengths stride_in stride_out : Nat → Nat) (scheme : Int) (tx : Nat)
    (s : IMem R) (sp : PMem R) (htx : tx ≥ totalWI) :
    (after (mul_device_I_I load_cb store_cb numof totalWI N M input dim lengths stride_in
        stride_out scheme tx) s = s ∧
      IMem.accesses (mul_device_I_I load_cb store_cb numof totalWI N M input dim lengths
        stride_in stride_out scheme tx) s = []) ∧
    (after (mul_device_P_I numof totalWI N M inputRe inputIm dim lengths stride_in stride_out
        scheme tx) s = s ∧
      IMem.accesses (mul_device_P_I numof totalWI N M inputRe inputIm dim lengths stride_in
        stride_out scheme tx) s = []) ∧
    (after (mul_device_I_P numof totalWI N M input dim lengths stride_in stride_out
        scheme tx) sp = sp ∧
      PMem.accesses (mul_device_I_P numof totalWI N M input dim lengths stride_in stride_out
        scheme tx) sp = []) ∧
    (after (mul_device_P_P numof totalWI N M inputRe inputIm dim lengths stride_in stride_out
        scheme tx) sp = sp ∧
      PMem.accesses (mul_device_P_P numof totalWI N M inputRe inputIm dim lengths stride_in
        stride_out scheme tx) sp = []) := by
  have h1 := I_I_out_of_range load_cb store_cb numof totalWI N M input dim lengths stride_in
    stride_out scheme tx s htx
  have h2 := P_I_out_of_range numof totalWI N M inputRe inputIm dim lengths stride_in stride_out
    scheme tx s htx
  have h3 := I_P_out_of_range numof totalWI N M input dim lengths stride_in stride_out
    scheme tx sp htx
  have h4 := P_P_out_of_range numof totalWI N M inputRe inputIm dim lengths stride_in stride_out
    scheme tx sp htx
  refine ⟨⟨h1, ?_⟩, ⟨h2, ?_⟩, ⟨h3, ?_⟩, ⟨h4, ?_⟩⟩
  · simp [IMem.accesses, h1]
  · simp [IMem.accesses, h2]
  · simp [PMem.accesses, h3]
  · simp [PMem.accesses, h4]

end RangeGuard

theorem mul_device_range_guard_witness :
    (8 ≥ 8) ∧
    ((after (mul_device_I_I load_cb_default store_cb_default 4 8 2 4 demoIn 1 demoLengths
        unitStride wideStride 2 8) demoOut = demoOut ∧
      IMem.accesses (mul_device_I_I load_cb_default store_cb_default 4 8 2 4 demoIn 1
        demoLengths unitStride wideStride 2 8) demoOut = []) ∧
    (after (mul_device_P_I 4 8 2 4 (planeRe demoIn) (planeIm demoIn) 1 demoLengths unitStride
        wideStride 2 8) demoOut = demoOut ∧
      IMem.accesses (mul_device_P_I 4 8 2 4 (planeRe demoIn) (planeIm demoIn) 1 demoLengths
        unitStride wideStride 2 8) demoOut = []) ∧
    (after (mul_device_I_P 4 8 2 4 demoIn 1 demoLengths unitStride wideStride 2 8) demoOutP
        = demoOutP ∧
      PMem.accesses (mul_device_I_P 4 8 2 4 demoIn 1 demoLengths unitStride wideStride 2 8)
        demoOutP = []) ∧
    (after (mul_device_P_P 4 8 2 4 (planeRe demoIn) (planeIm demoIn) 1 demoLengths unitStride
        wideStride 2 8) demoOutP = demoOutP ∧
      PMem.accesses (mul_device_P_P 4 8 2 4 (planeRe demoIn) (planeIm demoIn) 1 demoLengths
        unitStride wideStride 2 8) demoOutP = [])) :=
  ⟨by decide,
    mul_device_range_guard load_cb_default store_cb_default 4 8 2 4 demoIn (planeRe demoIn)
      (planeIm demoIn) 1 demoLengths unitStride wideStride 2 8 demoOut demoOutP (by decide)⟩

/-! ## Callback invocations of `mul_device_I_I` -/

theorem IMem.accesses_eq {R : Type} (k : StateM (IMem R) Unit) (s : IMem R) (l : List Access)
    (h : (after k s).trace = s.trace ++ l) : IMem.accesses k s = l := by
  simp [IMem.accesses, h]

theorem PMem.planar_accesses_eq {R : Type} (k : StateM (PMem R) Unit) (s : PMem R) (l : List Access)
    (h : (after k s).trace = s.trace ++ l) : PMem.accesses k s = l := by
  simp [PMem.accesses, h]

section CallbackIsolation

variable {R : Type} [Zero R] [One R] [Add R] [Sub R] [Mul R] [Neg R] [Div R] [NatCast R]

/-- C12, as amended: callback isolation in `mul_device_I_I` for an in-range
work-item (`tx < totalWI`).  Scheme 0 leaves the same state for any two choices
of load and store callbacks and invokes neither; scheme 1 never invokes the
store callback and invokes the load callback exactly once when
`elementIndex < N` and never otherwise; scheme 2 never invokes the load
callback and invokes the store callback exactly once. -/
theorem mul_device_I_I_callback_isolation (load_cb load_cb' : (Nat → Cplx R) → Nat → Cplx R)
    (store_cb store_cb' : (Nat → Cplx R) → Nat → Cplx R → (Nat → Cplx R))
    (numof totalWI N M : Nat) (input : Nat → Cplx R) (dim : Nat)
    (lengths stride_in stride_out : Nat → Nat) (tx : Nat) (s : IMem R) (htx : tx < totalWI) :
    (after (mul_device_I_I load_cb store_cb numof totalWI N M input dim lengths stride_in
        stride_out 0 tx) s =
      after (mul_device_I_I load_cb' store_cb' numof totalWI N M input dim lengths stride_in
        stride_out 0 tx) s ∧
      loadCbCount (IMem.accesses (mul_device_I_I load_cb store_cb numof totalWI N M input dim
        lengths stride_in stride_out 0 tx) s) = 0 ∧
      storeCbCount (IMem.accesses (mul_device_I_I load_cb store_cb numof totalWI N M input dim
        lengths stride_in stride_out 0 tx) s) = 0) ∧
    (storeCbCount (IMem.accesses (mul_device_I_I load_cb store_cb numof totalWI N M input dim
        lengths stride_in stride_out 1 tx) s) = 0 ∧
      loadCbCount (IMem.accesses (mul_device_I_I load_cb store_cb numof totalWI N M input dim
        lengths stride_in stride_out 1 tx) s) = if tx % numof < N then 1 else 0) ∧
    (loadCbCount (IMem.accesses (mul_device_I_I load_cb store_cb numof totalWI N M input dim
        lengths stride_in stride_out 2 tx) s) = 0 ∧
      storeCbCount (IMem.accesses (mul_device_I_I load_cb store_cb numof totalWI N M input dim
        lengths stride_in stride_out 2 tx) s) = 1) := by
  have h0 := I_I_scheme0 load_cb store_cb numof totalWI N M input dim lengths stride_in
    stride_out tx s htx _ rfl
  have h0' := I_I_scheme0 load_cb' store_cb' numof totalWI N M input dim lengths stride_in
    stride_out tx s htx _ rfl
  have h2 := I_I_scheme2 load_cb store_cb numof totalWI N M input dim lengths stride_in
    stride_out tx s htx _ rfl
  refine ⟨⟨by rw [h0, h0'], ?_, ?_⟩, ⟨?_, ?_⟩, ⟨?_, ?_⟩⟩
  · rw [IMem.accesses_eq _ s _ (congrArg IMem.trace h0)]; rfl
  · rw [IMem.accesses_eq _ s _ (congrArg IMem.trace h0)]; rfl
  · by_cases hN : (addressing numof dim lengths stride_in stride_out tx).tx < N
    · have h1 := I_I_scheme1_lt load_cb store_cb numof totalWI N M input dim lengths stride_in
        stride_out tx s htx _ rfl hN
      rw [IMem.accesses_eq _ s _ (congrArg IMem.trace h1)]; rfl
    · have h1 := I_I_scheme1_ge load_cb store_cb numof totalWI N M input dim lengths stride_in
        stride_out tx s htx _ rfl hN
      rw [IMem.accesses_eq _ s _ (congrArg IMem.trace h1)]; rfl
  · by_cases hN : (addressing numof dim lengths stride_in stride_out tx).tx < N
    · have h1 := I_I_scheme1_lt load_cb store_cb numof totalWI N M input dim lengths stride_in
        stride_out tx s htx _ rfl hN
      have hN' : tx % numof < N := hN
      rw [IMem.accesses_eq _ s _ (congrArg IMem.trace h1), if_pos hN']; rfl
    · have h1 := I_I_scheme1_ge load_cb store_cb numof totalWI N M input dim lengths stride_in
        stride_out tx s htx _ rfl hN
      have hN' : ¬ tx % numof < N := hN
      rw [IMem.accesses_eq _ s _ (congrArg IMem.trace h1), if_neg hN']; rfl
  · rw [IMem.accesses_eq _ s _ (congrArg IMem.trace h2)]; rfl
  · rw [IMem.accesses_eq _ s _ (congrArg IMem.trace h2)]; rfl

end CallbackIsolation

theorem mul_device_I_I_callback_isolation_witness :
    (5 < 8) ∧
    ((after (mul_device_I_I load_cb_default store_cb_default 4 8 2 4 demoIn 1 demoLengths
        unitStride wideStride 0 5) demoOut =
      after (mul_device_I_I (fun buf i => ⟨2 * (buf i).x, 2 * (buf i).y⟩)
        (fun buf _ _ => buf) 4 8 2 4 demoIn 1 demoLengths unitStride wideStride 0 5) demoOut ∧
      loadCbCount (IMem.accesses (mul_device_I_I load_cb_default store_cb_default 4 8 2 4 demoIn 1
        demoLengths unitStride wideStride 0 5) demoOut) = 0 ∧
      storeCbCount (IMem.accesses (mul_device_I_I load_cb_default store_cb_default 4 8 2 4 demoIn
        1 demoLengths unitStride wideStride 0 5) demoOut) = 0) ∧
    (storeCbCount (IMem.accesses (mul_device_I_I load_cb_default store_cb_default 4 8 2 4 demoIn
        1 demoLengths unitStride wideStride 1 5) demoOut) = 0 ∧
      loadCbCount (IMem.accesses (mul_device_I_I load_cb_default store_cb_default 4 8 2 4 demoIn
        1 demoLengths unitStride wideStride 1 5) demoOut) = if 5 % 4 < 2 then 1 else 0) ∧
    (loadCbCount (IMem.accesses (mul_device_I_I load_cb_default store_cb_default 4 8 2 4 demoIn
        1 demoLengths unitStride wideStride 2 5) demoOut) = 0 ∧
      storeCbCount (IMem.accesses (mul_device_I_I load_cb_default store_cb_default 4 8 2 4 demoIn
        1 demoLengths unitStride wideStride 2 5) demoOut) = 1)) :=
  ⟨by decide,
    mul_device_I_I_callback_isolation load_cb_default
      (fun buf i => ⟨2 * (buf i).x, 2 * (buf i).y⟩) store_cb_default (fun buf _ _ => buf)
      4 8 2 4 demoIn 1 demoLengths unitStride wideStride 5 demoOut (by decide)⟩

/-- C12 fails as stated: with `totalWI = 8`, the scheme-2 work-item `tx = 8`
(and equally the scheme-1 work-item `tx = 8`, whose element index `0` is below
`N = 2`) returns at the range guard and invokes no callback at all, where the
claim has exactly one store-callback (load-callback) invocation. -/
theorem mul_device_I_I_callback_out_of_range :
    storeCbCount (IMem.accesses (mul_device_I_I load_cb_default store_cb_default 4 8 2 4 demoIn
        1 demoLengths unitStride wideStride 2 8) demoOut) = 0 ∧
    storeCbCount (IMem.accesses (mul_device_I_I load_cb_default store_cb_default 4 8 2 4 demoIn
        1 demoLengths unitStride wideStride 2 8) demoOut) ≠ 1 ∧
    8 % 4 < 2 ∧
    loadCbCount (IMem.accesses (mul_device_I_I load_cb_default store_cb_default 4 8 2 4 demoIn
        1 demoLengths unitStride wideStride 1 8) demoOut) = 0 ∧
    loadCbCount (IMem.accesses (mul_device_I_I load_cb_default store_cb_default 4 8 2 4 demoIn
        1 demoLengths unitStride wideStride 1 8) demoOut) ≠ 1 := by
  decide

/-! ## De-chirp round trip -/

section RoundTrip

variable {R : Type} [Field R]

/-- C11: de-chirp round trip.  A scheme-1 work-item of `mul_device_I_I`
pre-multiplies the input value `(a, b)` by the chirp `(p, q)`; when the value
it has written is handed unchanged to a scheme-2 work-item (the transform being
replaced by the identity) whose chirp is the opposite-direction value
`(p, -q)`, and `M ≠ 0`, the value stored is `(a, b)` scaled by
`(p*p + q*q) / M` in both components, hence `(a / M, b / M)` when
`p*p + q*q = 1`.  The index expressions are `size_t` arithmetic, hence taken
modulo `2 ^ 64`. -/
theorem dechirp_round_trip (load_cb load_cb2 : (Nat → Cplx R) → Nat → Cplx R)
    (store_cb : (Nat → Cplx R) → Nat → Cplx R → (Nat → Cplx R))
    (numof totalWI N M : Nat) (input input2 : Nat → Cplx R) (dim : Nat)
    (lengths stride_in stride_out stride_in2 stride_out2 : Nat → Nat) (tx : Nat)
    (s s2 : IMem R) (e iOffset oOffset iOffset2 oOffset2 : Nat) (a b p q : R)
    (htx : tx < totalWI) (_hM : M ≠ 0) (he : e = tx % numof) (heN : e < N)
    (hi : iOffset = (addressing numof dim lengths stride_in stride_out tx).iOffset)
    (ho : oOffset = (addressing numof dim lengths stride_in stride_out tx).oOffset)
    (hi2 : iOffset2 = (addressing numof dim lengths stride_in2 stride_out2 tx).iOffset)
    (ho2 : oOffset2 = (addressing numof dim lengths stride_in2 stride_out2 tx).oOffset)
    (hd : (e * stride_out 0 + M + oOffset) % 2 ^ 64 ≠ e)
    (hv : load_cb input ((e * stride_in 0 + iOffset) % 2 ^ 64) = ⟨a, b⟩)
    (hc : s.output e = ⟨p, q⟩)
    (hid : input2 ((e * stride_in2 0 + 2 * M + iOffset2) % 2 ^ 64) =
      (after (mul_device_I_I load_cb store_cb numof totalWI N M input dim lengths stride_in
        stride_out 1 tx) s).output ((e * stride_out 0 + M + oOffset) % 2 ^ 64))
    (hc2 : input2 e = ⟨p, -q⟩) :
    (after (mul_device_I_I load_cb2 store_cb_default numof totalWI N M input2 dim lengths
        stride_in2 stride_out2 2 tx) s2).output ((e * stride_out2 0 + oOffset2) % 2 ^ 64) =
      ⟨a * ((p * p + q * q) / (M : R)), b * ((p * p + q * q) / (M : R))⟩ ∧
    (p * p + q * q = 1 →
      (after (mul_device_I_I load_cb2 store_cb_default numof totalWI N M input2 dim lengths
        stride_in2 stride_out2 2 tx) s2).output ((e * stride_out2 0 + oOffset2) % 2 ^ 64) =
      ⟨a / (M : R), b / (M : R)⟩) := by
  have hN' : (addressing numof dim lengths stride_in stride_out tx).tx < N := by
    rw [addressing_tx, ← he]; exact heN
  have hne : e ≠ (e * stride_out 0 + M + oOffset) % 2 ^ 64 := fun h => hd h.symm
  have h1 := I_I_scheme1_lt load_cb store_cb numof totalWI N M input dim lengths stride_in
    stride_out tx s htx _ rfl hN'
  simp only [addressing_iIdx, addressing_oIdx, addressing_tx, ← he, ← ho, ← hi, szMul_eq,
    szAdd_eq, Nat.add_mod_mod, Nat.mod_add_mod, hv, hc, setAt_ne _ _ _ _ hne] at h1
  rw [h1] at hid
  simp only [setAt_same] at hid
  have h2 := I_I_scheme2 load_cb2 store_cb_default numof totalWI N M input2 dim lengths
    stride_in2 stride_out2 tx s2 htx _ rfl
  simp only [addressing_iIdx, addressing_oIdx, addressing_tx, ← he, ← ho2, ← hi2, szMul_eq,
    szAdd_eq, Nat.add_mod_mod, Nat.mod_add_mod, hid, hc2] at h2
  have key : (after (mul_device_I_I load_cb2 store_cb_default numof totalWI N M input2 dim
      lengths stride_in2 stride_out2 2 tx) s2).output ((e * stride_out2 0 + oOffset2) % 2 ^ 64) =
      ⟨a * ((p * p + q * q) / (M : R)), b * ((p * p + q * q) / (M : R))⟩ := by
    rw [h2]
    simp only [store_cb_default, setAt_same, Cplx.mk.injEq]
    constructor <;> ring
  refine ⟨key, fun h1 => ?_⟩
  rw [key, h1, mul_one_div, mul_one_div]

end RoundTrip

theorem demo_pad_multiply_value :
    demoIn2Q ((1 * unitStride 0 + 2 * 4 + 1) % 2 ^ 64) =
      (after (mul_device_I_I load_cb_default store_cb_default 4 8 2 4 demoInQ 1 demoLengths
        unitStride wideStride 1 5) demoOutQ).output ((1 * wideStride 0 + 4 + 8) % 2 ^ 64) := by
  rw [I_I_scheme1_lt load_cb_default store_cb_default 4 8 2 4 demoInQ 1 demoLengths unitStride
    wideStride 5 demoOutQ (by decide) _ rfl (by decide)]
  norm_num [setAt, addressing, offsetLoop, load_cb_default, demoInQ, demoOutQ, demoIn2Q,
    unitStride, wideStride, szAdd, szMul, sizeMod]

theorem dechirp_round_trip_witness :
    (5 < 8 ∧ 4 ≠ 0 ∧ 1 = 5 % 4 ∧ 1 < 2 ∧
      1 = (addressing 4 1 demoLengths unitStride wideStride 5).iOffset ∧
      8 = (addressing 4 1 demoLengths unitStride wideStride 5).oOffset ∧
      (1 * wideStride 0 + 4 + 8) % 2 ^ 64 ≠ 1 ∧
      load_cb_default demoInQ ((1 * unitStride 0 + 1) % 2 ^ 64) = ⟨3, 5⟩ ∧
      demoOutQ.output 1 = ⟨4, 7⟩ ∧
      demoIn2Q ((1 * unitStride 0 + 2 * 4 + 1) % 2 ^ 64) =
        (after (mul_device_I_I load_cb_default store_cb_default 4 8 2 4 demoInQ 1 demoLengths
          unitStride wideStride 1 5) demoOutQ).output ((1 * wideStride 0 + 4 + 8) % 2 ^ 64) ∧
      demoIn2Q 1 = ⟨4, -7⟩) ∧
    ((after (mul_device_I_I load_cb_default store_cb_default 4 8 2 4 demoIn2Q 1 demoLengths
        unitStride wideStride 2 5) demoOutQ).output ((1 * wideStride 0 + 8) % 2 ^ 64) =
      ⟨3 * ((4 * 4 + 7 * 7) / ((4 : Nat) : ℚ)), 5 * ((4 * 4 + 7 * 7) / ((4 : Nat) : ℚ))⟩ ∧
    ((4 : ℚ) * 4 + 7 * 7 = 1 →
      (after (mul_device_I_I load_cb_default store_cb_default 4 8 2 4 demoIn2Q 1 demoLengths
        unitStride wideStride 2 5) demoOutQ).output ((1 * wideStride 0 + 8) % 2 ^ 64) =
      ⟨3 / ((4 : Nat) : ℚ), 5 / ((4 : Nat) : ℚ)⟩)) :=
  ⟨⟨by decide, by decide, by decide, by decide, by decide, by decide, by decide,
      by norm_num [load_cb_default, demoInQ, unitStride], by norm_num [demoOutQ],
      demo_pad_multiply_value, by norm_num [demoIn2Q]⟩,
    dechirp_round_trip load_cb_default load_cb_default store_cb_default 4 8 2 4 demoInQ demoIn2Q 1
      demoLengths unitStride wideStride unitStride wideStride 5 demoOutQ demoOutQ 1 1 8 1 8
      3 5 4 7 (by decide) (by decide) (by decide) (by decide) (by decide) (by decide) (by decide)
      (by decide) (by decide) (by norm_num [load_cb_default, demoInQ, unitStride])
      (by norm_num [demoOutQ]) demo_pad_multiply_value (by norm_num [demoIn2Q])⟩

/-! ## Stores of the chirp generator -/

theorem mirrorSecond_of_le (M a : Nat) (h : a ≤ M) : mirrorSecond M a = M - a + M := by
  simp [mirrorSecond, szSub, h]

section ChirpStores

variable {Tw R : Type} [Zero R] [Mul R] [IntCast R]

theorem chirp_device_trace (steps : TWLsteps Tw R) (N M : Nat) (tw : Tw) (twl dir : Int)
    (tx : Nat) (s : IMem R) :
    (after (chirp_device steps N M tw twl dir tx) s).trace =
      s.trace ++ (chirp_writes N M tx).map Access.write := by
  unfold chirp_device after chirp_writes
  split_ifs <;> simp [bind, StateT.bind, IMem.st, pure, StateT.pure]

theorem writtenIdx_map_write (l : List Nat) : writtenIdx (l.map Access.write) = l := by
  induction l with
  | nil => rfl
  | cons a t ih => simp [writtenIdx, ih]

theorem chirp_device_written (steps : TWLsteps Tw R) (N M : Nat) (tw : Tw) (twl dir : Int)
    (tx : Nat) (s : IMem R) :
    writtenIdx (IMem.accesses (chirp_device steps N M tw twl dir tx) s) = chirp_writes N M tx := by
  rw [IMem.accesses_eq _ s _ (chirp_device_trace steps N M tw twl dir tx s), writtenIdx_map_write]

theorem chirp_device_output_at (steps : TWLsteps Tw R) (N M : Nat) (tw : Tw) (twl dir : Int)
    (tx : Nat) (s : IMem R) (loc : Nat) :
    (after (chirp_device steps N M tw twl dir tx) s).output loc =
      if loc ∈ chirp_writes N M tx then chirp_store_val steps N tw twl dir tx
      else s.output loc := by
  rw [chirp_device_output]
  unfold chirp_writes chirp_store_val setAt
  by_cases h0 : tx = 0
  · simp only [h0, if_true, List.mem_cons, List.mem_singleton, List.not_mem_nil, or_false]
    split_ifs <;> simp_all
  · by_cases h1 : tx < N
    · simp only [h0, h1, if_true, if_false, List.mem_cons, List.mem_singleton, List.not_mem_nil,
        or_false]
      split_ifs <;> simp_all
    · by_cases h2 : tx ≤ szSub M N
      · simp only [h0, h1, h2, if_true, if_false, List.mem_cons, List.mem_singleton,
          List.not_mem_nil, or_false]
        split_ifs <;> simp_all
      · simp [h0, h1, h2]

end ChirpStores

theorem chirp_writes_lt (N M tx loc : Nat) (hN : 1 ≤ N) (hM : 2 * N - 1 ≤ M)
    (h : loc ∈ chirp_writes N M tx) : loc < 2 * M := by
  have hMN : szSub M N = M - N := by simp [szSub]; omega
  unfold chirp_writes at h
  by_cases h0 : tx = 0
  · simp [h0] at h; omega
  · by_cases h1 : tx < N
    · have hs : szSub M tx = M - tx := by simp [szSub]; omega
      have hm : mirrorSecond M tx = M - tx + M := mirrorSecond_of_le M tx (by omega)
      simp [h0, h1, hs, hm] at h; omega
    · by_cases h2 : tx ≤ szSub M N
      · simp [h0, h1, h2] at h; rw [hMN] at h2; omega
      · simp [h0, h1, h2] at h

theorem chirp_writes_unique (N M tx tx' loc : Nat) (hN : 1 ≤ N) (hM : 2 * N - 1 ≤ M)
    (h : loc ∈ chirp_writes N M tx) (h' : loc ∈ chirp_writes N M tx') : tx = tx' := by
  have hMN : szSub M N = M - N := by simp [szSub]; omega
  have hsub : ∀ a, a < N → szSub M a = M - a := fun a ha => by simp [szSub]; omega
  have hmir : ∀ a, a < N → mirrorSecond M a = M - a + M :=
    fun a ha => mirrorSecond_of_le M a (by omega)
  unfold chirp_writes at h h'
  rw [hMN] at h h'
  by_cases h0 : tx = 0 <;> by_cases h1 : tx < N <;> by_cases h2 : tx ≤ M - N <;>
    by_cases g0 : tx' = 0 <;> by_cases g1 : tx' < N <;> by_cases g2 : tx' ≤ M - N <;>
    simp only [h0, h1, h2, g0, g1, g2, if_true, if_false, List.mem_cons, List.mem_singleton,
      List.not_mem_nil, or_false, hsub tx, hsub tx', hmir tx, hmir tx'] at h h' <;> omega

theorem chirp_writes_cover (N M loc : Nat) (hloc : loc < 2 * M) :
    ∃ w, w < M ∧ loc ∈ chirp_writes N M w := by
  obtain ⟨k, hk, hkloc⟩ : ∃ k, k < M ∧ (loc = k ∨ loc = k + M) := by
    by_cases h : loc < M
    · exact ⟨loc, h, Or.inl rfl⟩
    · exact ⟨loc - M, by omega, Or.inr (by omega)⟩
  by_cases k0 : k = 0
  · refine ⟨0, by omega, ?_⟩
    subst k0
    rcases hkloc with h | h <;> simp [chirp_writes, h]
  · by_cases c1 : k < N
    · refine ⟨k, hk, ?_⟩
      rcases hkloc with h | h <;> simp [chirp_writes, k0, c1, h]
    · by_cases c2 : k ≤ szSub M N
      · refine ⟨k, hk, ?_⟩
        rcases hkloc with h | h <;> simp [chirp_writes, k0, c1, c2, h]
      · have hNM : N ≤ M := by omega
        have hMN : szSub M N = M - N := by simp [szSub, hNM]
        rw [hMN] at c2
        have w0 : M - k ≠ 0 := by omega
        have w1 : M - k < N := by omega
        have hs : szSub M (M - k) = k := by simp [szSub]; omega
        have hm : mirrorSecond M (M - k) = k + M := by
          rw [mirrorSecond_of_le M (M - k) (by omega)]; omega
        refine ⟨M - k, by omega, ?_⟩
        rcases hkloc with h | h <;> simp [chirp_writes, w0, w1, hs, hm, h]

section ChirpPartition

variable {Tw R : Type} [Zero R] [Mul R] [IntCast R]

theorem chirp_launch_frame (steps : TWLsteps Tw R) (N M : Nat) (tw : Tw) (twl dir : Int)
    (hN : 1 ≤ N) (hM : 2 * N - 1 ≤ M) (order : List Nat) (s : IMem R) (loc : Nat)
    (hloc : 2 * M ≤ loc) :
    (launch (chirp_device steps N M tw twl dir) order s).output loc = s.output loc := by
  refine launch_keeps _ loc (s.output loc) order (fun tx _ s' => Or.inr ?_) s rfl
  rw [chirp_device_output_at]
  have : loc ∉ chirp_writes N M tx := fun h => by
    have := chirp_writes_lt N M tx loc hN hM h
    omega
  simp [this]

theorem chirp_device_idle (steps : TWLsteps Tw R) (N M : Nat) (tw : Tw) (twl dir : Int)
    (tx : Nat) (s : IMem R) (h0 : tx ≠ 0) (h1 : ¬ tx < N) (h2 : ¬ tx ≤ szSub M N) :
    after (chirp_device steps N M tw twl dir tx) s = s := by
  unfold chirp_device after
  simp only [h0, h1, h2, if_false]
  rfl

/-- C18: for `N ≥ 1`, `M ≥ 2N - 1` and a grid of `G ≥ M` work-items, every
index in `[0, 2M)` is stored to by exactly one work-item `tx < G`, no work-item
stores to an index `≥ 2M`, a work-item with `tx ≥ N` and `tx > M - N` makes no
access and leaves the state as it is, and the buffer after the launch is the
same for any two execution orders. -/
theorem chirp_writes_partition (steps : TWLsteps Tw R) (N M G : Nat) (tw : Tw) (twl dir : Int)
    (s : IMem R) (hN : 1 ≤ N) (hM : 2 * N - 1 ≤ M) (hG : M ≤ G) :
    (∀ loc, loc < 2 * M →
      ∃! tx, tx < G ∧
        loc ∈ writtenIdx (IMem.accesses (chirp_device steps N M tw twl dir tx) s)) ∧
    (∀ tx loc, loc ∈ writtenIdx (IMem.accesses (chirp_device steps N M tw twl dir tx) s) →
      loc < 2 * M) ∧
    (∀ tx, N ≤ tx → M - N < tx →
      IMem.accesses (chirp_device steps N M tw twl dir tx) s = [] ∧
      after (chirp_device steps N M tw twl dir tx) s = s) ∧
    (∀ order order', order.Perm (List.range G) → order'.Perm (List.range G) →
      (launch (chirp_device steps N M tw twl dir) order s).output =
        (launch (chirp_device steps N M tw twl dir) order' s).output) := by
  refine ⟨?_, ?_, ?_, ?_⟩
  · intro loc hloc
    obtain ⟨w, hw, hmem⟩ := chirp_writes_cover N M loc hloc
    refine ⟨w, ⟨by omega, by rw [chirp_device_written]; exact hmem⟩, ?_⟩
    rintro tx ⟨_, htx⟩
    rw [chirp_device_written] at htx
    exact chirp_writes_unique N M tx w loc hN hM htx hmem
  · intro tx loc h
    rw [chirp_device_written] at h
    exact chirp_writes_lt N M tx loc hN hM h
  · intro tx h1 h2
    have hMN : szSub M N = M - N := by simp [szSub]; omega
    have hidle := chirp_device_idle steps N M tw twl dir tx s (by omega) (by omega)
      (by rw [hMN]; omega)
    exact ⟨by simp [IMem.accesses, hidle], hidle⟩
  · intro order order' ho ho'
    have hmem : ∀ (l : List Nat), l.Perm (List.range G) → ∀ w, w < M → w ∈ l :=
      fun l hl w hw => (hl.mem_iff).mpr (List.mem_range.mpr (by omega))
    funext loc
    by_cases hloc : loc < 2 * M
    · rw [chirp_launch_output steps N M tw twl dir hN hM order (hmem order ho) s loc hloc,
        chirp_launch_output steps N M tw twl dir hN hM order' (hmem order' ho') s loc hloc]
    · rw [chirp_launch_frame steps N M tw twl dir hN hM order s loc (by omega),
        chirp_launch_frame steps N M tw twl dir hN hM order' s loc (by omega)]

end ChirpPartition

theorem chirp_writes_partition_witness :
    (1 ≤ 3 ∧ 2 * 3 - 1 ≤ 8 ∧ 8 ≤ 10) ∧
    ((∀ loc, loc < 2 * 8 →
      ∃! tx, tx < 10 ∧
        loc ∈ writtenIdx (IMem.accesses (chirp_device demoSteps 3 8 () 1 (-1) tx) demoOut)) ∧
    (∀ tx loc, loc ∈ writtenIdx (IMem.accesses (chirp_device demoSteps 3 8 () 1 (-1) tx) demoOut) →
      loc < 2 * 8) ∧
    (∀ tx, 3 ≤ tx → 8 - 3 < tx →
      IMem.accesses (chirp_device demoSteps 3 8 () 1 (-1) tx) demoOut = [] ∧
      after (chirp_device demoSteps 3 8 () 1 (-1) tx) demoOut = demoOut) ∧
    (∀ order order', order.Perm (List.range 10) → order'.Perm (List.range 10) →
      (launch (chirp_device demoSteps 3 8 () 1 (-1)) order demoOut).output =
        (launch (chirp_device demoSteps 3 8 () 1 (-1)) order' demoOut).output)) :=
  ⟨⟨by decide, by decide, by decide⟩,
    chirp_writes_partition demoSteps 3 8 10 () 1 (-1) demoOut (by decide) (by decide)
      (by decide)⟩

/-! ## Direction flag of the chirp generator -/

theorem launch_pair_keeps {R : Type} (f g : Nat → StateM (IMem R) Unit) (loc : Nat)
    (rel : Cplx R → Cplx R → Prop) (order : List Nat)
    (h : ∀ tx ∈ order, ∀ s₁ s₂ : IMem R,
      rel ((after (f tx) s₁).output loc) ((after (g tx) s₂).output loc) ∨
      ((after (f tx) s₁).output loc = s₁.output loc ∧
        (after (g tx) s₂).output loc = s₂.output loc))
    (s₁ s₂ : IMem R) (hs : rel (s₁.output loc) (s₂.output loc)) :
    rel ((launch f order s₁).output loc) ((launch g order s₂).output loc) := by
  induction order generalizing s₁ s₂ with
  | nil => simpa [launch] using hs
  | cons a l ih =>
    have hstep : rel ((after (f a) s₁).output loc) ((after (g a) s₂).output loc) := by
      rcases h a (List.mem_cons_self a l) s₁ s₂ with h1 | ⟨h1, h2⟩
      · exact h1
      · rw [h1, h2]; exact hs
    have := ih (fun tx htx => h tx (List.mem_cons_of_mem a htx)) _ _ hstep
    simpa [launch] using this

theorem launch_pair_writer {R : Type} (f g : Nat → StateM (IMem R) Unit) (loc : Nat)
    (rel : Cplx R → Cplx R → Prop) (order : List Nat)
    (h : ∀ tx ∈ order, ∀ s₁ s₂ : IMem R,
      rel ((after (f tx) s₁).output loc) ((after (g tx) s₂).output loc) ∨
      ((after (f tx) s₁).output loc = s₁.output loc ∧
        (after (g tx) s₂).output loc = s₂.output loc))
    (w : Nat) (hw : w ∈ order)
    (hwv : ∀ s₁ s₂ : IMem R, rel ((after (f w) s₁).output loc) ((after (g w) s₂).output loc))
    (s₁ s₂ : IMem R) :
    rel ((launch f order s₁).output loc) ((launch g order s₂).output loc) := by
  induction order generalizing s₁ s₂ with
  | nil => simp at hw
  | cons a l ih =>
    have hl : ∀ tx ∈ l, ∀ s₁ s₂ : IMem R,
        rel ((after (f tx) s₁).output loc) ((after (g tx) s₂).output loc) ∨
        ((after (f tx) s₁).output loc = s₁.output loc ∧
          (after (g tx) s₂).output loc = s₂.output loc) :=
      fun tx htx => h tx (List.mem_cons_of_mem a htx)
    rcases List.mem_cons.mp hw with hwa | hwl
    · subst hwa
      have := launch_pair_keeps f g loc rel l hl _ _ (hwv s₁ s₂)
      simpa [launch] using this
    · have := ih hl hwl (after (f a) s₁) (after (g a) s₂)
      simpa [launch] using this

theorem launch_pair_trace {R : Type} (f g : Nat → StateM (IMem R) Unit) (order : List Nat)
    (h : ∀ tx, ∀ s₁ s₂ : IMem R, s₁.trace = s₂.trace →
      (after (f tx) s₁).trace = (after (g tx) s₂).trace)
    (s₁ s₂ : IMem R) (hs : s₁.trace = s₂.trace) :
    (launch f order s₁).trace = (launch g order s₂).trace := by
  induction order generalizing s₁ s₂ with
  | nil => simpa [launch] using hs
  | cons a l ih =>
    have := ih _ _ (h a s₁ s₂ hs)
    simpa [launch] using this

section ChirpDirection

variable {Tw R : Type} [Field R]

theorem chirp_val_conj (steps : TWLsteps Tw R) (N : Nat) (tw : Tw) (twl : Int) (tx : Nat) :
    chirp_val steps N tw twl (-1) tx = Cplx.conj (chirp_val steps N tw twl 1 tx) := by
  simp [chirp_val, Cplx.conj]

theorem chirp_store_val_conj (steps : TWLsteps Tw R) (N : Nat) (tw : Tw) (twl : Int) (tx : Nat) :
    chirp_store_val steps N tw twl (-1) tx = Cplx.conj (chirp_store_val steps N tw twl 1 tx) := by
  unfold chirp_store_val
  split_ifs
  · exact chirp_val_conj steps N tw twl tx
  · exact chirp_val_conj steps N tw twl tx
  · simp [Cplx.conj]

theorem chirp_buf_conj (steps : TWLsteps Tw R) (N M : Nat) (tw : Tw) (twl : Int) (k : Nat) :
    chirp_buf steps N M tw twl (-1) k = Cplx.conj (chirp_buf steps N M tw twl 1 k) := by
  unfold chirp_buf chirp_seq
  split_ifs <;> first | exact chirp_val_conj steps N tw twl _ | simp [Cplx.conj]

/-- C14: for `N ≥ 1`, any `M`, twiddle table and `twl`, and a launch that runs
every work-item of `[0, M)`: the buffer generated with `dir = -1` is, at every
index below `2M`, the complex conjugate of the buffer generated with `dir = +1`
in the same execution order, and the two launches make the same accesses, so
they store to the same indices.  For `M ≥ 2N - 1` the two launches may run in
different orders and start from different buffer contents. -/
theorem chirp_direction_conjugate (steps : TWLsteps Tw R) (N M : Nat) (tw : Tw) (twl : Int)
    (order : List Nat) (s : IMem R) (_hN : 1 ≤ N) (horder : ∀ w, w < M → w ∈ order) :
    (∀ k, k < 2 * M →
      (launch (chirp_device steps N M tw twl (-1)) order s).output k =
        Cplx.conj ((launch (chirp_device steps N M tw twl 1) order s).output k)) ∧
    (launch (chirp_device steps N M tw twl (-1)) order s).trace =
      (launch (chirp_device steps N M tw twl 1) order s).trace ∧
    (2 * N - 1 ≤ M → ∀ (order' : List Nat) (s' : IMem R), (∀ w, w < M → w ∈ order') →
      ∀ k, k < 2 * M →
        (launch (chirp_device steps N M tw twl (-1)) order' s').output k =
          Cplx.conj ((launch (chirp_device steps N M tw twl 1) order s).output k)) := by
  refine ⟨?_, ?_, ?_⟩
  · intro k hk
    obtain ⟨w, hw, hmem⟩ := chirp_writes_cover N M k hk
    have hstep : ∀ tx, ∀ s₁ s₂ : IMem R, k ∈ chirp_writes N M tx →
        (after (chirp_device steps N M tw twl (-1) tx) s₂).output k =
          Cplx.conj ((after (chirp_device steps N M tw twl 1 tx) s₁).output k) := by
      intro tx s₁ s₂ h
      rw [chirp_device_output_at, chirp_device_output_at, if_pos h, if_pos h,
        chirp_store_val_conj]
    refine launch_pair_writer (chirp_device steps N M tw twl 1)
      (chirp_device steps N M tw twl (-1)) k (fun a b => b = Cplx.conj a) order ?_ w
      (horder w hw) (fun s₁ s₂ => hstep w s₁ s₂ hmem) s s
    intro tx _ s₁ s₂
    by_cases h : k ∈ chirp_writes N M tx
    · exact Or.inl (hstep tx s₁ s₂ h)
    · right
      rw [chirp_device_output_at, chirp_device_output_at, if_neg h, if_neg h]
      exact ⟨rfl, rfl⟩
  · refine launch_pair_trace _ _ order ?_ s s rfl
    intro tx s₁ s₂ hs
    rw [chirp_device_trace, chirp_device_trace, hs]
  · intro hM order' s' horder' k hk
    rw [chirp_launch_output steps N M tw twl (-1) _hN hM order' horder' s' k hk,
      chirp_launch_output steps N M tw twl 1 _hN hM order horder s k hk, chirp_buf_conj]

end ChirpDirection

theorem chirp_direction_conjugate_witness :
    (1 ≤ 3 ∧ ∀ w, w < 8 → w ∈ [7, 3, 0, 5, 1, 6, 2, 4]) ∧
    ((∀ k, k < 2 * 8 →
      (launch (chirp_device demoStepsQ 3 8 () 1 (-1)) [7, 3, 0, 5, 1, 6, 2, 4] demoOutQ).output k =
        Cplx.conj ((launch (chirp_device demoStepsQ 3 8 () 1 1) [7, 3, 0, 5, 1, 6, 2, 4]
          demoOutQ).output k)) ∧
    (launch (chirp_device demoStepsQ 3 8 () 1 (-1)) [7, 3, 0, 5, 1, 6, 2, 4] demoOutQ).trace =
      (launch (chirp_device demoStepsQ 3 8 () 1 1) [7, 3, 0, 5, 1, 6, 2, 4] demoOutQ).trace ∧
    (2 * 3 - 1 ≤ 8 → ∀ (order' : List Nat) (s' : IMem ℚ), (∀ w, w < 8 → w ∈ order') →
      ∀ k, k < 2 * 8 →
        (launch (chirp_device demoStepsQ 3 8 () 1 (-1)) order' s').output k =
          Cplx.conj ((launch (chirp_device demoStepsQ 3 8 () 1 1) [7, 3, 0, 5, 1, 6, 2, 4]
            demoOutQ).output k))) :=
  ⟨⟨by decide, by decide⟩,
    chirp_direction_conjugate demoStepsQ 3 8 () 1 [7, 3, 0, 5, 1, 6, 2, 4] demoOutQ (by decide)
      (by decide)⟩

/-! ## Mirror symmetry and the padding-band boundary -/

section ChirpMirror

variable {Tw R : Type} [Zero R] [Mul R] [IntCast R]

/-- C16, as amended: for `N ≥ 1`, `M ≥ 2N - 1` and every twiddle table, the
generated length-`M` chirp sequence is mirror-symmetric about `M/2` outside the
padding band: for `1 ≤ k < N`, `buf[M - k]` equals `buf[k]`, real part and
imaginary part alike. -/
theorem chirp_mirror_equal (steps : TWLsteps Tw R) (N M : Nat) (tw : Tw) (twl dir : Int)
    (order : List Nat) (s : IMem R) (hN : 1 ≤ N) (hM : 2 * N - 1 ≤ M)
    (horder : order.Perm (List.range M)) :
    ∀ k, 1 ≤ k → k < N →
      ((launch (chirp_device steps N M tw twl dir) order s).output (M - k)).x =
        ((launch (chirp_device steps N M tw twl dir) order s).output k).x ∧
      ((launch (chirp_device steps N M tw twl dir) order s).output (M - k)).y =
        ((launch (chirp_device steps N M tw twl dir) order s).output k).y := by
  intro k hk1 hk
  have hmem : ∀ w, w < M → w ∈ order := fun w hw =>
    (horder.mem_iff).mpr (List.mem_range.mpr hw)
  have key := chirp_launch_output steps N M tw twl dir hN hM order hmem s
  rw [key k (by omega), key (M - k) (by omega)]
  have a0 : M - k < M := by omega
  have a1 : k < M := by omega
  have a2 : ¬ (M - k < N) := by omega
  have a3 : ¬ (M - k ≤ M - N) := by omega
  have a4 : M - (M - k) = k := by omega
  simp [chirp_buf, chirp_seq, a0, a1, a2, a3, a4, hk]

/-- C15, as amended: for `N ≥ 1` and `M ≥ 2N - 1`, index `M - N + 1` of the
generated buffer holds the value computed by work-item `N - 1`, and no
work-item `tx ≥ N` (the only ones that can take the zero-padding branch) stores
to it.  When moreover `M ≥ 2N`, so that the padding band `[N, M - N]` is not
empty, work-item `M - N` takes the zero-padding branch, storing zero to the
indices `M - N` and `2M - N` and nothing else, and index `M - N` of the
generated buffer holds zero. -/
theorem chirp_padding_boundary (steps : TWLsteps Tw R) (N M : Nat) (tw : Tw) (twl dir : Int)
    (order : List Nat) (s : IMem R) (hN : 1 ≤ N) (hM : 2 * N - 1 ≤ M)
    (horder : order.Perm (List.range M)) :
    (launch (chirp_device steps N M tw twl dir) order s).output (M - N + 1) =
      chirp_val steps N tw twl dir (N - 1) ∧
    (∀ tx (s' : IMem R), N ≤ tx →
      M - N + 1 ∉ writtenIdx (IMem.accesses (chirp_device steps N M tw twl dir tx) s')) ∧
    (2 * N ≤ M →
      (∀ s' : IMem R, after (chirp_device steps N M tw twl dir (M - N)) s' =
        { output := setAt (setAt s'.output (M - N) ⟨0, 0⟩) (M - N + M) ⟨0, 0⟩,
          trace := s'.trace ++ [Access.write (M - N), Access.write (M - N + M)] }) ∧
      (launch (chirp_device steps N M tw twl dir) order s).output (M - N) = ⟨0, 0⟩) := by
  have hmem : ∀ w, w < M → w ∈ order := fun w hw =>
    (horder.mem_iff).mpr (List.mem_range.mpr hw)
  have key := chirp_launch_output steps N M tw twl dir hN hM order hmem s
  have hMN : szSub M N = M - N := by simp [szSub]; omega
  refine ⟨?_, ?_, ?_⟩
  · rw [key (M - N + 1) (by omega)]
    by_cases h1 : N = 1
    · subst h1
      have a0 : ¬ (M - 1 + 1 < M) := by omega
      have a1 : M - 1 + 1 - M = 0 := by omega
      simp [chirp_buf, chirp_seq, a0, a1]
    · have a0 : M - N + 1 < M := by omega
      have a1 : ¬ (M - N + 1 < N) := by omega
      have a2 : ¬ (M - N + 1 ≤ M - N) := by omega
      have a3 : M - (M - N + 1) = N - 1 := by omega
      simp [chirp_buf, chirp_seq, a0, a1, a2, a3]
  · intro tx s' htx
    rw [chirp_device_written]
    have h0 : tx ≠ 0 := by omega
    have h1 : ¬ tx < N := by omega
    unfold chirp_writes
    rw [hMN]
    by_cases h2 : tx ≤ M - N
    · simp only [h0, h1, h2, if_true, if_false, List.mem_cons, List.mem_singleton,
        List.not_mem_nil, or_false]
      omega
    · simp [h0, h1, h2]
  · intro h2N
    refine ⟨fun s' => ?_, ?_⟩
    · have h0 : M - N ≠ 0 := by omega
      have h1 : ¬ (M - N < N) := by omega
      have h2 : M - N ≤ szSub M N := by rw [hMN]
      unfold chirp_device after
      simp only [h0, h1, h2, if_true, if_false]
      simp [bind, StateT.bind, IMem.st]
    · rw [key (M - N) (by omega)]
      have a0 : M - N < M := by omega
      have a1 : ¬ (M - N < N) := by omega
      simp [chirp_buf, chirp_seq, a0, a1]

end ChirpMirror

theorem chirp_mirror_equal_witness :
    (1 ≤ 3 ∧ 2 * 3 - 1 ≤ 8 ∧ [7, 3, 0, 5, 1, 6, 2, 4].Perm (List.range 8)) ∧
    ∀ k, 1 ≤ k → k < 3 →
      ((launch (chirp_device demoSteps 3 8 () 1 (-1)) [7, 3, 0, 5, 1, 6, 2, 4]
          demoOut).output (8 - k)).x =
        ((launch (chirp_device demoSteps 3 8 () 1 (-1)) [7, 3, 0, 5, 1, 6, 2, 4]
          demoOut).output k).x ∧
      ((launch (chirp_device demoSteps 3 8 () 1 (-1)) [7, 3, 0, 5, 1, 6, 2, 4]
          demoOut).output (8 - k)).y =
        ((launch (chirp_device demoSteps 3 8 () 1 (-1)) [7, 3, 0, 5, 1, 6, 2, 4]
          demoOut).output k).y :=
  ⟨⟨by decide, by decide, by decide⟩,
    chirp_mirror_equal demoSteps 3 8 () 1 (-1) [7, 3, 0, 5, 1, 6, 2, 4] demoOut (by decide)
      (by decide) (by decide)⟩

/-- C16 fails as stated: for `N = 3`, `M = 8` the generated buffer has
`buf[7] = buf[1] = (2, -11)`, whereas the conjugate of `buf[1]` is `(2, 11)`. -/
theorem chirp_mirror_not_conjugate :
    1 ≤ 1 ∧ 1 < 3 ∧ 2 * 3 - 1 ≤ 8 ∧
    (launch (chirp_device demoSteps 3 8 () 1 (-1)) (List.range 8) demoOut).output 1 = ⟨2, -11⟩ ∧
    (launch (chirp_device demoSteps 3 8 () 1 (-1)) (List.range 8) demoOut).output (8 - 1)
      = ⟨2, -11⟩ ∧
    (launch (chirp_device demoSteps 3 8 () 1 (-1)) (List.range 8) demoOut).output (8 - 1) ≠
      Cplx.conj ((launch (chirp_device demoSteps 3 8 () 1 (-1)) (List.range 8) demoOut).output 1)
    := by
  decide

theorem chirp_padding_boundary_witness :
    (1 ≤ 3 ∧ 2 * 3 - 1 ≤ 8 ∧ [7, 3, 0, 5, 1, 6, 2, 4].Perm (List.range 8)) ∧
    ((launch (chirp_device demoSteps 3 8 () 1 (-1)) [7, 3, 0, 5, 1, 6, 2, 4]
        demoOut).output (8 - 3 + 1) = chirp_val demoSteps 3 () 1 (-1) (3 - 1) ∧
    (∀ tx (s' : IMem Int), 3 ≤ tx →
      8 - 3 + 1 ∉ writtenIdx (IMem.accesses (chirp_device demoSteps 3 8 () 1 (-1) tx) s')) ∧
    (2 * 3 ≤ 8 →
      (∀ s' : IMem Int, after (chirp_device demoSteps 3 8 () 1 (-1) (8 - 3)) s' =
        { output := setAt (setAt s'.output (8 - 3) ⟨0, 0⟩) (8 - 3 + 8) ⟨0, 0⟩,
          trace := s'.trace ++ [Access.write (8 - 3), Access.write (8 - 3 + 8)] }) ∧
      (launch (chirp_device demoSteps 3 8 () 1 (-1)) [7, 3, 0, 5, 1, 6, 2, 4]
        demoOut).output (8 - 3) = ⟨0, 0⟩)) :=
  ⟨⟨by decide, by decide, by decide⟩,
    chirp_padding_boundary demoSteps 3 8 () 1 (-1) [7, 3, 0, 5, 1, 6, 2, 4] demoOut (by decide)
      (by decide) (by decide)⟩

/-- C15 fails as stated: for `N = 2`, `M = 3 = 2N - 1` the padding band is
empty.  Work-item `M - N = 1` takes the mirror branch (it stores to the indices
`1, 4, 2, 5`), no work-item takes the zero-padding branch, and index `M - N = 1`
of the generated buffer holds the chirp value `(2, -11)`, not zero. -/
theorem chirp_padding_band_empty :
    1 ≤ 2 ∧ 2 * 2 - 1 ≤ 3 ∧
    writtenIdx (IMem.accesses (chirp_device demoSteps 2 3 () 1 (-1) (3 - 2)) demoOut)
      = [1, 4, 2, 5] ∧
    (launch (chirp_device demoSteps 2 3 () 1 (-1)) (List.range 3) demoOut).output (3 - 2)
      = ⟨2, -11⟩ ∧
    (launch (chirp_device demoSteps 2 3 () 1 (-1)) (List.range 3) demoOut).output (3 - 2)
      ≠ ⟨0, 0⟩ := by
  decide

/-! ## The kernels `mul_device_P_I`, `mul_device_I_P`, `mul_device_P_P`, scheme by scheme -/

section KernelRaw

variable {R : Type} [Zero R] [One R] [Add R] [Sub R] [Mul R] [Neg R] [Div R] [NatCast R]

theorem I_I_scheme_other (load_cb : (Nat → Cplx R) → Nat → Cplx R)
    (store_cb : (Nat → Cplx R) → Nat → Cplx R → (Nat → Cplx R))
    (numof totalWI N M : Nat) (input : Nat → Cplx R) (dim : Nat)
    (lengths stride_in stride_out : Nat → Nat) (scheme : Int) (tx : Nat) (s : IMem R)
    (h0 : scheme ≠ 0) (h1 : scheme ≠ 1) (h2 : scheme ≠ 2) :
    after (mul_device_I_I load_cb store_cb numof totalWI N M input dim lengths stride_in
      stride_out scheme tx) s = s := by
  unfold mul_device_I_I after
  split_ifs <;> rfl

theorem P_I_scheme_other (numof totalWI N M : Nat) (inputRe inputIm : Nat → R) (dim : Nat)
    (lengths stride_in stride_out : Nat → Nat) (scheme : Int) (tx : Nat) (s : IMem R)
    (h0 : scheme ≠ 0) (h1 : scheme ≠ 1) (h2 : scheme ≠ 2) :
    after (mul_device_P_I numof totalWI N M inputRe inputIm dim lengths stride_in stride_out
      scheme tx) s = s := by
  unfold mul_device_P_I after
  split_ifs <;> rfl

theorem I_P_scheme_other (numof totalWI N M : Nat) (input : Nat → Cplx R) (dim : Nat)
    (lengths stride_in stride_out : Nat → Nat) (scheme : Int) (tx : Nat) (s : PMem R)
    (h0 : scheme ≠ 0) (h1 : scheme ≠ 1) (h2 : scheme ≠ 2) :
    after (mul_device_I_P numof totalWI N M input dim lengths stride_in stride_out
      scheme tx) s = s := by
  unfold mul_device_I_P after
  split_ifs <;> rfl

theorem P_P_scheme_other (numof totalWI N M : Nat) (inputRe inputIm : Nat → R) (dim : Nat)
    (lengths stride_in stride_out : Nat → Nat) (scheme : Int) (tx : Nat) (s : PMem R)
    (h0 : scheme ≠ 0) (h1 : scheme ≠ 1) (h2 : scheme ≠ 2) :
    after (mul_device_P_P numof totalWI N M inputRe inputIm dim lengths stride_in stride_out
      scheme tx) s = s := by
  unfold mul_device_P_P after
  split_ifs <;> rfl

theorem P_I_scheme0 (numof totalWI N M : Nat) (inputRe inputIm : Nat → R) (dim : Nat)
    (lengths stride_in stride_out : Nat → Nat) (tx : Nat) (s : IMem R) (htx : tx < totalWI)
    (a : Addr) (ha : addressing numof dim lengths stride_in stride_out tx = a) :
    after (mul_device_P_I numof totalWI N M inputRe inputIm dim lengths stride_in stride_out
        0 tx) s =
      { output := setAt s.output (szAdd a.oOffset a.oIdx)
          ⟨inputRe a.iIdx * (s.output (szAdd a.oOffset a.oIdx)).x
              - inputIm a.iIdx * (s.output (szAdd a.oOffset a.oIdx)).y,
           inputRe a.iIdx * (s.output (szAdd a.oOffset a.oIdx)).y
              + inputIm a.iIdx * (s.output (szAdd a.oOffset a.oIdx)).x⟩,
        trace := s.trace ++ [Access.read (szAdd a.oOffset a.oIdx), Access.write (szAdd a.oOffset a.oIdx),
          Access.write (szAdd a.oOffset a.oIdx)] } := by
  have h : ¬ tx ≥ totalWI := by omega
  unfold mul_device_P_I after
  simp only [h, if_false, if_true, ha]
  simp [bind, StateT.bind, IMem.ld, IMem.stX, IMem.stY, setAt_same, setAt_setAt]

theorem P_I_scheme1_lt (numof totalWI N M : Nat) (inputRe inputIm : Nat → R) (dim : Nat)
    (lengths stride_in stride_out : Nat → Nat) (tx : Nat) (s : IMem R) (htx : tx < totalWI)
    (a : Addr) (ha : addressing numof dim lengths stride_in stride_out tx = a) (hN : a.tx < N) :
    after (mul_device_P_I numof totalWI N M inputRe inputIm dim lengths stride_in stride_out
        1 tx) s =
      { output := setAt s.output (szAdd (szAdd M a.oOffset) a.oIdx)
          ⟨inputRe (szAdd a.iOffset a.iIdx) * (s.output a.tx).x
              + inputIm (szAdd a.iOffset a.iIdx) * (s.output a.tx).y,
           -inputRe (szAdd a.iOffset a.iIdx) *
              (setAt s.output (szAdd (szAdd M a.oOffset) a.oIdx)
                ⟨inputRe (szAdd a.iOffset a.iIdx) * (s.output a.tx).x
                  + inputIm (szAdd a.iOffset a.iIdx) * (s.output a.tx).y,
                 (s.output (szAdd (szAdd M a.oOffset) a.oIdx)).y⟩ a.tx).y
            + inputIm (szAdd a.iOffset a.iIdx) *
              (setAt s.output (szAdd (szAdd M a.oOffset) a.oIdx)
                ⟨inputRe (szAdd a.iOffset a.iIdx) * (s.output a.tx).x
                  + inputIm (szAdd a.iOffset a.iIdx) * (s.output a.tx).y,
                 (s.output (szAdd (szAdd M a.oOffset) a.oIdx)).y⟩ a.tx).x⟩,
        trace := s.trace ++ [Access.read a.tx, Access.read a.tx,
          Access.write (szAdd (szAdd M a.oOffset) a.oIdx), Access.read a.tx, Access.read a.tx,
          Access.write (szAdd (szAdd M a.oOffset) a.oIdx)] } := by
  have h : ¬ tx ≥ totalWI := by omega
  unfold mul_device_P_I after
  simp only [h, if_false, if_true, ha, hN]
  simp [bind, StateT.bind, IMem.ld, IMem.stX, IMem.stY, setAt_same, setAt_setAt]

theorem P_I_scheme1_ge (numof totalWI N M : Nat) (inputRe inputIm : Nat → R) (dim : Nat)
    (lengths stride_in stride_out : Nat → Nat) (tx : Nat) (s : IMem R) (htx : tx < totalWI)
    (a : Addr) (ha : addressing numof dim lengths stride_in stride_out tx = a) (hN : ¬ a.tx < N) :
    after (mul_device_P_I numof totalWI N M inputRe inputIm dim lengths stride_in stride_out
        1 tx) s =
      { output := setAt s.output (szAdd (szAdd M a.oOffset) a.oIdx) ⟨0, 0⟩,
        trace := s.trace ++ [Access.write (szAdd (szAdd M a.oOffset) a.oIdx)] } := by
  have h : ¬ tx ≥ totalWI := by omega
  unfold mul_device_P_I after
  simp only [h, if_false, if_true, ha, hN]
  simp [IMem.st]

theorem P_I_scheme2 (numof totalWI N M : Nat) (inputRe inputIm : Nat → R) (dim : Nat)
    (lengths stride_in stride_out : Nat → Nat) (tx : Nat) (s : IMem R) (htx : tx < totalWI)
    (a : Addr) (ha : addressing numof dim lengths stride_in stride_out tx = a) :
    after (mul_device_P_I numof totalWI N M inputRe inputIm dim lengths stride_in stride_out
        2 tx) s =
      { output := setAt s.output (szAdd a.oOffset a.oIdx)
          ⟨1 / (M : R) * (inputRe (szAdd (szAdd (szMul 2 M) a.iOffset) a.iIdx) * inputRe a.tx
              + inputIm (szAdd (szAdd (szMul 2 M) a.iOffset) a.iIdx) * inputIm a.tx),
           1 / (M : R) * (-inputRe (szAdd (szAdd (szMul 2 M) a.iOffset) a.iIdx) * inputIm a.tx
              + inputIm (szAdd (szAdd (szMul 2 M) a.iOffset) a.iIdx) * inputRe a.tx)⟩,
        trace := s.trace ++ [Access.write (szAdd a.oOffset a.oIdx),
          Access.write (szAdd a.oOffset a.oIdx)] } := by
  have h : ¬ tx ≥ totalWI := by omega
  unfold mul_device_P_I after
  simp only [h, if_false, if_true, ha]
  simp [bind, StateT.bind, IMem.stX, IMem.stY, setAt_same, setAt_setAt]

theorem I_P_scheme0 (numof totalWI N M : Nat)
    (input : Nat → Cplx R) (dim : Nat)
    (lengths stride_in stride_out : Nat → Nat) (tx : Nat) (s : PMem R) (htx : tx < totalWI)
    (a : Addr) (ha : addressing numof dim lengths stride_in stride_out tx = a) :
    after (mul_device_I_P numof totalWI N M input dim lengths stride_in stride_out
        0 tx) s =
      { outputRe := setAt s.outputRe (szAdd a.oOffset a.oIdx)
          ((input a.iIdx).x * s.outputRe (szAdd a.oOffset a.oIdx) - (input a.iIdx).y * s.outputIm (szAdd a.oOffset a.oIdx)),
        outputIm := setAt s.outputIm (szAdd a.oOffset a.oIdx)
          ((input a.iIdx).x * s.outputIm (szAdd a.oOffset a.oIdx) + (input a.iIdx).y * s.outputRe (szAdd a.oOffset a.oIdx)),
        trace := s.trace ++ [Access.read (szAdd a.oOffset a.oIdx), Access.read (szAdd a.oOffset a.oIdx), Access.write (szAdd a.oOffset a.oIdx),
          Access.write (szAdd a.oOffset a.oIdx)] } := by
  have h : ¬ tx ≥ totalWI := by omega
  unfold mul_device_I_P after
  simp only [h, if_false, if_true, ha]
  simp [bind, StateT.bind, PMem.ldRe, PMem.ldIm, PMem.stRe, PMem.stIm]

theorem I_P_scheme1_lt (numof totalWI N M : Nat)
    (input : Nat → Cplx R) (dim : Nat)
    (lengths stride_in stride_out : Nat → Nat) (tx : Nat) (s : PMem R) (htx : tx < totalWI)
    (a : Addr) (ha : addressing numof dim lengths stride_in stride_out tx = a) (hN : a.tx < N) :
    after (mul_device_I_P numof totalWI N M input dim lengths stride_in stride_out
        1 tx) s =
      { outputRe := setAt s.outputRe (szAdd (szAdd M a.oOffset) a.oIdx)
          ((input (szAdd a.iOffset a.iIdx)).x * s.outputRe a.tx + (input (szAdd a.iOffset a.iIdx)).y * s.outputIm a.tx),
        outputIm := setAt s.outputIm (szAdd (szAdd M a.oOffset) a.oIdx)
          (-(input (szAdd a.iOffset a.iIdx)).x * s.outputIm a.tx
            + (input (szAdd a.iOffset a.iIdx)).y *
              setAt s.outputRe (szAdd (szAdd M a.oOffset) a.oIdx)
                ((input (szAdd a.iOffset a.iIdx)).x * s.outputRe a.tx + (input (szAdd a.iOffset a.iIdx)).y * s.outputIm a.tx) a.tx),
        trace := s.trace ++ [Access.read a.tx, Access.read a.tx, Access.write (szAdd (szAdd M a.oOffset) a.oIdx),
          Access.read a.tx, Access.read a.tx, Access.write (szAdd (szAdd M a.oOffset) a.oIdx)] } := by
  have h : ¬ tx ≥ totalWI := by omega
  unfold mul_device_I_P after
  simp only [h, if_false, if_true, ha, hN]
  simp [bind, StateT.bind, PMem.ldRe, PMem.ldIm, PMem.stRe, PMem.stIm]

theorem I_P_scheme1_ge (numof totalWI N M : Nat)
    (input : Nat → Cplx R) (dim : Nat)
    (lengths stride_in stride_out : Nat → Nat) (tx : Nat) (s : PMem R) (htx : tx < totalWI)
    (a : Addr) (ha : addressing numof dim lengths stride_in stride_out tx = a) (hN : ¬ a.tx < N) :
    after (mul_device_I_P numof totalWI N M input dim lengths stride_in stride_out
        1 tx) s =
      { outputRe := setAt s.outputRe (szAdd (szAdd M a.oOffset) a.oIdx) 0,
        outputIm := setAt s.outputIm (szAdd (szAdd M a.oOffset) a.oIdx) 0,
        trace := s.trace ++ [Access.write (szAdd (szAdd M a.oOffset) a.oIdx), Access.write (szAdd (szAdd M a.oOffset) a.oIdx)] } := by
  have h : ¬ tx ≥ totalWI := by omega
  unfold mul_device_I_P after
  simp only [h, if_false, if_true, ha, hN]
  simp [bind, StateT.bind, PMem.stRe, PMem.stIm]

theorem I_P_scheme2 (numof totalWI N M : Nat)
    (input : Nat → Cplx R) (dim : Nat)
    (lengths stride_in stride_out : Nat → Nat) (tx : Nat) (s : PMem R) (htx : tx < totalWI)
    (a : Addr) (ha : addressing numof dim lengths stride_in stride_out tx = a) :
    after (mul_device_I_P numof totalWI N M input dim lengths stride_in stride_out
        2 tx) s =
      { outputRe := setAt s.outputRe (szAdd a.oOffset a.oIdx)
          (1 / (M : R) * ((input (szAdd (szAdd (szMul 2 M) a.iOffset) a.iIdx)).x * (input a.tx).x + (input (szAdd (szAdd (szMul 2 M) a.iOffset) a.iIdx)).y * (input a.tx).y)),
        outputIm := setAt s.outputIm (szAdd a.oOffset a.oIdx)
          (1 / (M : R) * (-(input (szAdd (szAdd (szMul 2 M) a.iOffset) a.iIdx)).x * (input a.tx).y + (input (szAdd (szAdd (szMul 2 M) a.iOffset) a.iIdx)).y * (input a.tx).x)),
        trace := s.trace ++ [Access.write (szAdd a.oOffset a.oIdx), Access.write (szAdd a.oOffset a.oIdx)] } := by
  have h : ¬ tx ≥ totalWI := by omega
  unfold mul_device_I_P after
  simp only [h, if_false, if_true, ha]
  simp [bind, StateT.bind, PMem.stRe, PMem.stIm]

theorem P_P_scheme0 (numof totalWI N M : Nat)
    (inputRe inputIm : Nat → R) (dim : Nat)
    (lengths stride_in stride_out : Nat → Nat) (tx : Nat) (s : PMem R) (htx : tx < totalWI)
    (a : Addr) (ha : addressing numof dim lengths stride_in stride_out tx = a) :
    after (mul_device_P_P numof totalWI N M inputRe inputIm dim lengths stride_in stride_out
        0 tx) s =
      { outputRe := setAt s.outputRe (szAdd a.oOffset a.oIdx)
          (inputRe a.iIdx * s.outputRe (szAdd a.oOffset a.oIdx) - inputIm a.iIdx * s.outputIm (szAdd a.oOffset a.oIdx)),
        outputIm := setAt s.outputIm (szAdd a.oOffset a.oIdx)
          (inputRe a.iIdx * s.outputIm (szAdd a.oOffset a.oIdx) + inputIm a.iIdx * s.outputRe (szAdd a.oOffset a.oIdx)),
        trace := s.trace ++ [Access.read (szAdd a.oOffset a.oIdx), Access.read (szAdd a.oOffset a.oIdx), Access.write (szAdd a.oOffset a.oIdx),
          Access.write (szAdd a.oOffset a.oIdx)] } := by
  have h : ¬ tx ≥ totalWI := by omega
  unfold mul_device_P_P after
  simp only [h, if_false, if_true, ha]
  simp [bind, StateT.bind, PMem.ldRe, PMem.ldIm, PMem.stRe, PMem.stIm]

theorem P_P_scheme1_lt (numof totalWI N M : Nat)
    (inputRe inputIm : Nat → R) (dim : Nat)
    (lengths stride_in stride_out : Nat → Nat) (tx : Nat) (s : PMem R) (htx : tx < totalWI)
    (a : Addr) (ha : addressing numof dim lengths stride_in stride_out tx = a) (hN : a.tx < N) :
    after (mul_device_P_P numof totalWI N M inputRe inputIm dim lengths stride_in stride_out
        1 tx) s =
      { outputRe := setAt s.outputRe (szAdd (szAdd M a.oOffset) a.oIdx)
          (inputRe (szAdd a.iOffset a.iIdx) * s.outputRe a.tx + inputIm (szAdd a.iOffset a.iIdx) * s.outputIm a.tx),
        outputIm := setAt s.outputIm (szAdd (szAdd M a.oOffset) a.oIdx)
          (-inputRe (szAdd a.iOffset a.iIdx) * s.outputIm a.tx
            + inputIm (szAdd a.iOffset a.iIdx) *
              setAt s.outputRe (szAdd (szAdd M a.oOffset) a.oIdx)
                (inputRe (szAdd a.iOffset a.iIdx) * s.outputRe a.tx + inputIm (szAdd a.iOffset a.iIdx) * s.outputIm a.tx) a.tx),
        trace := s.trace ++ [Access.read a.tx, Access.read a.tx, Access.write (szAdd (szAdd M a.oOffset) a.oIdx),
          Access.read a.tx, Access.read a.tx, Access.write (szAdd (szAdd M a.oOffset) a.oIdx)] } := by
  have h : ¬ tx ≥ totalWI := by omega
  unfold mul_device_P_P after
  simp only [h, if_false, if_true, ha, hN]
  simp [bind, StateT.bind, PMem.ldRe, PMem.ldIm, PMem.stRe, PMem.stIm]

theorem P_P_scheme1_ge (numof totalWI N M : Nat)
    (inputRe inputIm : Nat → R) (dim : Nat)
    (lengths stride_in stride_out : Nat → Nat) (tx : Nat) (s : PMem R) (htx : tx < totalWI)
    (a : Addr) (ha : addressing numof dim lengths stride_in stride_out tx = a) (hN : ¬ a.tx < N) :
    after (mul_device_P_P numof totalWI N M inputRe inputIm dim lengths stride_in stride_out
        1 tx) s =
      { outputRe := setAt s.outputRe (szAdd (szAdd M a.oOffset) a.tx) 0,
        outputIm := setAt s.outputIm (szAdd (szAdd M a.oOffset) a.tx) 0,
        trace := s.trace ++ [Access.write (szAdd (szAdd M a.oOffset) a.tx), Access.write (szAdd (szAdd M a.oOffset) a.tx)] } := by
  have h : ¬ tx ≥ totalWI := by omega
  unfold mul_device_P_P after
  simp only [h, if_false, if_true, ha, hN]
  simp [bind, StateT.bind, PMem.stRe, PMem.stIm]

theorem P_P_scheme2 (numof totalWI N M : Nat)
    (inputRe inputIm : Nat → R) (dim : Nat)
    (lengths stride_in stride_out : Nat → Nat) (tx : Nat) (s : PMem R) (htx : tx < totalWI)
    (a : Addr) (ha : addressing numof dim lengths stride_in stride_out tx = a) :
    after (mul_device_P_P numof totalWI N M inputRe inputIm dim lengths stride_in stride_out
        2 tx) s =
      { outputRe := setAt s.outputRe (szAdd a.oOffset a.oIdx)
          (1 / (M : R) * (inputRe (szAdd (szAdd (szMul 2 M) a.iOffset) a.iIdx) * inputRe a.tx + inputIm (szAdd (szAdd (szMul 2 M) a.iOffset) a.iIdx) * inputIm a.tx)),
        outputIm := setAt s.outputIm (szAdd a.oOffset a.oIdx)
          (1 / (M : R) * (-inputRe (szAdd (szAdd (szMul 2 M) a.iOffset) a.iIdx) * inputIm a.tx + inputIm (szAdd (szAdd (szMul 2 M) a.iOffset) a.iIdx) * inputRe a.tx)),
        trace := s.trace ++ [Access.write (szAdd a.oOffset a.oIdx), Access.write (szAdd a.oOffset a.oIdx)] } := by
  have h : ¬ tx ≥ totalWI := by omega
  unfold mul_device_P_P after
  simp only [h, if_false, if_true, ha]
  simp [bind, StateT.bind, PMem.stRe, PMem.stIm]

end KernelRaw

/-! ## Agreement of the layout variants -/

theorem planeRe_setAt {R : Type} (buf : Nat → Cplx R) (d : Nat) (v : Cplx R) :
    planeRe (setAt buf d v) = setAt (planeRe buf) d v.x := by
  funext k; by_cases h : k = d <;> simp [planeRe, setAt, h]

theorem planeIm_setAt {R : Type} (buf : Nat → Cplx R) (d : Nat) (v : Cplx R) :
    planeIm (setAt buf d v) = setAt (planeIm buf) d v.y := by
  funext k; by_cases h : k = d <;> simp [planeIm, setAt, h]

theorem setAt_keep_y {R : Type} (buf : Nat → Cplx R) (d k : Nat) (x : R) :
    (setAt buf d ⟨x, (buf d).y⟩ k).y = (buf k).y := by
  by_cases h : k = d <;> simp [setAt, h]

theorem setAt_x {R : Type} (buf : Nat → Cplx R) (d k : Nat) (v : Cplx R) :
    (setAt buf d v k).x = setAt (planeRe buf) d v.x k := by
  by_cases h : k = d <;> simp [setAt, planeRe, h]

section LayoutAgreement

variable {R : Type} [Zero R] [One R] [Add R] [Sub R] [Mul R] [Neg R] [Div R] [NatCast R]

/-- C20: with no callbacks configured and the same data in either layout,
`mul_device_P_I` and `mul_device_I_P` leave the same output buffer as
`mul_device_I_I` for every scheme, flat index and stride configuration, and so
does `mul_device_P_P` for every scheme other than 1, and for scheme 1 whenever
`stride_out[0] = 1` or `elementIndex < N`. -/
theorem layout_agreement (numof totalWI N M : Nat) (input : Nat → Cplx R) (dim : Nat)
    (lengths stride_in stride_out : Nat → Nat) (scheme : Int) (tx : Nat) (s : IMem R) :
    (after (mul_device_P_I numof totalWI N M (planeRe input) (planeIm input) dim lengths
        stride_in stride_out scheme tx) s).output =
      (after (mul_device_I_I load_cb_default store_cb_default numof totalWI N M input dim
        lengths stride_in stride_out scheme tx) s).output ∧
    ((after (mul_device_I_P numof totalWI N M input dim lengths stride_in stride_out scheme tx)
        s.toPlanar).outputRe =
      planeRe (after (mul_device_I_I load_cb_default store_cb_default numof totalWI N M input
        dim lengths stride_in stride_out scheme tx) s).output ∧
     (after (mul_device_I_P numof totalWI N M input dim lengths stride_in stride_out scheme tx)
        s.toPlanar).outputIm =
      planeIm (after (mul_device_I_I load_cb_default store_cb_default numof totalWI N M input
        dim lengths stride_in stride_out scheme tx) s).output) ∧
    (scheme ≠ 1 ∨ stride_out 0 = 1 ∨ tx % numof < N →
      (after (mul_device_P_P numof totalWI N M (planeRe input) (planeIm input) dim lengths
        stride_in stride_out scheme tx) s.toPlanar).outputRe =
        planeRe (after (mul_device_I_I load_cb_default store_cb_default numof totalWI N M input
          dim lengths stride_in stride_out scheme tx) s).output ∧
      (after (mul_device_P_P numof totalWI N M (planeRe input) (planeIm input) dim lengths
        stride_in stride_out scheme tx) s.toPlanar).outputIm =
        planeIm (after (mul_device_I_I load_cb_default store_cb_default numof totalWI N M input
          dim lengths stride_in stride_out scheme tx) s).output) := by
  by_cases htx : tx < totalWI
  swap
  · have hge : totalWI ≤ tx := by omega
    rw [I_I_out_of_range _ _ _ _ _ _ _ _ _ _ _ _ _ _ hge, P_I_out_of_range _ _ _ _ _ _ _ _ _ _ _ _ _ hge,
      I_P_out_of_range _ _ _ _ _ _ _ _ _ _ _ _ hge, P_P_out_of_range _ _ _ _ _ _ _ _ _ _ _ _ _ hge]
    exact ⟨rfl, ⟨rfl, rfl⟩, fun _ => ⟨rfl, rfl⟩⟩
  have hatx : (addressing numof dim lengths stride_in stride_out tx).tx = tx % numof := rfl
  have hao : (addressing numof dim lengths stride_in stride_out tx).oIdx
      = szMul (addressing numof dim lengths stride_in stride_out tx).tx (stride_out 0) := rfl
  generalize ha : addressing numof dim lengths stride_in stride_out tx = a at hatx hao
  have e1 : szAdd a.iOffset a.iIdx = szAdd a.iIdx a.iOffset := by
    simp only [szAdd, sizeMod]; omega
  have e2 : szAdd (szAdd M a.oOffset) a.oIdx = szAdd (szAdd a.oIdx M) a.oOffset := by
    simp only [szAdd, sizeMod]; omega
  have e3 : szAdd (szAdd (szMul 2 M) a.iOffset) a.iIdx
      = szAdd (szAdd a.iIdx (szMul 2 M)) a.iOffset := by
    simp only [szAdd, szMul, sizeMod]; omega
  have e4 : szAdd a.oOffset a.oIdx = szAdd a.oIdx a.oOffset := by
    simp only [szAdd, sizeMod]; omega
  by_cases h0 : scheme = 0
  · subst h0
    rw [I_I_scheme0 _ _ _ _ _ _ _ _ _ _ _ _ s htx a ha, P_I_scheme0 _ _ _ _ _ _ _ _ _ _ _ s htx a ha,
      I_P_scheme0 _ _ _ _ _ _ _ _ _ _ _ htx a ha, P_P_scheme0 _ _ _ _ _ _ _ _ _ _ _ _ htx a ha]
    refine ⟨?_, ⟨?_, ?_⟩, fun _ => ⟨?_, ?_⟩⟩ <;>
      first
        | rfl
        | (simp only [planeRe_setAt, planeIm_setAt, IMem.toPlanar]; done)
        | (simp only [planeRe_setAt, planeIm_setAt, IMem.toPlanar]; rfl)
  by_cases h2 : scheme = 2
  · subst h2
    rw [I_I_scheme2 _ _ _ _ _ _ _ _ _ _ _ _ s htx a ha, P_I_scheme2 _ _ _ _ _ _ _ _ _ _ _ s htx a ha,
      I_P_scheme2 _ _ _ _ _ _ _ _ _ _ _ htx a ha, P_P_scheme2 _ _ _ _ _ _ _ _ _ _ _ _ htx a ha]
    refine ⟨?_, ⟨?_, ?_⟩, fun _ => ⟨?_, ?_⟩⟩ <;>
      first
        | rfl
        | (simp only [store_cb_default, planeRe_setAt, planeIm_setAt, IMem.toPlanar, e3, e4]; done)
        | (simp only [store_cb_default, planeRe_setAt, planeIm_setAt, IMem.toPlanar, e3, e4]; rfl)
  by_cases h1 : scheme = 1
  swap
  · rw [I_I_scheme_other _ _ _ _ _ _ _ _ _ _ _ _ _ _ h0 h1 h2,
      P_I_scheme_other _ _ _ _ _ _ _ _ _ _ _ _ _ h0 h1 h2,
      I_P_scheme_other _ _ _ _ _ _ _ _ _ _ _ _ h0 h1 h2,
      P_P_scheme_other _ _ _ _ _ _ _ _ _ _ _ _ _ h0 h1 h2]
    exact ⟨rfl, ⟨rfl, rfl⟩, fun _ => ⟨rfl, rfl⟩⟩
  subst h1
  by_cases hN : a.tx < N
  · rw [I_I_scheme1_lt _ _ _ _ _ _ _ _ _ _ _ _ s htx a ha hN,
      P_I_scheme1_lt _ _ _ _ _ _ _ _ _ _ _ s htx a ha hN,
      I_P_scheme1_lt _ _ _ _ _ _ _ _ _ _ _ htx a ha hN,
      P_P_scheme1_lt _ _ _ _ _ _ _ _ _ _ _ _ htx a ha hN]
    refine ⟨?_, ⟨?_, ?_⟩, fun _ => ⟨?_, ?_⟩⟩ <;>
      first
        | rfl
        | (simp only [load_cb_default, planeRe_setAt, planeIm_setAt, IMem.toPlanar, e1, e2,
            setAt_keep_y, setAt_x]; done)
        | (simp only [load_cb_default, planeRe_setAt, planeIm_setAt, IMem.toPlanar, e1, e2,
            setAt_keep_y, setAt_x]; rfl)
  · rw [I_I_scheme1_ge _ _ _ _ _ _ _ _ _ _ _ _ s htx a ha hN,
      P_I_scheme1_ge _ _ _ _ _ _ _ _ _ _ _ s htx a ha hN,
      I_P_scheme1_ge _ _ _ _ _ _ _ _ _ _ _ htx a ha hN,
      P_P_scheme1_ge _ _ _ _ _ _ _ _ _ _ _ _ htx a ha hN]
    refine ⟨?_, ⟨?_, ?_⟩, fun h => ?_⟩
    · rw [e2]
    · simp only [planeRe_setAt, IMem.toPlanar, e2]
    · simp only [planeIm_setAt, IMem.toPlanar, e2]
    · have hs : stride_out 0 = 1 := by
        rcases h with h | h | h
        · exact absurd rfl h
        · exact h
        · rw [← hatx] at h; exact absurd h hN
      have e5 : szAdd (szAdd M a.oOffset) a.tx = szAdd (szAdd a.oIdx M) a.oOffset := by
        rw [hao, hs]; simp only [szAdd, szMul, sizeMod]; omega
      simp only [planeRe_setAt, planeIm_setAt, IMem.toPlanar, e5]
      exact ⟨trivial, trivial⟩

end LayoutAgreement

theorem layout_agreement_witness :
    unitStride 0 = 1 ∧
    ((after (mul_device_P_P 4 8 2 4 (planeRe demoIn) (planeIm demoIn) 1 demoLengths
        unitStride unitStride 1 2) demoOut.toPlanar).outputRe =
      planeRe (after (mul_device_I_I load_cb_default store_cb_default 4 8 2 4 demoIn 1
        demoLengths unitStride unitStride 1 2) demoOut).output ∧
    (after (mul_device_P_P 4 8 2 4 (planeRe demoIn) (planeIm demoIn) 1 demoLengths
        unitStride unitStride 1 2) demoOut.toPlanar).outputIm =
      planeIm (after (mul_device_I_I load_cb_default store_cb_default 4 8 2 4 demoIn 1
        demoLengths unitStride unitStride 1 2) demoOut).output) :=
  ⟨by decide,
    (layout_agreement 4 8 2 4 demoIn 1 demoLengths unitStride unitStride 1 2 demoOut).2.2
      (Or.inr (Or.inl (by decide)))⟩

/-! ## Pre-multiply+pad and the chirp region -/

theorem launch_invariant {σ : Type} (kernel : Nat → StateM σ Unit) (P : σ → Prop)
    (order : List Nat) (h : ∀ tx s, P s → P (after (kernel tx) s)) (s : σ) (hs : P s) :
    P (launch kernel order s) := by
  induction order generalizing s with
  | nil => simpa [launch] using hs
  | cons a l ih =>
    have := ih (after (kernel a) s) (h a s hs)
    simpa [launch] using this

section PadRegion

variable {R : Type} [Zero R] [One R] [Add R] [Sub R] [Mul R] [Neg R] [Div R] [NatCast R]

theorem I_I_padSafe (load_cb : (Nat → Cplx R) → Nat → Cplx R)
    (store_cb : (Nat → Cplx R) → Nat → Cplx R → (Nat → Cplx R))
    (numof totalWI N M : Nat) (input : Nat → Cplx R) (dim : Nat)
    (lengths stride_in stride_out : Nat → Nat)
    (hfit : ∀ tx, tx < totalWI →
      (addressing numof dim lengths stride_in stride_out tx).oIdx + M
        + (addressing numof dim lengths stride_in stride_out tx).oOffset < 2 ^ 64) :
    IMem.padSafe N M (mul_device_I_I load_cb store_cb numof totalWI N M input dim lengths
      stride_in stride_out 1) := by
  intro tx s
  by_cases htx : tx < totalWI
  swap
  · have h := I_I_out_of_range load_cb store_cb numof totalWI N M input dim lengths stride_in
      stride_out 1 tx s (by omega)
    simp [IMem.accesses, h, writtenIdx, readIdx]
  have hf := hfit tx htx
  generalize ha : addressing numof dim lengths stride_in stride_out tx = a at hf
  by_cases hN : a.tx < N
  · have h := I_I_scheme1_lt load_cb store_cb numof totalWI N M input dim lengths stride_in
      stride_out tx s htx a ha hN
    rw [IMem.accesses_eq _ s _ (congrArg IMem.trace h)]
    refine ⟨?_, ?_, ?_⟩
    · simp only [writtenIdx, List.mem_cons, List.mem_singleton, List.not_mem_nil, or_false,
        szAdd, sizeMod]
      omega
    · simp only [readIdx, List.mem_cons, List.mem_singleton, List.not_mem_nil, or_false]
      omega
    · intro loc hloc
      rw [h]
      exact setAt_ne _ _ _ _ (by simp only [szAdd, sizeMod]; omega)
  · have h := I_I_scheme1_ge load_cb store_cb numof totalWI N M input dim lengths stride_in
      stride_out tx s htx a ha hN
    rw [IMem.accesses_eq _ s _ (congrArg IMem.trace h)]
    refine ⟨?_, ?_, ?_⟩
    · simp only [writtenIdx, List.mem_cons, List.mem_singleton, List.not_mem_nil, or_false,
        szAdd, sizeMod]
      omega
    · simp [readIdx]
    · intro loc hloc
      rw [h]
      exact setAt_ne _ _ _ _ (by simp only [szAdd, sizeMod]; omega)

theorem P_I_padSafe (numof totalWI N M : Nat) (inputRe inputIm : Nat → R) (dim : Nat)
    (lengths stride_in stride_out : Nat → Nat)
    (hfit : ∀ tx, tx < totalWI →
      (addressing numof dim lengths stride_in stride_out tx).oIdx + M
        + (addressing numof dim lengths stride_in stride_out tx).oOffset < 2 ^ 64) :
    IMem.padSafe N M (mul_device_P_I numof totalWI N M inputRe inputIm dim lengths
      stride_in stride_out 1) := by
  intro tx s
  by_cases htx : tx < totalWI
  swap
  · have h := P_I_out_of_range numof totalWI N M inputRe inputIm dim lengths stride_in
      stride_out 1 tx s (by omega)
    simp [IMem.accesses, h, writtenIdx, readIdx]
  have hf := hfit tx htx
  generalize ha : addressing numof dim lengths stride_in stride_out tx = a at hf
  by_cases hN : a.tx < N
  · have h := P_I_scheme1_lt numof totalWI N M inputRe inputIm dim lengths stride_in
      stride_out tx s htx a ha hN
    rw [IMem.accesses_eq _ s _ (congrArg IMem.trace h)]
    refine ⟨?_, ?_, ?_⟩
    · simp only [writtenIdx, List.mem_cons, List.mem_singleton, List.not_mem_nil, or_false,
        szAdd, sizeMod]
      omega
    · simp only [readIdx, List.mem_cons, List.mem_singleton, List.not_mem_nil, or_false]
      omega
    · intro loc hloc
      rw [h]
      exact setAt_ne _ _ _ _ (by simp only [szAdd, sizeMod]; omega)
  · have h := P_I_scheme1_ge numof totalWI N M inputRe inputIm dim lengths stride_in
      stride_out tx s htx a ha hN
    rw [IMem.accesses_eq _ s _ (congrArg IMem.trace h)]
    refine ⟨?_, ?_, ?_⟩
    · simp only [writtenIdx, List.mem_cons, List.mem_singleton, List.not_mem_nil, or_false,
        szAdd, sizeMod]
      omega
    · simp [readIdx]
    · intro loc hloc
      rw [h]
      exact setAt_ne _ _ _ _ (by simp only [szAdd, sizeMod]; omega)

theorem I_P_padSafe (numof totalWI N M : Nat) (input : Nat → Cplx R) (dim : Nat)
    (lengths stride_in stride_out : Nat → Nat)
    (hfit : ∀ tx, tx < totalWI →
      (addressing numof dim lengths stride_in stride_out tx).oIdx + M
        + (addressing numof dim lengths stride_in stride_out tx).oOffset < 2 ^ 64) :
    PMem.padSafe N M (mul_device_I_P numof totalWI N M input dim lengths
      stride_in stride_out 1) := by
  intro tx s
  by_cases htx : tx < totalWI
  swap
  · have h := I_P_out_of_range numof totalWI N M input dim lengths stride_in
      stride_out 1 tx s (by omega)
    simp [PMem.accesses, h, writtenIdx, readIdx]
  have hf := hfit tx htx
  generalize ha : addressing numof dim lengths stride_in stride_out tx = a at hf
  by_cases hN : a.tx < N
  · have h := I_P_scheme1_lt numof totalWI N M input dim lengths stride_in
      stride_out tx s htx a ha hN
    rw [PMem.planar_accesses_eq _ s _ (congrArg PMem.trace h)]
    refine ⟨?_, ?_, ?_⟩
    · simp only [writtenIdx, List.mem_cons, List.mem_singleton, List.not_mem_nil, or_false,
        szAdd, sizeMod]
      omega
    · simp only [readIdx, List.mem_cons, List.mem_singleton, List.not_mem_nil, or_false]
      omega
    · intro loc hloc
      rw [h]
      exact ⟨setAt_ne _ _ _ _ (by simp only [szAdd, sizeMod]; omega), setAt_ne _ _ _ _ (by simp only [szAdd, sizeMod]; omega)⟩
  · have h := I_P_scheme1_ge numof totalWI N M input dim lengths stride_in
      stride_out tx s htx a ha hN
    rw [PMem.planar_accesses_eq _ s _ (congrArg PMem.trace h)]
    refine ⟨?_, ?_, ?_⟩
    · simp only [writtenIdx, List.mem_cons, List.mem_singleton, List.not_mem_nil, or_false,
        szAdd, sizeMod]
      omega
    · simp [readIdx]
    · intro loc hloc
      rw [h]
      exact ⟨setAt_ne _ _ _ _ (by simp only [szAdd, sizeMod]; omega), setAt_ne _ _ _ _ (by simp only [szAdd, sizeMod]; omega)⟩

theorem P_P_padSafe (numof totalWI N M : Nat) (inputRe inputIm : Nat → R) (dim : Nat)
    (lengths stride_in stride_out : Nat → Nat)
    (hfit : ∀ tx, tx < totalWI →
      (addressing numof dim lengths stride_in stride_out tx).oIdx + M
        + (addressing numof dim lengths stride_in stride_out tx).oOffset < 2 ^ 64)
    (hfitP : ∀ tx, tx < totalWI →
      (addressing numof dim lengths stride_in stride_out tx).tx + M
        + (addressing numof dim lengths stride_in stride_out tx).oOffset < 2 ^ 64) :
    PMem.padSafe N M (mul_device_P_P numof totalWI N M inputRe inputIm dim lengths
      stride_in stride_out 1) := by
  intro tx s
  by_cases htx : tx < totalWI
  swap
  · have h := P_P_out_of_range numof totalWI N M inputRe inputIm dim lengths stride_in
      stride_out 1 tx s (by omega)
    simp [PMem.accesses, h, writtenIdx, readIdx]
  have hf := hfit tx htx
  have hfP := hfitP tx htx
  generalize ha : addressing numof dim lengths stride_in stride_out tx = a at hf hfP
  by_cases hN : a.tx < N
  · have h := P_P_scheme1_lt numof totalWI N M inputRe inputIm dim lengths stride_in
      stride_out tx s htx a ha hN
    rw [PMem.planar_accesses_eq _ s _ (congrArg PMem.trace h)]
    refine ⟨?_, ?_, ?_⟩
    · simp only [writtenIdx, List.mem_cons, List.mem_singleton, List.not_mem_nil, or_false,
        szAdd, sizeMod]
      omega
    · simp only [readIdx, List.mem_cons, List.mem_singleton, List.not_mem_nil, or_false]
      omega
    · intro loc hloc
      rw [h]
      exact ⟨setAt_ne _ _ _ _ (by simp only [szAdd, sizeMod]; omega), setAt_ne _ _ _ _ (by simp only [szAdd, sizeMod]; omega)⟩
  · have h := P_P_scheme1_ge numof totalWI N M inputRe inputIm dim lengths stride_in
      stride_out tx s htx a ha hN
    rw [PMem.planar_accesses_eq _ s _ (congrArg PMem.trace h)]
    refine ⟨?_, ?_, ?_⟩
    · simp only [writtenIdx, List.mem_cons, List.mem_singleton, List.not_mem_nil, or_false,
        szAdd, sizeMod]
      omega
    · simp [readIdx]
    · intro loc hloc
      rw [h]
      exact ⟨setAt_ne _ _ _ _ (by simp only [szAdd, sizeMod]; omega), setAt_ne _ _ _ _ (by simp only [szAdd, sizeMod]; omega)⟩

end PadRegion

theorem IMem.loadsBelowStores_of_padSafe {R : Type} (N M : Nat) (hNM : N ≤ M)
    (k : Nat → StateM (IMem R) Unit) (h : IMem.padSafe N M k) : IMem.loadsBelowStores k := by
  intro tx tx' s s' i hi j hj
  have h1 := (h tx s).1 i hi
  have h2 := (h tx' s').2.1 j hj
  omega

theorem PMem.planar_loadsBelowStores_of_padSafe {R : Type} (N M : Nat) (hNM : N ≤ M)
    (k : Nat → StateM (PMem R) Unit) (h : PMem.padSafe N M k) : PMem.loadsBelowStores k := by
  intro tx tx' s s' i hi j hj
  have h1 := (h tx s).1 i hi
  have h2 := (h tx' s').2.1 j hj
  omega

theorem IMem.launch_frame_of_padSafe {R : Type} (N M : Nat) (k : Nat → StateM (IMem R) Unit)
    (h : IMem.padSafe N M k) (order : List Nat) (s : IMem R) (loc : Nat) (hloc : loc < M) :
    (launch k order s).output loc = s.output loc :=
  launch_invariant k (fun s' => s'.output loc = s.output loc) order
    (fun tx s' hs' => ((h tx s').2.2 loc hloc).trans hs') s rfl

theorem PMem.planar_launch_frame_of_padSafe {R : Type} (N M : Nat) (k : Nat → StateM (PMem R) Unit)
    (h : PMem.padSafe N M k) (order : List Nat) (s : PMem R) (loc : Nat) (hloc : loc < M) :
    (launch k order s).outputRe loc = s.outputRe loc ∧
      (launch k order s).outputIm loc = s.outputIm loc :=
  launch_invariant k
    (fun s' => s'.outputRe loc = s.outputRe loc ∧ s'.outputIm loc = s.outputIm loc) order
    (fun tx s' hs' => ⟨((h tx s').2.2 loc hloc).1.trans hs'.1,
      ((h tx s').2.2 loc hloc).2.trans hs'.2⟩) s ⟨rfl, rfl⟩

section PadRegionClaim

variable {R : Type} [Zero R] [One R] [Add R] [Sub R] [Mul R] [Neg R] [Div R] [NatCast R]

/-- C19 (amended): for `N ≤ M` and destination sums that do not wrap, that is
`oIdx + M + oOffset < 2 ^ 64` for every in-range work-item (and
`elementIndex + M + oOffset < 2 ^ 64` as well, for the zero-padding store of
`mul_device_P_P`), in each of the four layout variants every work-item of
scheme 1 stores only at output indices `≥ M`, loads chirp values from the
output buffer only at indices `< N`, and leaves `output[0..M)` as it was; hence
every index a work-item loads from is below every index a work-item stores to,
and after a launch in any order `output[0..M)` is unchanged. -/
theorem pad_multiply_keeps_chirp (load_cb : (Nat → Cplx R) → Nat → Cplx R)
    (store_cb : (Nat → Cplx R) → Nat → Cplx R → (Nat → Cplx R))
    (numof totalWI N M : Nat) (input : Nat → Cplx R) (inputRe inputIm : Nat → R) (dim : Nat)
    (lengths stride_in stride_out : Nat → Nat) (hNM : N ≤ M)
    (hfit : ∀ tx, tx < totalWI →
      (addressing numof dim lengths stride_in stride_out tx).oIdx + M
        + (addressing numof dim lengths stride_in stride_out tx).oOffset < 2 ^ 64)
    (hfitP : ∀ tx, tx < totalWI →
      (addressing numof dim lengths stride_in stride_out tx).tx + M
        + (addressing numof dim lengths stride_in stride_out tx).oOffset < 2 ^ 64) :
    (IMem.padSafe N M (mul_device_I_I load_cb store_cb numof totalWI N M input dim lengths
        stride_in stride_out 1) ∧
      IMem.loadsBelowStores (mul_device_I_I load_cb store_cb numof totalWI N M input dim lengths
        stride_in stride_out 1) ∧
      ∀ (order : List Nat) (s : IMem R) (loc : Nat), loc < M →
        (launch (mul_device_I_I load_cb store_cb numof totalWI N M input dim lengths
          stride_in stride_out 1) order s).output loc = s.output loc) ∧
    (IMem.padSafe N M (mul_device_P_I numof totalWI N M inputRe inputIm dim lengths
        stride_in stride_out 1) ∧
      IMem.loadsBelowStores (mul_device_P_I numof totalWI N M inputRe inputIm dim lengths
        stride_in stride_out 1) ∧
      ∀ (order : List Nat) (s : IMem R) (loc : Nat), loc < M →
        (launch (mul_device_P_I numof totalWI N M inputRe inputIm dim lengths
          stride_in stride_out 1) order s).output loc = s.output loc) ∧
    (PMem.padSafe N M (mul_device_I_P numof totalWI N M input dim lengths
        stride_in stride_out 1) ∧
      PMem.loadsBelowStores (mul_device_I_P numof totalWI N M input dim lengths
        stride_in stride_out 1) ∧
      ∀ (order : List Nat) (s : PMem R) (loc : Nat), loc < M →
        (launch (mul_device_I_P numof totalWI N M input dim lengths
          stride_in stride_out 1) order s).outputRe loc = s.outputRe loc ∧
        (launch (mul_device_I_P numof totalWI N M input dim lengths
          stride_in stride_out 1) order s).outputIm loc = s.outputIm loc) ∧
    (PMem.padSafe N M (mul_device_P_P numof totalWI N M inputRe inputIm dim lengths
        stride_in stride_out 1) ∧
      PMem.loadsBelowStores (mul_device_P_P numof totalWI N M inputRe inputIm dim lengths
        stride_in stride_out 1) ∧
      ∀ (order : List Nat) (s : PMem R) (loc : Nat), loc < M →
        (launch (mul_device_P_P numof totalWI N M inputRe inputIm dim lengths
          stride_in stride_out 1) order s).outputRe loc = s.outputRe loc ∧
        (launch (mul_device_P_P numof totalWI N M inputRe inputIm dim lengths
          stride_in stride_out 1) order s).outputIm loc = s.outputIm loc) := by
  have h1 := I_I_padSafe load_cb store_cb numof totalWI N M input dim lengths stride_in
    stride_out hfit
  have h2 := P_I_padSafe numof totalWI N M inputRe inputIm dim lengths stride_in stride_out hfit
  have h3 := I_P_padSafe numof totalWI N M input dim lengths stride_in stride_out hfit
  have h4 := P_P_padSafe numof totalWI N M inputRe inputIm dim lengths stride_in stride_out hfit
    hfitP
  exact ⟨⟨h1, IMem.loadsBelowStores_of_padSafe N M hNM _ h1,
      fun order s loc hloc => IMem.launch_frame_of_padSafe N M _ h1 order s loc hloc⟩,
    ⟨h2, IMem.loadsBelowStores_of_padSafe N M hNM _ h2,
      fun order s loc hloc => IMem.launch_frame_of_padSafe N M _ h2 order s loc hloc⟩,
    ⟨h3, PMem.planar_loadsBelowStores_of_padSafe N M hNM _ h3,
      fun order s loc hloc => PMem.planar_launch_frame_of_padSafe N M _ h3 order s loc hloc⟩,
    ⟨h4, PMem.planar_loadsBelowStores_of_padSafe N M hNM _ h4,
      fun order s loc hloc => PMem.planar_launch_frame_of_padSafe N M _ h4 order s loc hloc⟩⟩

end PadRegionClaim

theorem pad_multiply_keeps_chirp_witness :
    (2 ≤ 4 ∧
      (∀ tx, tx < 8 →
        (addressing 4 1 demoLengths unitStride wideStride tx).oIdx + 4
          + (addressing 4 1 demoLengths unitStride wideStride tx).oOffset < 2 ^ 64) ∧
      (∀ tx, tx < 8 →
        (addressing 4 1 demoLengths unitStride wideStride tx).tx + 4
          + (addressing 4 1 demoLengths unitStride wideStride tx).oOffset < 2 ^ 64)) ∧
    ((IMem.padSafe 2 4 (mul_device_I_I load_cb_default store_cb_default 4 8 2 4 demoIn 1
        demoLengths unitStride wideStride 1) ∧
      IMem.loadsBelowStores (mul_device_I_I load_cb_default store_cb_default 4 8 2 4 demoIn 1
        demoLengths unitStride wideStride 1) ∧
      ∀ (order : List Nat) (s : IMem Int) (loc : Nat), loc < 4 →
        (launch (mul_device_I_I load_cb_default store_cb_default 4 8 2 4 demoIn 1
          demoLengths unitStride wideStride 1) order s).output loc = s.output loc) ∧
    (IMem.padSafe 2 4 (mul_device_P_I 4 8 2 4 (planeRe demoIn) (planeIm demoIn) 1 demoLengths
        unitStride wideStride 1) ∧
      IMem.loadsBelowStores (mul_device_P_I 4 8 2 4 (planeRe demoIn) (planeIm demoIn) 1
        demoLengths unitStride wideStride 1) ∧
      ∀ (order : List Nat) (s : IMem Int) (loc : Nat), loc < 4 →
        (launch (mul_device_P_I 4 8 2 4 (planeRe demoIn) (planeIm demoIn) 1 demoLengths
          unitStride wideStride 1) order s).output loc = s.output loc) ∧
    (PMem.padSafe 2 4 (mul_device_I_P 4 8 2 4 demoIn 1 demoLengths unitStride wideStride 1) ∧
      PMem.loadsBelowStores (mul_device_I_P 4 8 2 4 demoIn 1 demoLengths unitStride
        wideStride 1) ∧
      ∀ (order : List Nat) (s : PMem Int) (loc : Nat), loc < 4 →
        (launch (mul_device_I_P 4 8 2 4 demoIn 1 demoLengths unitStride wideStride 1)
          order s).outputRe loc = s.outputRe loc ∧
        (launch (mul_device_I_P 4 8 2 4 demoIn 1 demoLengths unitStride wideStride 1)
          order s).outputIm loc = s.outputIm loc) ∧
    (PMem.padSafe 2 4 (mul_device_P_P 4 8 2 4 (planeRe demoIn) (planeIm demoIn) 1 demoLengths
        unitStride wideStride 1) ∧
      PMem.loadsBelowStores (mul_device_P_P 4 8 2 4 (planeRe demoIn) (planeIm demoIn) 1
        demoLengths unitStride wideStride 1) ∧
      ∀ (order : List Nat) (s : PMem Int) (loc : Nat), loc < 4 →
        (launch (mul_device_P_P 4 8 2 4 (planeRe demoIn) (planeIm demoIn) 1 demoLengths
          unitStride wideStride 1) order s).outputRe loc = s.outputRe loc ∧
        (launch (mul_device_P_P 4 8 2 4 (planeRe demoIn) (planeIm demoIn) 1 demoLengths
          unitStride wideStride 1) order s).outputIm loc = s.outputIm loc)) :=
  ⟨⟨by decide, by intro tx h; interval_cases tx <;> decide,
      by intro tx h; interval_cases tx <;> decide⟩,
    pad_multiply_keeps_chirp load_cb_default store_cb_default 4 8 2 4 demoIn (planeRe demoIn)
      (planeIm demoIn) 1 demoLengths unitStride wideStride (by decide)
      (by intro tx h; interval_cases tx <;> decide)
      (by intro tx h; interval_cases tx <;> decide)⟩

/-- C19 fails as stated when the destination sum wraps: with `N = 2 ≤ M = 4`,
`numof = 4`, rank `1` and `stride_out[0] = 2 ^ 64 - 1`, the scheme-1 work-item
`1` of `mul_device_I_I` (element index `1 < N`, `oOffset = 0`) has the
destination `(2 ^ 64 - 1 + 4 + 0) mod 2 ^ 64 = 3`, below `M`; both its stores go
to `output[3]`, whose value `(10, 17)` becomes `(29, -2)`. -/
theorem pad_multiply_wraps_into_chirp :
    2 ≤ 4 ∧ 1 < 8 ∧
    writtenIdx (IMem.accesses (mul_device_I_I load_cb_default store_cb_default 4 8 2 4 demoIn 1
      demoLengths unitStride wrapStride 1 1) demoOut) = [3, 3] ∧
    3 < 4 ∧
    demoOut.output 3 = ⟨10, 17⟩ ∧
    (after (mul_device_I_I load_cb_default store_cb_default 4 8 2 4 demoIn 1 demoLengths
      unitStride wrapStride 1 1) demoOut).output 3 = ⟨29, -2⟩ ∧
    ¬ IMem.padSafe 2 4 (mul_device_I_I load_cb_default store_cb_default 4 8 2 4 demoIn 1
      demoLengths unitStride wrapStride 1) := by
  refine ⟨by decide, by decide, by decide, by decide, by decide, by decide, fun h => ?_⟩
  have h3 := (h 1 demoOut).1 3 (by decide)
  omega

/-! ## Stores of `kargs_create` into the host table -/

theorem foldl_stores_all (step : HostTab → Nat → HostTab) (P : Nat → Prop) (l : List Nat)
    (hstep : ∀ t i, i ∈ l → (∀ idx ∈ t.stores, P idx) → ∀ idx ∈ (step t i).stores, P idx)
    (t0 : HostTab) (h0 : ∀ idx ∈ t0.stores, P idx) :
    ∀ idx ∈ (l.foldl step t0).stores, P idx := by
  induction l generalizing t0 with
  | nil => simpa using h0
  | cons a l ih =>
    rw [List.foldl_cons]
    exact ih (fun t i hi => hstep t i (List.mem_cons_of_mem a hi)) (step t0 a)
      (hstep t0 a (List.mem_cons_self a l) h0)

theorem put_stores (t : HostTab) (idx v : Nat) : (t.put idx v).stores = t.stores ++ [idx] := rfl

theorem kargs_host_stores_lt (W : Nat) (stack : Nat → Nat) (length inStride outStride : List Nat)
    (iDist oDist : Nat) (hD : length.length < W) :
    ∀ idx ∈ (kargs_host W stack length inStride outStride iDist oDist).stores, idx < 3 * W := by
  unfold kargs_host
  simp only [put_stores, List.mem_append, List.mem_singleton]
  rintro idx ((h | h) | h)
  · refine foldl_stores_all (kargs_copy_step W length inStride outStride) (fun i => i < 3 * W)
      (List.range length.length) ?_ _ ?_ idx h
    · intro t i hi ht idx' hidx'
      have hi' : i < length.length := List.mem_range.mp hi
      simp only [kargs_copy_step, put_stores, List.mem_append, List.mem_singleton] at hidx'
      rcases hidx' with ((h1 | h1) | h1) | h1
      · exact ht idx' h1
      · omega
      · omega
      · omega
    · refine foldl_stores_all (fun t i => t.put i 0) (fun i => i < 3 * W) (List.range (3 * W))
        ?_ _ ?_
      · intro t i hi ht idx' hidx'
        have hi' : i < 3 * W := List.mem_range.mp hi
        simp only [put_stores, List.mem_append, List.mem_singleton] at hidx'
        rcases hidx' with h1 | h1
        · exact ht idx' h1
        · omega
      · simp
  · omega
  · omega

/-- C17, as amended: for every rank `D` strictly below the table width `W`,
`kargs_create` stores only inside the `3 * W`-entry host table, and in the
finished host table the `D` extents, `D` input strides and `D` output strides
are at `t[i]`, `t[W + i]`, `t[2W + i]`, with `iDist` at `t[W + D]` and `oDist`
at `t[2W + D]`, right after the last populated entry of their stride rows. -/
theorem kargs_host_in_bounds (W D : Nat) (stack : Nat → Nat)
    (length inStride outStride : List Nat) (iDist oDist : Nat) (hD : D < W)
    (hl : length.length = D) (hi : inStride.length = D) (ho : outStride.length = D) :
    (∀ idx ∈ (kargs_host W stack length inStride outStride iDist oDist).stores, idx < 3 * W) ∧
    (∀ i, i < D →
      some ((kargs_host W stack length inStride outStride iDist oDist).devkHost i)
        = length[i]? ∧
      some ((kargs_host W stack length inStride outStride iDist oDist).devkHost (W + i))
        = inStride[i]? ∧
      some ((kargs_host W stack length inStride outStride iDist oDist).devkHost (2 * W + i))
        = outStride[i]?) ∧
    (kargs_host W stack length inStride outStride iDist oDist).devkHost (W + D) = iDist ∧
    (kargs_host W stack length inStride outStride iDist oDist).devkHost (2 * W + D) = oDist := by
  subst hl
  have hentry := fun k => kargs_host_entry W stack length inStride outStride iDist oDist k
    (Nat.le_of_lt hD)
  refine ⟨kargs_host_stores_lt W stack length inStride outStride iDist oDist hD, ?_, ?_, ?_⟩
  · intro i hiD
    refine ⟨?_, ?_, ?_⟩
    · rw [hentry]
      have a1 : i ≠ length.length + 2 * W := by omega
      have a2 : i ≠ length.length + W := by omega
      simp [a1, a2, hiD, List.getD_eq_getElem?_getD, List.getElem?_eq_getElem hiD]
    · rw [hentry]
      have a1 : W + i ≠ length.length + 2 * W := by omega
      have a2 : W + i ≠ length.length + W := by omega
      have a3 : ¬ (W + i < length.length) := by omega
      have a4 : i < inStride.length := by omega
      simp [a1, a2, a3, hiD, List.getD_eq_getElem?_getD, List.getElem?_eq_getElem a4]
    · rw [hentry]
      have a1 : 2 * W + i ≠ length.length + 2 * W := by omega
      have a2 : 2 * W + i ≠ length.length + W := by omega
      have a3 : ¬ (2 * W + i < length.length) := by omega
      have a4 : i < outStride.length := by omega
      have a5 : ¬ (W ≤ 2 * W + i ∧ 2 * W + i < W + length.length) := by omega
      simp [a1, a2, a3, a5, hiD, List.getD_eq_getElem?_getD, List.getElem?_eq_getElem a4]
  · rw [hentry]
    have a1 : W + length.length ≠ length.length + 2 * W := by omega
    have a2 : W + length.length = length.length + W := by omega
    rw [if_neg a1, if_pos a2]
  · rw [hentry]
    have a1 : 2 * W + length.length = length.length + 2 * W := by omega
    rw [if_pos a1]

theorem kargs_host_in_bounds_witness :
    (2 < 4 ∧ [5, 6].length = 2 ∧ [1, 5].length = 2 ∧ [1, 5].length = 2) ∧
    ((∀ idx ∈ (kargs_host 4 (fun _ => 9) [5, 6] [1, 5] [1, 5] 30 31).stores, idx < 3 * 4) ∧
    (∀ i, i < 2 →
      some ((kargs_host 4 (fun _ => 9) [5, 6] [1, 5] [1, 5] 30 31).devkHost i) = [5, 6][i]? ∧
      some ((kargs_host 4 (fun _ => 9) [5, 6] [1, 5] [1, 5] 30 31).devkHost (4 + i))
        = [1, 5][i]? ∧
      some ((kargs_host 4 (fun _ => 9) [5, 6] [1, 5] [1, 5] 30 31).devkHost (2 * 4 + i))
        = [1, 5][i]?) ∧
    (kargs_host 4 (fun _ => 9) [5, 6] [1, 5] [1, 5] 30 31).devkHost (4 + 2) = 30 ∧
    (kargs_host 4 (fun _ => 9) [5, 6] [1, 5] [1, 5] 30 31).devkHost (2 * 4 + 2) = 31) :=
  ⟨⟨by decide, by decide, by decide, by decide⟩,
    kargs_host_in_bounds 4 2 (fun _ => 9) [5, 6] [1, 5] [1, 5] 30 31 (by decide) (by decide)
      (by decide) (by decide)⟩

/-- C17 fails as stated: at rank `D = W = 2` the store of `oDist` goes to index
`3 * W = 6`, past the last entry of the host table, and `iDist` is stored at
`t[2W]`, on top of the output stride `outStride[0] = 1` copied there before. -/
theorem kargs_host_full_width :
    [5, 6].length ≤ 2 ∧
    3 * 2 ∈ (kargs_host 2 (fun _ => 9) [5, 6] [1, 5] [1, 5] 30 31).stores ∧
    ¬ (∀ idx ∈ (kargs_host 2 (fun _ => 9) [5, 6] [1, 5] [1, 5] 30 31).stores, idx < 3 * 2) ∧
    (kargs_host 2 (fun _ => 9) [5, 6] [1, 5] [1, 5] 30 31).devkHost (2 * 2 + 0) = 30 ∧
    some ((kargs_host 2 (fun _ => 9) [5, 6] [1, 5] [1, 5] 30 31).devkHost (2 * 2 + 0))
      ≠ [1, 5][0]? := by
  decide


end RocFFT
